import Mathlib

/-!
# Sea-battle: a shallow embedding of `Project1/Source.cpp`

The game logic of the repository (classes `Ship`, `BattleGrid` and the AI part of
`Game`) is translated into pure Lean functions.  C++ `int` values are modelled by
`Int` (all arithmetic in the program is on small grid coordinates), a
`std::vector` by a `List`, and a mutating member function by a function that
returns the new object (together with the C++ return value, when there is one).
-/

namespace SeaBattle

/-- The constant `GRID_SIZE` of the source. -/
def GRID_SIZE : Int := 10

/-- The enumeration `CellState`. -/
inductive CellState where
  | Empty
  | Ship
  | Hit
  | Miss
  | Destroyed
deriving DecidableEq, Repr

/-- The enumeration `GameState`. -/
inductive GameState where
  | PlayerTurn
  | ComputerTurn
  | PlayerWins
  | ComputerWins
  | ShipPlacement
  | DifficultySelection
  | Animation
deriving DecidableEq, Repr

/-- The enumeration `Difficulty`. -/
inductive Difficulty where
  | Easy
  | Medium
  | Hard
deriving DecidableEq, Repr

/-- The class `Ship`: its four data members. A position is the pair
`(first, second) = (column x, row y)`. -/
structure Ship where
  size : Int
  horizontal : Bool
  positions : List (Int × Int)
  hits : List Bool
deriving DecidableEq, Repr

/-- The constructor `Ship(int s, bool h, int x, int y)`: the loop
`for (i = 0; i < size; ++i)` pushes one position and one `false` per round. -/
def Ship.new (s : Int) (h : Bool) (x y : Int) : Ship :=
  { size := s
    horizontal := h
    positions := (List.range s.toNat).map
      (fun (i : Nat) => if h then (x + (i : Int), y) else (x, y + (i : Int)))
    hits := (List.range s.toNat).map (fun _ => false) }

/-- The method `Ship::isDestroyed`: no entry of `hits` is `false`. -/
def Ship.isDestroyed (s : Ship) : Bool :=
  s.hits.all (fun hit => hit)

/-- The test `x >= 0 && x < GRID_SIZE && y >= 0 && y < GRID_SIZE` that guards
grid accesses throughout the source. -/
def inGrid (x y : Int) : Bool :=
  decide (x ≥ 0) && decide (x < GRID_SIZE) && decide (y ≥ 0) && decide (y < GRID_SIZE)

/-- The read `grid[y][x]` of a `vector<vector<CellState>>`. An index outside the
vectors is undefined behaviour in the source; the model answers `Empty` there, and
no theorem below relies on such a read. -/
def getCell (grid : List (List CellState)) (x y : Int) : CellState :=
  if 0 ≤ x ∧ 0 ≤ y then (grid.getD y.toNat []).getD x.toNat CellState.Empty
  else CellState.Empty

/-- The write `grid[y][x] = v`. An index outside the vectors (undefined behaviour in
the source) leaves the model unchanged. -/
def setCell (grid : List (List CellState)) (x y : Int) (v : CellState) :
    List (List CellState) :=
  if 0 ≤ x ∧ 0 ≤ y then grid.set y.toNat ((grid.getD y.toNat []).set x.toNat v)
  else grid

/-- The class `BattleGrid`: the cell matrix (a list of rows) and the ship list. -/
structure BattleGrid where
  grid : List (List CellState)
  ships : List Ship
deriving DecidableEq, Repr

/-- The constructor `BattleGrid()`: `GRID_SIZE` rows of `GRID_SIZE` empty cells and
no ship. -/
def BattleGrid.new : BattleGrid :=
  { grid := List.replicate GRID_SIZE.toNat (List.replicate GRID_SIZE.toNat CellState.Empty)
    ships := [] }

/-- The method `BattleGrid::clear`: every cell becomes `Empty`, the ship list is
emptied. -/
def BattleGrid.clear (b : BattleGrid) : BattleGrid :=
  { grid := b.grid.map (fun row => row.map (fun _ => CellState.Empty))
    ships := [] }

/-- The integers `lo, lo+1, ..., hi`, the values a loop
`for (int i = lo; i <= hi; ++i)` runs through. -/
def intRange (lo hi : Int) : List Int :=
  (List.range (hi + 1 - lo).toNat).map (fun (k : Nat) => lo + (k : Int))

/-- The method `BattleGrid::canPlaceShip`. The two nested loops return `false` at the
first in-grid cell of the padded box that is not `Empty`, so they are a
conjunction over the box. -/
def BattleGrid.canPlaceShip (b : BattleGrid) (x y size : Int) (horizontal : Bool) : Bool :=
  if horizontal then
    if x + size > GRID_SIZE then false
    else
      (intRange (x - 1) (x + size)).all fun i =>
        (intRange (y - 1) (y + 1)).all fun j =>
          if inGrid i j then decide (getCell b.grid i j = CellState.Empty) else true
  else
    if y + size > GRID_SIZE then false
    else
      (intRange (x - 1) (x + 1)).all fun i =>
        (intRange (y - 1) (y + size)).all fun j =>
          if inGrid i j then decide (getCell b.grid i j = CellState.Empty) else true

/-- The largest value of the 32-bit C++ type `int`. -/
def INT_MAX : Int := 2147483647

/-- The value a 32-bit `int` holds when the mathematical result of an addition or a
subtraction is `n`: two's complement wrap-around, which is `n` itself inside the
range of `int`. C++ leaves signed overflow undefined; wrap-around is what the
add instruction of a two's complement machine computes. -/
def wrapInt32 (n : Int) : Int :=
  (n + 2147483648) % 4294967296 - 2147483648

/-- The method `BattleGrid::canPlaceShip` with each addition and subtraction of the
source carried out in 32-bit `int` arithmetic. It is `canPlaceShip` wherever none of
them overflows. -/
def BattleGrid.canPlaceShip32 (b : BattleGrid) (x y size : Int) (horizontal : Bool) : Bool :=
  if horizontal then
    if wrapInt32 (x + size) > GRID_SIZE then false
    else
      (intRange (wrapInt32 (x - 1)) (wrapInt32 (x + size))).all fun i =>
        (intRange (wrapInt32 (y - 1)) (wrapInt32 (y + 1))).all fun j =>
          if inGrid i j then decide (getCell b.grid i j = CellState.Empty) else true
  else
    if wrapInt32 (y + size) > GRID_SIZE then false
    else
      (intRange (wrapInt32 (x - 1)) (wrapInt32 (x + 1))).all fun i =>
        (intRange (wrapInt32 (y - 1)) (wrapInt32 (y + size))).all fun j =>
          if inGrid i j then decide (getCell b.grid i j = CellState.Empty) else true

/-- The loop `for (pos : ship.positions) grid[pos.second][pos.first] = Ship` of
`placeShip`. -/
def markShipCells (grid : List (List CellState)) (positions : List (Int × Int)) :
    List (List CellState) :=
  positions.foldl (fun g pos => setCell g pos.1 pos.2 CellState.Ship) grid

/-- The method `BattleGrid::placeShip`: the returned flag and the board after the
call. -/
def BattleGrid.placeShip (b : BattleGrid) (x y size : Int) (horizontal : Bool) :
    Bool × BattleGrid :=
  if !b.canPlaceShip x y size horizontal then (false, b)
  else
    let ship := Ship.new size horizontal x y
    (true, { grid := markShipCells b.grid ship.positions
             ships := b.ships ++ [ship] })

/-- The inner body of `markAroundDestroyedShip` at one cell `(x, y)`: an in-grid
`Empty` cell becomes `Miss`. -/
def markEmptyAsMiss (grid : List (List CellState)) (x y : Int) : List (List CellState) :=
  if inGrid x y then
    if getCell grid x y = CellState.Empty then setCell grid x y CellState.Miss else grid
  else grid

/-- One round of the outer loop of `markAroundDestroyedShip`: the 3x3 block around
`pos` is swept (x outer, y inner), then `pos` itself becomes `Destroyed`. -/
def markAroundPosition (grid : List (List CellState)) (pos : Int × Int) :
    List (List CellState) :=
  let swept := (intRange (pos.1 - 1) (pos.1 + 1)).foldl
    (fun g x => (intRange (pos.2 - 1) (pos.2 + 1)).foldl (fun g1 y => markEmptyAsMiss g1 x y) g)
    grid
  setCell swept pos.1 pos.2 CellState.Destroyed

/-- The method `BattleGrid::markAroundDestroyedShip`, on the cell matrix. -/
def markAroundDestroyedShip (grid : List (List CellState)) (ship : Ship) :
    List (List CellState) :=
  ship.positions.foldl markAroundPosition grid

/-- The inner loop of `attack` over `ship.positions`: the first index `i` with
`positions[i] == (x, y)`. -/
def findSegment : List (Int × Int) → Int → Int → Option Nat
  | [], _, _ => none
  | pos :: rest, x, y =>
    if pos.1 = x ∧ pos.2 = y then some 0
    else (findSegment rest x y).map Nat.succ

/-- The assignment `ship.hits[i] = true` of `attack`. -/
def Ship.markHit (s : Ship) (i : Nat) : Ship :=
  { s with hits := s.hits.set i true }

/-- The outer loop of `attack` over `ships`: the first ship with a segment at
`(x, y)` gets `hits[i] = true`. The result is the updated ship list and that ship
(as it is after the update), or `none` when no ship has a segment there. -/
def hitShips : List Ship → Int → Int → Option (List Ship × Ship)
  | [], _, _ => none
  | ship :: rest, x, y =>
    match findSegment ship.positions x y with
    | some i => some (ship.markHit i :: rest, ship.markHit i)
    | none => (hitShips rest x y).map (fun r => (ship :: r.1, r.2))

/-- The method `BattleGrid::attack`: the returned `CellState` and the board after the
call. When the cell is `Ship` but no ship owns it the loops end without returning
and control reaches the final `return grid[y][x]`. -/
def BattleGrid.attack (b : BattleGrid) (x y : Int) : CellState × BattleGrid :=
  if getCell b.grid x y = CellState.Ship then
    let g1 := setCell b.grid x y CellState.Hit
    match hitShips b.ships x y with
    | some (ships1, ship) =>
      if ship.isDestroyed then
        (CellState.Destroyed, { grid := markAroundDestroyedShip g1 ship, ships := ships1 })
      else (CellState.Hit, { grid := g1, ships := ships1 })
    | none => (getCell g1 x y, { grid := g1, ships := b.ships })
  else if getCell b.grid x y = CellState.Empty then
    (CellState.Miss, { grid := setCell b.grid x y CellState.Miss, ships := b.ships })
  else (getCell b.grid x y, b)

/-- The method `BattleGrid::allShipsDestroyed`. -/
def BattleGrid.allShipsDestroyed (b : BattleGrid) : Bool :=
  b.ships.all (fun ship => ship.isDestroyed)

/-- The game-logic data members of the class `Game` (the SFML members for fonts,
texts, clocks and the ripple effect are left out; `firstHitPos` and `lastDirection`
are never read or written by the source). -/
structure Game where
  playerGrid : BattleGrid
  computerGrid : BattleGrid
  state : GameState
  difficulty : Difficulty
  currentShipSize : Int
  currentShipHorizontal : Bool
  shipSizes : List Int
  playerShipsLeft : Int
  computerShipsLeft : Int
  animationTarget : Int × Int
  isPlayerAnimation : Bool
  lastHitPos : Int × Int
  hasLastHit : Bool
  possibleTargets : List (Int × Int)
  isHorizontalPossible : Bool
  isVerticalPossible : Bool
  isHuntingMode : Bool
deriving DecidableEq, Repr

/-- The constructor `Game()`: its member initialisers and the initial `shipSizes`.
The two boards are those of `BattleGrid()`; the pair members start as `(0, 0)`, and
`isPlayerAnimation`, which the constructor leaves unset, is taken as `false` (it is
written by `startAnimation` before `updateAnimation` reads it). -/
def Game.new : Game :=
  { playerGrid := BattleGrid.new
    computerGrid := BattleGrid.new
    state := GameState.DifficultySelection
    difficulty := Difficulty.Medium
    currentShipSize := 4
    currentShipHorizontal := true
    shipSizes := [4, 3, 3, 2, 2, 2, 1, 1, 1, 1]
    playerShipsLeft := 0
    computerShipsLeft := 0
    animationTarget := (0, 0)
    isPlayerAnimation := false
    lastHitPos := (0, 0)
    hasLastHit := false
    possibleTargets := []
    isHorizontalPossible := true
    isVerticalPossible := true
    isHuntingMode := false }

/-- The member `directions` of `Game`. -/
def directions : List (Int × Int) := [(1, 0), (-1, 0), (0, 1), (0, -1)]

/-- The test `cell == CellState::Empty || cell == CellState::Ship` used before every
attack of the source. -/
def isUnresolved (cell : CellState) : Bool :=
  decide (cell = CellState.Empty) || decide (cell = CellState.Ship)

/-- The method `Game::addPossibleTargets`: the loop over `directions` appends each
in-grid neighbour whose player-grid cell is `Empty` or `Ship`. -/
def Game.addPossibleTargets (g : Game) (x y : Int) : Game :=
  directions.foldl
    (fun acc dir =>
      let nx := x + dir.1
      let ny := y + dir.2
      if inGrid nx ny then
        if isUnresolved (getCell acc.playerGrid.grid nx ny) then
          { acc with possibleTargets := acc.possibleTargets ++ [(nx, ny)] }
        else acc
      else acc)
    g

/-- The method `Game::clearPossibleTargets`. -/
def Game.clearPossibleTargets (g : Game) : Game :=
  { g with
    possibleTargets := []
    hasLastHit := false
    isHorizontalPossible := true
    isVerticalPossible := true
    isHuntingMode := false }

/-- The method `Game::updateDirectionInfo`. -/
def Game.updateDirectionInfo (g : Game) (x y : Int) : Game :=
  let grid := g.playerGrid.grid
  let leftHit := decide (x > 0) && decide (getCell grid (x - 1) y = CellState.Hit)
  let rightHit := decide (x < GRID_SIZE - 1) && decide (getCell grid (x + 1) y = CellState.Hit)
  let topHit := decide (y > 0) && decide (getCell grid x (y - 1) = CellState.Hit)
  let bottomHit := decide (y < GRID_SIZE - 1) && decide (getCell grid x (y + 1) = CellState.Hit)
  if (leftHit || rightHit) && !topHit && !bottomHit then
    { g with isHorizontalPossible := true, isVerticalPossible := false }
  else if !leftHit && !rightHit && (topHit || bottomHit) then
    { g with isHorizontalPossible := false, isVerticalPossible := true }
  else g

/-- The method `Game::startAnimation`, without its ripple-effect part. -/
def Game.startAnimation (g : Game) (x y : Int) (isPlayer : Bool) : Game :=
  { g with
    animationTarget := (x, y)
    isPlayerAnimation := isPlayer
    state := GameState.Animation }

/-- One call `dis(gen)` of a `std::uniform_int_distribution<>(0, n - 1)`: the random
source is a stream `rng` of naturals read at position `pos`, and the value drawn
is `rng pos % n`, which ranges over exactly `0 .. n - 1` as `rng pos` varies. -/
def draw (rng : Nat → Nat) (pos : Nat) (n : Nat) : Nat :=
  rng pos % n

/-- The random attack of `computerTurn` (the same code in all three difficulty
branches): two draws from `0 .. GRID_SIZE - 1`, and the attack starts only on an
`Empty` or `Ship` cell. Result: the game, the next stream position and the flag
`attacked`. -/
def Game.randomAttack (g : Game) (rng : Nat → Nat) (pos : Nat) : Game × Nat × Bool :=
  let x : Int := (draw rng pos GRID_SIZE.toNat : Nat)
  let y : Int := (draw rng (pos + 1) GRID_SIZE.toNat : Nat)
  if isUnresolved (getCell g.playerGrid.grid x y) then
    (g.startAnimation x y false, pos + 2, true)
  else (g, pos + 2, false)

/-- The Medium branch of one round of the `while (!attacked)` loop. -/
def Game.mediumRound (g : Game) (rng : Nat → Nat) (pos : Nat) : Game × Nat × Bool :=
  if g.hasLastHit && !g.possibleTargets.isEmpty then
    let first := g.possibleTargets.find?
      (fun target => isUnresolved (getCell g.playerGrid.grid target.1 target.2))
    let g1 := match first with
      | some target => g.startAnimation target.1 target.2 false
      | none => g
    let kept := g1.possibleTargets.filter
      (fun p => !(decide (getCell g1.playerGrid.grid p.1 p.2 ≠ CellState.Empty)
        && decide (getCell g1.playerGrid.grid p.1 p.2 ≠ CellState.Ship)))
    ({ g1 with possibleTargets := kept }, pos, first.isSome)
  else g.randomAttack rng pos

/-- The Hard branch of one round of the `while (!attacked)` loop. In the unfiltered
case the source draws twice from the same distribution: once for the target and
once for the index that is erased. -/
def Game.hardRound (g : Game) (rng : Nat → Nat) (pos : Nat) : Game × Nat × Bool :=
  if g.hasLastHit && !g.possibleTargets.isEmpty then
    let g1 := g.updateDirectionInfo g.lastHitPos.1 g.lastHitPos.2
    let filteredTargets := g1.possibleTargets.filter
      (fun p => (g1.isHorizontalPossible && decide (p.2 = g1.lastHitPos.2))
        || (!g1.isHorizontalPossible && decide (p.1 = g1.lastHitPos.1)))
    let chosen : (Int × Int) × List (Int × Int) × Nat :=
      if !filteredTargets.isEmpty then
        let target := filteredTargets.getD (draw rng pos filteredTargets.length) (0, 0)
        (target, g1.possibleTargets.filter (fun p => decide (p ≠ target)), pos + 1)
      else
        let target := g1.possibleTargets.getD (draw rng pos g1.possibleTargets.length) (0, 0)
        (target, g1.possibleTargets.eraseIdx (draw rng (pos + 1) g1.possibleTargets.length),
          pos + 2)
    let target := chosen.1
    let g2 : Game := { g1 with possibleTargets := chosen.2.1 }
    if isUnresolved (getCell g2.playerGrid.grid target.1 target.2) then
      (g2.startAnimation target.1 target.2 false, chosen.2.2, true)
    else (g2, chosen.2.2, false)
  else g.randomAttack rng pos

/-- The body of the `while (!attacked)` loop of `computerTurn`. -/
def Game.computerRound (g : Game) (rng : Nat → Nat) (pos : Nat) : Game × Nat × Bool :=
  match g.difficulty with
  | Difficulty.Easy => g.randomAttack rng pos
  | Difficulty.Medium => g.mediumRound rng pos
  | Difficulty.Hard => g.hardRound rng pos

/-- The loop `while (!attacked)` of `computerTurn`, with a bound `fuel` on the number
of rounds: `none` when the bound is reached before an attack starts. -/
def Game.computerLoop : Nat → Game → (Nat → Nat) → Nat → Option (Game × Nat)
  | 0, _, _, _ => none
  | fuel + 1, g, rng, pos =>
    let r := g.computerRound rng pos
    if r.2.2 then some (r.1, r.2.1) else Game.computerLoop fuel r.1 rng r.2.1

/-- The method `Game::computerTurn`. `elapsedMs` is the reading of
`computerTurnClock`; before 800 ms the method returns at once. -/
def Game.computerTurn (fuel : Nat) (g : Game) (elapsedMs : Nat) (rng : Nat → Nat) (pos : Nat) :
    Option (Game × Nat) :=
  if elapsedMs < 800 then some (g, pos)
  else Game.computerLoop fuel g rng pos

/-- The count of ships that are not destroyed, as `updateShipsCount` computes it. -/
def aliveShips (b : BattleGrid) : Int :=
  ((b.ships.filter (fun ship => !ship.isDestroyed)).length : Nat)

/-- The method `Game::updateShipsCount` (its text output left out). -/
def Game.updateShipsCount (g : Game) : Game :=
  { g with
    playerShipsLeft := aliveShips g.playerGrid
    computerShipsLeft := aliveShips g.computerGrid }

/-- The branch `if (isPlayerAnimation)` of `updateAnimation`: the player's attack on
the computer grid is applied and the next state chosen. -/
def Game.resolvePlayerAttack (g : Game) : Game :=
  let r := g.computerGrid.attack g.animationTarget.1 g.animationTarget.2
  let g1 : Game := { g with computerGrid := r.2 }
  if g1.computerGrid.allShipsDestroyed then { g1 with state := GameState.PlayerWins }
  else if r.1 = CellState.Miss then { g1 with state := GameState.ComputerTurn }
  else { g1 with state := GameState.PlayerTurn }

/-- The `else` branch of `updateAnimation`: the computer's attack on the player grid
is applied, the AI memory updated and the next state chosen. -/
def Game.resolveComputerAttack (g : Game) : Game :=
  let r := g.playerGrid.attack g.animationTarget.1 g.animationTarget.2
  let result := r.1
  let g1 : Game := { g with playerGrid := r.2 }
  let g2 : Game :=
    if result = CellState.Hit ∨ result = CellState.Destroyed then
      let g1a : Game := { g1 with lastHitPos := g1.animationTarget, hasLastHit := true }
      match g1a.difficulty with
      | Difficulty.Hard =>
        (g1a.updateDirectionInfo g1a.animationTarget.1 g1a.animationTarget.2).addPossibleTargets
          g1a.animationTarget.1 g1a.animationTarget.2
      | Difficulty.Medium => g1a.addPossibleTargets g1a.animationTarget.1 g1a.animationTarget.2
      | Difficulty.Easy => g1a
    else g1
  let g3 : Game := if result = CellState.Destroyed then g2.clearPossibleTargets else g2
  if g3.playerGrid.allShipsDestroyed then { g3 with state := GameState.ComputerWins }
  else if result = CellState.Miss then { g3 with state := GameState.PlayerTurn }
  else { g3 with state := GameState.ComputerTurn }

/-- The method `Game::updateAnimation`. `finished` is the test
`animationProgress >= 1.0f`; the ripple effect is left out. -/
def Game.updateAnimation (g : Game) (finished : Bool) : Game :=
  if finished then
    let g1 := if g.isPlayerAnimation then g.resolvePlayerAttack else g.resolveComputerAttack
    let g2 := g1.updateShipsCount
    { g2 with state := if g2.state = GameState.Animation then GameState.PlayerTurn else g2.state }
  else g

/-! ## Vocabulary of the properties -/

/-- A matrix of the shape the constructor `BattleGrid()` builds: `GRID_SIZE` rows of
`GRID_SIZE` cells. -/
def GridWF (g : List (List CellState)) : Prop :=
  g.length = GRID_SIZE.toNat ∧ ∀ row ∈ g, row.length = GRID_SIZE.toNat

/-- Chebyshev distance of two coordinates: the larger of the column and the row
distance. -/
def chebyshev (p q : Int × Int) : Nat :=
  max (p.1 - q.1).natAbs (p.2 - q.2).natAbs

/-- Boards reached from the board of the constructor by `placeShip` calls with an
in-grid origin and a size of at least one, and `attack` calls on in-grid cells. -/
inductive Reachable : BattleGrid → Prop
  | new : Reachable BattleGrid.new
  | placeShip (b : BattleGrid) (x y size : Int) (horizontal : Bool) :
      Reachable b → inGrid x y = true → 1 ≤ size →
      Reachable (b.placeShip x y size horizontal).2
  | attack (b : BattleGrid) (x y : Int) :
      Reachable b → inGrid x y = true → Reachable (b.attack x y).2

/-- Shape of a recorded ship: one `hits` entry per segment, at least one segment, no
segment twice, every segment in the grid. -/
structure ShipOk (s : Ship) : Prop where
  len : s.hits.length = s.positions.length
  nonempty : s.positions ≠ []
  nodup : s.positions.Nodup
  inside : ∀ p ∈ s.positions, inGrid p.1 p.2 = true

/-- Two ships keep a one-cell buffer: all pairs of their segments are at Chebyshev
distance at least two. -/
def Separated (s t : Ship) : Prop :=
  ∀ p ∈ s.positions, ∀ q ∈ t.positions, 2 ≤ chebyshev p q

/-- The cell state that belongs to segment `i` of ship `s`: `Ship` while the segment
is unhit, `Hit` once it is hit, `Destroyed` once the whole ship is. -/
def segmentState (s : Ship) (i : Nat) : CellState :=
  if s.hits.getD i false then
    if s.isDestroyed then CellState.Destroyed else CellState.Hit
  else CellState.Ship

/-- The invariant of reachable boards that links the cell matrix and the ship list. -/
structure BoardInv (b : BattleGrid) : Prop where
  wf : GridWF b.grid
  shipOk : ∀ s ∈ b.ships, ShipOk s
  sep : b.ships.Pairwise Separated
  sync : ∀ s ∈ b.ships, ∀ i, i < s.positions.length →
    getCell b.grid (s.positions.getD i (0, 0)).1 (s.positions.getD i (0, 0)).2 = segmentState s i
  owned : ∀ x y, getCell b.grid x y ≠ CellState.Empty → getCell b.grid x y ≠ CellState.Miss →
    ∃ s ∈ b.ships, (x, y) ∈ s.positions
  halo : ∀ s ∈ b.ships, s.isDestroyed = true → ∀ p ∈ s.positions, ∀ x y,
    inGrid x y = true → chebyshev p (x, y) ≤ 1 → getCell b.grid x y ≠ CellState.Empty

/-- What one round of the loop of `computerTurn` guarantees: the player grid is not
touched, the candidates stay in the grid, and a round that attacks has chosen an
in-grid cell that is `Empty` or `Ship`. -/
def RoundOk (g : Game) (r : Game × Nat × Bool) : Prop :=
  r.1.playerGrid = g.playerGrid ∧ r.1.difficulty = g.difficulty ∧
  (∀ p ∈ r.1.possibleTargets, inGrid p.1 p.2 = true) ∧
  (r.2.2 = true →
    r.1.state = GameState.Animation ∧ r.1.isPlayerAnimation = false ∧
    inGrid r.1.animationTarget.1 r.1.animationTarget.2 = true ∧
    isUnresolved (getCell g.playerGrid.grid r.1.animationTarget.1 r.1.animationTarget.2) = true)

/-- A sample state for instantiating the theorems: difficulty `d`, the player's board
holds one horizontal size-3 ship at (5,5), and the animation of a computer attack
on (5,5) is running. -/
def sampleGame (d : Difficulty) : Game :=
  { Game.new with
    difficulty := d
    playerGrid := (BattleGrid.new.placeShip 5 5 3 true).2
    state := GameState.Animation
    animationTarget := (5, 5)
    isPlayerAnimation := false }

/-! ## Events, `start`, `handleEvent`, `update` -/

/-- The constant `CELL_SIZE` of the source. -/
def CELL_SIZE : Int := 40

/-- The constant `MARGIN` of the source. -/
def MARGIN : Int := 50

/-- The constant `GRID_OFFSET_X` of the source. -/
def GRID_OFFSET_X : Int := MARGIN

/-- The constant `GRID_OFFSET_Y` of the source. -/
def GRID_OFFSET_Y : Int := MARGIN

/-- The constant `WINDOW_WIDTH` of the source. -/
def WINDOW_WIDTH : Int := 2 * MARGIN + 2 * GRID_SIZE * CELL_SIZE + MARGIN

/-- The fleet `{4, 3, 3, 2, 2, 2, 1, 1, 1, 1}` that `start` assigns to `shipSizes` and
that `placeComputerShips` runs through. -/
def fleetSizes : List Int := [4, 3, 3, 2, 2, 2, 1, 1, 1, 1]

/-- The part of an `sf::Event` that `handleEvent` looks at: a press of the left mouse
button at window coordinates `(mouseX, mouseY)`, a press of another mouse button,
a press of the key R, a press of another key, any other event. -/
inductive Event where
  | mouseLeft (mouseX mouseY : Int)
  | mouseOther
  | keyR
  | keyOther
  | other
deriving DecidableEq, Repr

/-- The loop `while (!placed)` of `placeComputerShips` for one ship size, with a bound
`fuel` on the number of rounds. A round draws `x`, `y` from `0 .. GRID_SIZE - 1` and
the orientation from `0 .. 1` (`horizontal` is `dir(gen) == 0`). -/
def placeOneShip : Nat → BattleGrid → Int → (Nat → Nat) → Nat → Option (BattleGrid × Nat)
  | 0, _, _, _, _ => none
  | fuel + 1, b, size, rng, pos =>
    let x : Int := (draw rng pos GRID_SIZE.toNat : Nat)
    let y : Int := (draw rng (pos + 1) GRID_SIZE.toNat : Nat)
    let horizontal : Bool := decide (draw rng (pos + 2) 2 = 0)
    let r := b.placeShip x y size horizontal
    if r.1 then some (r.2, pos + 3) else placeOneShip fuel r.2 size rng (pos + 3)

/-- The loop `for (int size : {4, 3, 3, 2, 2, 2, 1, 1, 1, 1})` of `placeComputerShips`
over a list of sizes; `fuel` bounds the rounds spent on each ship. -/
def placeShipsOfSizes : Nat → List Int → BattleGrid → (Nat → Nat) → Nat →
    Option (BattleGrid × Nat)
  | _, [], b, _, pos => some (b, pos)
  | fuel, size :: rest, b, rng, pos =>
    match placeOneShip fuel b size rng pos with
    | none => none
    | some r => placeShipsOfSizes fuel rest r.1 rng r.2

/-- The method `Game::placeComputerShips`; `none` when the bound on the rounds is
reached for some ship. -/
def Game.placeComputerShips (fuel : Nat) (g : Game) (rng : Nat → Nat) (pos : Nat) :
    Option (Game × Nat) :=
  (placeShipsOfSizes fuel fleetSizes g.computerGrid rng pos).map
    (fun r => ({ g with computerGrid := r.1 }, r.2))

/-- The method `Game::start` (its status text left out). -/
def Game.start (fuel : Nat) (g : Game) (rng : Nat → Nat) (pos : Nat) : Option (Game × Nat) :=
  let g1 : Game := { g with playerGrid := g.playerGrid.clear, computerGrid := g.computerGrid.clear }
  (g1.placeComputerShips fuel rng pos).map
    (fun r =>
      (({ r.1 with
          state := GameState.ShipPlacement
          currentShipSize := 4
          currentShipHorizontal := true
          shipSizes := fleetSizes
          playerShipsLeft := 10
          computerShipsLeft := 10 } : Game).clearPossibleTargets, r.2))

/-- The branch `state == GameState::ShipPlacement` of `handleEvent` for a left click:
a click on the player's grid tries to place the pending ship, a click on the rotate
button toggles the orientation. `shipSizes.erase(shipSizes.begin())` is the tail of
the list; the integer divisions of the source truncate (`Int.tdiv`). -/
def Game.placementClick (g : Game) (mouseX mouseY : Int) : Game :=
  if mouseX ≥ GRID_OFFSET_X ∧ mouseX < GRID_OFFSET_X + GRID_SIZE * CELL_SIZE ∧
      mouseY ≥ GRID_OFFSET_Y ∧ mouseY < GRID_OFFSET_Y + GRID_SIZE * CELL_SIZE then
    let gridX := (mouseX - GRID_OFFSET_X).tdiv CELL_SIZE
    let gridY := (mouseY - GRID_OFFSET_Y).tdiv CELL_SIZE
    let r := g.playerGrid.placeShip gridX gridY g.currentShipSize g.currentShipHorizontal
    let g1 : Game := { g with playerGrid := r.2 }
    if r.1 then
      let g2 : Game := { g1 with shipSizes := g1.shipSizes.tail }
      if g2.shipSizes.isEmpty then { g2 with state := GameState.PlayerTurn }
      else { g2 with currentShipSize := g2.shipSizes.getD 0 0 }
    else g1
  else if mouseX ≥ WINDOW_WIDTH.tdiv 2 - 50 ∧ mouseX < WINDOW_WIDTH.tdiv 2 + 50 ∧
      mouseY ≥ GRID_OFFSET_Y + GRID_SIZE * CELL_SIZE + 20 ∧
      mouseY < GRID_OFFSET_Y + GRID_SIZE * CELL_SIZE + 60 then
    { g with currentShipHorizontal := !g.currentShipHorizontal }
  else g

/-- The branch `state == GameState::PlayerTurn` of `handleEvent` for a left click: a
click on an `Empty` or `Ship` cell of the computer's grid starts the player's
attack. -/
def Game.attackClick (g : Game) (mouseX mouseY : Int) : Game :=
  if mouseX ≥ GRID_OFFSET_X + GRID_SIZE * CELL_SIZE + MARGIN ∧
      mouseX < GRID_OFFSET_X + 2 * GRID_SIZE * CELL_SIZE + MARGIN ∧
      mouseY ≥ GRID_OFFSET_Y ∧ mouseY < GRID_OFFSET_Y + GRID_SIZE * CELL_SIZE then
    let gridX := (mouseX - GRID_OFFSET_X - GRID_SIZE * CELL_SIZE - MARGIN).tdiv CELL_SIZE
    let gridY := (mouseY - GRID_OFFSET_Y).tdiv CELL_SIZE
    if isUnresolved (getCell g.computerGrid.grid gridX gridY) then
      g.startAnimation gridX gridY true
    else g
  else g

/-- The branch `state == GameState::DifficultySelection` of `handleEvent` for a left
click: a click on one of the three buttons sets the difficulty and calls `start`. -/
def Game.difficultyClick (fuel : Nat) (g : Game) (mouseX mouseY : Int) (rng : Nat → Nat)
    (pos : Nat) : Option (Game × Nat) :=
  if mouseY ≥ 100 ∧ mouseY ≤ 140 then
    if mouseX ≥ WINDOW_WIDTH.tdiv 2 - 100 ∧ mouseX ≤ WINDOW_WIDTH.tdiv 2 - 20 then
      Game.start fuel { g with difficulty := Difficulty.Easy } rng pos
    else if mouseX ≥ WINDOW_WIDTH.tdiv 2 - 10 ∧ mouseX ≤ WINDOW_WIDTH.tdiv 2 + 70 then
      Game.start fuel { g with difficulty := Difficulty.Medium } rng pos
    else if mouseX ≥ WINDOW_WIDTH.tdiv 2 + 80 ∧ mouseX ≤ WINDOW_WIDTH.tdiv 2 + 180 then
      Game.start fuel { g with difficulty := Difficulty.Hard } rng pos
    else some (g, pos)
  else some (g, pos)

/-- The method `Game::handleEvent`. The result is `none` only when `start` is called
and the bound `fuel` on the rounds of `placeComputerShips` is reached. -/
def Game.handleEvent (fuel : Nat) (g : Game) (event : Event) (rng : Nat → Nat) (pos : Nat) :
    Option (Game × Nat) :=
  match event with
  | Event.mouseLeft mouseX mouseY =>
    if g.state = GameState.DifficultySelection then g.difficultyClick fuel mouseX mouseY rng pos
    else if g.state = GameState.ShipPlacement then some (g.placementClick mouseX mouseY, pos)
    else if g.state = GameState.PlayerTurn then some (g.attackClick mouseX mouseY, pos)
    else some (g, pos)
  | Event.keyR =>
    if g.state = GameState.ShipPlacement then
      some ({ g with currentShipHorizontal := !g.currentShipHorizontal }, pos)
    else if g.state = GameState.PlayerWins ∨ g.state = GameState.ComputerWins then
      some ({ g with state := GameState.DifficultySelection }, pos)
    else some (g, pos)
  | _ => some (g, pos)

/-- The method `Game::update`. `finished` and `elapsedMs` are the clock readings that
`updateAnimation` and `computerTurn` take. -/
def Game.update (fuel : Nat) (g : Game) (finished : Bool) (elapsedMs : Nat) (rng : Nat → Nat)
    (pos : Nat) : Option (Game × Nat) :=
  if g.state = GameState.Animation then some (g.updateAnimation finished, pos)
  else if g.state = GameState.ComputerTurn then Game.computerTurn fuel g elapsedMs rng pos
  else some (g, pos)

/-- What the main loop feeds the game: an event for `handleEvent`, or a call of
`update` with the clock readings of that moment. -/
inductive Input where
  | event (e : Event)
  | tick (finished : Bool) (elapsedMs : Nat)
deriving DecidableEq, Repr

/-- One call of `handleEvent` or `update` from the main loop. -/
def Game.step (fuel : Nat) (g : Game) (input : Input) (rng : Nat → Nat) (pos : Nat) :
    Option (Game × Nat) :=
  match input with
  | Input.event e => g.handleEvent fuel e rng pos
  | Input.tick finished elapsedMs => g.update fuel finished elapsedMs rng pos

/-- The main loop of `main` on a list of inputs, from a game and a position of the
random stream. -/
def Game.run (fuel : Nat) (rng : Nat → Nat) : List Input → Game × Nat → Option (Game × Nat)
  | [], s => some s
  | input :: rest, s =>
    match Game.step fuel s.1 input rng s.2 with
    | none => none
    | some s1 => Game.run fuel rng rest s1

/-- The game states (with the position in the random stream `rng`) that the main loop
reaches from the state of the constructor `Game()`. -/
inductive RunsTo (rng : Nat → Nat) : Game → Nat → Prop
  | new : RunsTo rng Game.new 0
  | step (g : Game) (pos : Nat) (fuel : Nat) (input : Input) (r : Game × Nat) :
      RunsTo rng g pos → Game.step fuel g input rng pos = some r → RunsTo rng r.1 r.2

/-- A game state that some run of the main loop reaches, for some stream of random
draws. -/
def GameReachable (g : Game) : Prop :=
  ∃ rng pos, RunsTo rng g pos

/-- The state of the placement phase after `k` successful placements: the phase is
`ShipPlacement`, the first `k` sizes of the fleet are consumed and recorded on
the player's board in order, and the pending size is the next one. -/
def PlacementAt (k : Nat) (g : Game) : Prop :=
  g.state = GameState.ShipPlacement ∧ g.shipSizes = fleetSizes.drop k ∧
  g.currentShipSize = fleetSizes.getD k 0 ∧
  g.playerGrid.ships.map Ship.size = fleetSizes.take k

/-- A sample stream of draws: ten placements of the computer's fleet that all succeed
(`x`, `y`, orientation for each ship), then the coordinate (0,0); 0 from then on. -/
def sampleRng (i : Nat) : Nat :=
  [0, 0, 0, 0, 2, 0, 0, 4, 0, 0, 6, 0, 0, 8, 0, 5, 0, 0, 5, 2, 0, 5, 4, 0, 5, 6, 0, 5, 8, 0,
    0, 0].getD i 0

/-- A sample run: the Medium button, the ten placements of the player's fleet. -/
def samplePlacement : List Input :=
  [Input.event (Event.mouseLeft 500 120),
    Input.event (Event.mouseLeft 55 55), Input.event (Event.mouseLeft 55 135),
    Input.event (Event.mouseLeft 55 215), Input.event (Event.mouseLeft 55 295),
    Input.event (Event.mouseLeft 55 375), Input.event (Event.mouseLeft 255 55),
    Input.event (Event.mouseLeft 255 135), Input.event (Event.mouseLeft 255 215),
    Input.event (Event.mouseLeft 255 295), Input.event (Event.mouseLeft 255 375)]

/-- The sample run continued: the player misses at (9,9), the computer draws (0,0) and
hits the player's size-4 ship there. -/
def sampleInputs : List Input :=
  samplePlacement ++
    [Input.event (Event.mouseLeft 865 415), Input.tick true 0, Input.tick false 800,
      Input.tick true 0]

/-- The state at the end of the sample run (the constructor's state if the run did
not return, which it does). -/
def sampleMediumGame : Game :=
  ((Game.run 1 sampleRng sampleInputs (Game.new, 0)).getD (Game.new, 0)).1

/-- The cell `(x, y)` lies in the grid and is `Hit` on board `b`. -/
def hitAt (b : BattleGrid) (x y : Int) : Prop :=
  inGrid x y = true ∧ getCell b.grid x y = CellState.Hit

/-- The coordinate `p` shares the row (`horizontal`) or the column (otherwise) of
`q`. -/
def onLine (horizontal : Bool) (p q : Int × Int) : Prop :=
  if horizontal then p.2 = q.2 else p.1 = q.1

/-- What makes the Hard round keep its targets on one line through the last hit:
Hard difficulty, a last hit, the value `horizontal` that `isHorizontalPossible` has
once `updateDirectionInfo` has run at the last hit, and a candidate on that line
whose cell is `Empty` or `Ship`. -/
structure LineHunt (horizontal : Bool) (g : Game) : Prop where
  hard : g.difficulty = Difficulty.Hard
  last : g.hasLastHit = true
  settled :
    (g.updateDirectionInfo g.lastHitPos.1 g.lastHitPos.2).isHorizontalPossible = horizontal
  candidate : ∃ p ∈ g.possibleTargets, onLine horizontal p g.lastHitPos ∧
    isUnresolved (getCell g.playerGrid.grid p.1 p.2) = true

/-- The sample Hard game after two hits in a row: the hit on (5,5) is resolved, the
computer's next turn (all draws 0) attacks (6,5), and that attack is resolved as a
second hit. -/
def sampleTwoHits : Game :=
  ((Game.computerTurn 1 ((sampleGame Difficulty.Hard).updateAnimation true) 800
    (fun _ => 0) 0).getD (sampleGame Difficulty.Hard, 0)).1.updateAnimation true

/-- A sample stream of draws for a Hard game: the ten placements of `sampleRng`, then
the coordinate (2,1), then the draws 0, 0, 0, 1 of three Hard turns. -/
def sampleHardRng (i : Nat) : Nat :=
  [0, 0, 0, 0, 2, 0, 0, 4, 0, 0, 6, 0, 0, 8, 0, 5, 0, 0, 5, 2, 0, 5, 4, 0, 5, 6, 0, 5, 8, 0,
    2, 1, 0, 0, 0, 1].getD i 0

/-- A sample Hard run: the Hard button, the key R (vertical), the ten placements of
the player's fleet in columns 0, 2, 4, 6, 8; the player misses at (9,9) and the
computer hits the middle (2,1) of the size-3 ship in column 2 and then misses at
(3,1); the player misses at (9,8) and the computer misses at (1,1); the player
misses at (9,7). The computer's next turn finds the queue (2,2), (2,0). -/
def sampleHardInputs : List Input :=
  [Input.event (Event.mouseLeft 600 120), Input.event Event.keyR,
    Input.event (Event.mouseLeft 55 55), Input.event (Event.mouseLeft 135 55),
    Input.event (Event.mouseLeft 215 55), Input.event (Event.mouseLeft 295 55),
    Input.event (Event.mouseLeft 375 55), Input.event (Event.mouseLeft 55 255),
    Input.event (Event.mouseLeft 135 255), Input.event (Event.mouseLeft 215 255),
    Input.event (Event.mouseLeft 295 255), Input.event (Event.mouseLeft 375 255),
    Input.event (Event.mouseLeft 865 415), Input.tick true 0,
    Input.tick false 800, Input.tick true 0,
    Input.tick false 800, Input.tick true 0,
    Input.event (Event.mouseLeft 865 375), Input.tick true 0,
    Input.tick false 800, Input.tick true 0,
    Input.event (Event.mouseLeft 865 335), Input.tick true 0]

/-- The state at the end of the sample Hard run (the constructor's state if the run
did not return, which it does). -/
def sampleColumnHunt : Game :=
  ((Game.run 1 sampleHardRng sampleHardInputs (Game.new, 0)).getD (Game.new, 0)).1

/-- The link between the two parts of the AI memory: a queue that is not empty comes
with a recorded last hit. -/
def QueueInv (g : Game) : Prop :=
  g.possibleTargets ≠ [] → g.hasLastHit = true

/-- The fleet on board `b` is fully destroyed: every entry of the `hits` vector of
every recorded ship is `true`. -/
def fleetDestroyed (b : BattleGrid) : Prop :=
  ∀ s ∈ b.ships, ∀ hit ∈ s.hits, hit = true

/-- The window coordinates `(mouseX, mouseY)` lie in the area of the player's grid, the
test of the placement branch of `handleEvent`. -/
def inPlayerArea (mouseX mouseY : Int) : Prop :=
  mouseX ≥ GRID_OFFSET_X ∧ mouseX < GRID_OFFSET_X + GRID_SIZE * CELL_SIZE ∧
  mouseY ≥ GRID_OFFSET_Y ∧ mouseY < GRID_OFFSET_Y + GRID_SIZE * CELL_SIZE

/-! ## The cell matrix -/

theorem mem_intRange (lo hi i : Int) : i ∈ intRange lo hi ↔ lo ≤ i ∧ i ≤ hi := by
  unfold intRange
  simp only [List.mem_map, List.mem_range]
  constructor
  · rintro ⟨k, hk, rfl⟩
    omega
  · intro h
    exact ⟨(i - lo).toNat, by omega, by omega⟩

theorem inGrid_iff (x y : Int) : inGrid x y = true ↔ 0 ≤ x ∧ x < 10 ∧ 0 ≤ y ∧ y < 10 := by
  unfold inGrid GRID_SIZE
  simp only [Bool.and_eq_true, decide_eq_true_eq, ge_iff_le]
  tauto

theorem chebyshev_le_one (p q : Int × Int) :
    chebyshev p q ≤ 1 ↔ (p.1 ≤ q.1 + 1 ∧ q.1 ≤ p.1 + 1 ∧ p.2 ≤ q.2 + 1 ∧ q.2 ≤ p.2 + 1) := by
  unfold chebyshev
  omega

theorem getCell_setCell_ne (g : List (List CellState)) (x y x' y' : Int) (v : CellState)
    (h : ¬ (x' = x ∧ y' = y)) : getCell (setCell g x y v) x' y' = getCell g x' y' := by
  unfold getCell setCell
  by_cases h1 : 0 ≤ x ∧ 0 ≤ y
  · by_cases h2 : 0 ≤ x' ∧ 0 ≤ y'
    · simp only [h1, h2, and_self, if_true]
      by_cases hy : y'.toNat = y.toNat
      · have hx : x.toNat ≠ x'.toNat := by omega
        rw [hy]
        simp only [List.getD_eq_getElem?_getD]
        by_cases hl : y.toNat < g.length
        · simp [List.getElem?_set, hl, hx]
        · have hn : g[y.toNat]? = none := List.getElem?_eq_none (by omega)
          simp [List.getElem?_set, hl, hn]
      · simp only [List.getD_eq_getElem?_getD]
        rw [List.getElem?_set_ne (Ne.symm hy)]
    · simp [h2]
  · simp [h1]

theorem getCell_setCell_same (g : List (List CellState)) (x y : Int) (v : CellState)
    (hw : GridWF g) (hin : inGrid x y = true) : getCell (setCell g x y v) x y = v := by
  rw [inGrid_iff] at hin
  obtain ⟨hl, hr⟩ := hw
  unfold GRID_SIZE at hl hr
  unfold getCell setCell
  have h1 : 0 ≤ x ∧ 0 ≤ y := ⟨by omega, by omega⟩
  have hy : y.toNat < g.length := by rw [hl]; omega
  have hrow : (g[y.toNat]).length = (10 : Int).toNat := hr _ (List.getElem_mem _)
  have hx : x.toNat < (g[y.toNat]).length := by rw [hrow]; omega
  simp only [h1, and_self, if_true, List.getD_eq_getElem?_getD]
  simp [List.getElem?_set, hy, hx]

theorem getCell_setCell (g : List (List CellState)) (x y x' y' : Int) (v : CellState)
    (hw : GridWF g) (hin : inGrid x y = true) :
    getCell (setCell g x y v) x' y' = if x' = x ∧ y' = y then v else getCell g x' y' := by
  by_cases h : x' = x ∧ y' = y
  · rw [if_pos h, h.1, h.2]
    exact getCell_setCell_same g x y v hw hin
  · rw [if_neg h]
    exact getCell_setCell_ne g x y x' y' v h

theorem GridWF_setCell (g : List (List CellState)) (x y : Int) (v : CellState)
    (hw : GridWF g) : GridWF (setCell g x y v) := by
  obtain ⟨hl, hr⟩ := hw
  unfold setCell
  split
  · refine ⟨by simpa using hl, ?_⟩
    intro row hrow
    rcases List.mem_or_eq_of_mem_set hrow with h | h
    · exact hr row h
    · subst h
      rw [List.length_set]
      simp only [List.getD_eq_getElem?_getD]
      by_cases hy : y.toNat < g.length
      · simp only [List.getElem?_eq_getElem hy, Option.getD_some]
        exact hr _ (List.getElem_mem _)
      · have hn : g[y.toNat]? = none := List.getElem?_eq_none (by omega)
        rw [List.set_eq_of_length_le (by omega)] at hrow
        have := hr _ hrow
        simpa [hn] using this
  · exact ⟨hl, hr⟩

theorem GridWF_new : GridWF BattleGrid.new.grid := by
  unfold BattleGrid.new GridWF
  refine ⟨by simp, ?_⟩
  intro row hrow
  rw [List.eq_of_mem_replicate hrow]
  simp

theorem getCell_new (x y : Int) : getCell BattleGrid.new.grid x y = CellState.Empty := by
  unfold getCell BattleGrid.new
  split
  · simp only [List.getD_eq_getElem?_getD, List.getElem?_replicate]
    split
    · simp only [Option.getD_some, List.getElem?_replicate]
      split <;> rfl
    · rfl
  · rfl

/-! ### `placeShip` writes -/

theorem GridWF_markShipCells (ps : List (Int × Int)) (g : List (List CellState))
    (hw : GridWF g) : GridWF (markShipCells g ps) := by
  induction ps generalizing g with
  | nil => exact hw
  | cons p ps ih => exact ih _ (GridWF_setCell g p.1 p.2 _ hw)

theorem getCell_markShipCells (ps : List (Int × Int)) (g : List (List CellState))
    (hw : GridWF g) (hin : ∀ p ∈ ps, inGrid p.1 p.2 = true) (x y : Int) :
    getCell (markShipCells g ps) x y
      = if (x, y) ∈ ps then CellState.Ship else getCell g x y := by
  induction ps generalizing g with
  | nil => simp [markShipCells]
  | cons p ps ih =>
    have hp : inGrid p.1 p.2 = true := hin p (List.mem_cons_self _ _)
    have h1 := ih (setCell g p.1 p.2 CellState.Ship) (GridWF_setCell g p.1 p.2 _ hw)
      (fun q hq => hin q (List.mem_cons_of_mem _ hq))
    unfold markShipCells at h1 ⊢
    rw [List.foldl_cons, h1, getCell_setCell g p.1 p.2 x y _ hw hp]
    by_cases hmem : (x, y) ∈ ps
    · simp [hmem]
    · by_cases hxy : x = p.1 ∧ y = p.2
      · have : (x, y) = p := by rw [hxy.1, hxy.2]
        simp [hxy, this]
      · have : ¬ (x, y) = p := by
          intro h
          apply hxy
          rw [← h]
          exact ⟨rfl, rfl⟩
        simp [hmem, hxy, this]

/-! ### `markAroundDestroyedShip` writes -/

theorem GridWF_markEmptyAsMiss (g : List (List CellState)) (x y : Int) (hw : GridWF g) :
    GridWF (markEmptyAsMiss g x y) := by
  unfold markEmptyAsMiss
  split
  · split
    · exact GridWF_setCell g x y _ hw
    · exact hw
  · exact hw

theorem getCell_markEmptyAsMiss (g : List (List CellState)) (x y x' y' : Int) (hw : GridWF g) :
    getCell (markEmptyAsMiss g x y) x' y'
      = if x' = x ∧ y' = y ∧ inGrid x y = true ∧ getCell g x y = CellState.Empty
        then CellState.Miss else getCell g x' y' := by
  unfold markEmptyAsMiss
  by_cases hin : inGrid x y = true
  · by_cases he : getCell g x y = CellState.Empty
    · simp only [hin, he, if_true, and_true]
      exact getCell_setCell g x y x' y' _ hw hin
    · simp [hin, he]
  · simp [hin]

theorem sweepRow (ys : List Int) (g : List (List CellState)) (x : Int) (hw : GridWF g)
    (x' y' : Int) :
    GridWF (ys.foldl (fun g1 y => markEmptyAsMiss g1 x y) g) ∧
    getCell (ys.foldl (fun g1 y => markEmptyAsMiss g1 x y) g) x' y'
      = if x' = x ∧ y' ∈ ys ∧ inGrid x' y' = true ∧ getCell g x' y' = CellState.Empty
        then CellState.Miss else getCell g x' y' := by
  induction ys generalizing g with
  | nil => simp [hw]
  | cons y ys ih =>
    obtain ⟨h1, h2⟩ := ih (markEmptyAsMiss g x y) (GridWF_markEmptyAsMiss g x y hw)
    refine ⟨h1, ?_⟩
    rw [List.foldl_cons, h2, getCell_markEmptyAsMiss g x y x' y' hw]
    by_cases hx : x' = x
    · subst hx
      by_cases hy : y' = y
      · subst hy
        by_cases hc : inGrid x' y' = true ∧ getCell g x' y' = CellState.Empty
        · simp [hc]
        · split_ifs <;> simp_all
      · simp [hy]
    · simp [hx]

theorem sweepBlock (xs ys : List Int) (g : List (List CellState)) (hw : GridWF g)
    (x' y' : Int) :
    GridWF (xs.foldl (fun g0 x => ys.foldl (fun g1 y => markEmptyAsMiss g1 x y) g0) g) ∧
    getCell (xs.foldl (fun g0 x => ys.foldl (fun g1 y => markEmptyAsMiss g1 x y) g0) g) x' y'
      = if x' ∈ xs ∧ y' ∈ ys ∧ inGrid x' y' = true ∧ getCell g x' y' = CellState.Empty
        then CellState.Miss else getCell g x' y' := by
  induction xs generalizing g with
  | nil => simp [hw]
  | cons x xs ih =>
    obtain ⟨hw1, hrow⟩ := sweepRow ys g x hw x' y'
    obtain ⟨h1, h2⟩ := ih (ys.foldl (fun g1 y => markEmptyAsMiss g1 x y) g) hw1
    refine ⟨h1, ?_⟩
    rw [List.foldl_cons, h2, hrow]
    by_cases hc : y' ∈ ys ∧ inGrid x' y' = true ∧ getCell g x' y' = CellState.Empty
    · by_cases hx : x' = x
      · subst hx
        simp [hc]
      · by_cases hx2 : x' ∈ xs
        · simp [hx, hx2, hc]
        · simp [hx, hx2, hc]
    · have h3 : ¬ (x' = x ∧ y' ∈ ys ∧ inGrid x' y' = true ∧ getCell g x' y' = CellState.Empty) :=
        fun h => hc h.2
      have h4 : ¬ (x' ∈ x :: xs ∧ y' ∈ ys ∧ inGrid x' y' = true
          ∧ getCell g x' y' = CellState.Empty) := fun h => hc h.2
      have h5 : ¬ (x' ∈ xs ∧ y' ∈ ys ∧ inGrid x' y' = true
          ∧ getCell g x' y' = CellState.Empty) := fun h => hc h.2
      rw [if_neg h3, if_neg h4, if_neg h5]

theorem markAroundPosition_spec (g : List (List CellState)) (p : Int × Int) (hw : GridWF g)
    (hp : inGrid p.1 p.2 = true) (x y : Int) :
    GridWF (markAroundPosition g p) ∧
    getCell (markAroundPosition g p) x y
      = if x = p.1 ∧ y = p.2 then CellState.Destroyed
        else if inGrid x y = true ∧ chebyshev p (x, y) ≤ 1 ∧ getCell g x y = CellState.Empty
        then CellState.Miss else getCell g x y := by
  obtain ⟨h1, h2⟩ := sweepBlock (intRange (p.1 - 1) (p.1 + 1)) (intRange (p.2 - 1) (p.2 + 1))
    g hw x y
  unfold markAroundPosition
  refine ⟨GridWF_setCell _ _ _ _ h1, ?_⟩
  simp only
  rw [getCell_setCell _ p.1 p.2 x y _ h1 hp, h2]
  by_cases hxy : x = p.1 ∧ y = p.2
  · rw [if_pos hxy, if_pos hxy]
  · rw [if_neg hxy, if_neg hxy]
    have hiff : (x ∈ intRange (p.1 - 1) (p.1 + 1) ∧ y ∈ intRange (p.2 - 1) (p.2 + 1) ∧
        inGrid x y = true ∧ getCell g x y = CellState.Empty) ↔
        (inGrid x y = true ∧ chebyshev p (x, y) ≤ 1 ∧ getCell g x y = CellState.Empty) := by
      rw [mem_intRange, mem_intRange, chebyshev_le_one]
      constructor
      · rintro ⟨a, b, c, d⟩
        exact ⟨c, ⟨by omega, by omega, by omega, by omega⟩, d⟩
      · rintro ⟨c, ⟨a1, a2, a3, a4⟩, d⟩
        dsimp only at a1 a2 a3 a4
        exact ⟨⟨by omega, by omega⟩, ⟨by omega, by omega⟩, c, d⟩
    by_cases hc : inGrid x y = true ∧ chebyshev p (x, y) ≤ 1 ∧ getCell g x y = CellState.Empty
    · rw [if_pos hc, if_pos (hiff.mpr hc)]
    · rw [if_neg hc, if_neg (fun h => hc (hiff.mp h))]

theorem markAround_spec (ps : List (Int × Int)) (g : List (List CellState)) (hw : GridWF g)
    (hin : ∀ p ∈ ps, inGrid p.1 p.2 = true) (x y : Int) :
    GridWF (ps.foldl markAroundPosition g) ∧
    getCell (ps.foldl markAroundPosition g) x y
      = if (x, y) ∈ ps then CellState.Destroyed
        else if inGrid x y = true ∧ (∃ p ∈ ps, chebyshev p (x, y) ≤ 1) ∧
          getCell g x y = CellState.Empty
        then CellState.Miss else getCell g x y := by
  induction ps generalizing g with
  | nil => simp [hw]
  | cons p ps ih =>
    have hp : inGrid p.1 p.2 = true := hin p (List.mem_cons_self _ _)
    obtain ⟨hw1, hc1⟩ := markAroundPosition_spec g p hw hp x y
    obtain ⟨h1, h2⟩ := ih (markAroundPosition g p) hw1
      (fun q hq => hin q (List.mem_cons_of_mem _ hq))
    refine ⟨h1, ?_⟩
    rw [List.foldl_cons, h2, hc1]
    have hpe : (x, y) = p ↔ (x = p.1 ∧ y = p.2) := by
      constructor
      · intro h; rw [← h]; exact ⟨rfl, rfl⟩
      · intro h; rw [h.1, h.2]
    by_cases hmem : (x, y) ∈ ps
    · simp [hmem]
    · by_cases hxy : x = p.1 ∧ y = p.2
      · have hxy2 := hpe.mpr hxy
        simp [hmem, hxy, hxy2]
      · have hxy2 : ¬ (x, y) = p := fun h => hxy (hpe.mp h)
        rw [if_neg hmem, if_neg hxy]
        have hm : ¬ (x, y) ∈ p :: ps := by
          simp only [List.mem_cons, not_or]
          exact ⟨hxy2, hmem⟩
        rw [if_neg hm]
        by_cases hi : inGrid x y = true
        · by_cases he : getCell g x y = CellState.Empty
          · by_cases hn : chebyshev p (x, y) ≤ 1
            · simp [hi, he, hn]
            · by_cases hn2 : ∃ q ∈ ps, chebyshev q (x, y) ≤ 1
              · obtain ⟨q, hq, hq2⟩ := hn2
                have e1 : ∃ q ∈ ps, chebyshev q (x, y) ≤ 1 := ⟨q, hq, hq2⟩
                have e2 : ∃ q ∈ p :: ps, chebyshev q (x, y) ≤ 1 :=
                  ⟨q, List.mem_cons_of_mem _ hq, hq2⟩
                simp only [hi, he, hn, e1, e2, and_self, and_true, true_and, if_true, and_false,
                  if_false]
              · have e2 : ¬ ∃ q ∈ p :: ps, chebyshev q (x, y) ≤ 1 := by
                  rintro ⟨q, hq, hq2⟩
                  rcases List.mem_cons.mp hq with h | h
                  · exact hn (h ▸ hq2)
                  · exact hn2 ⟨q, h, hq2⟩
                simp only [hi, he, hn, hn2, e2, and_self, and_true, true_and, if_true, and_false,
                  if_false, false_and]
          · simp [hi, he]
        · simp [hi]

/-! ## Ships -/

theorem mem_new_positions (size : Int) (h : Bool) (x y : Int) (p : Int × Int) :
    p ∈ (Ship.new size h x y).positions ↔
      ∃ k : Nat, (k : Int) < size ∧ p = if h then (x + (k : Int), y) else (x, y + (k : Int)) := by
  unfold Ship.new
  simp only [List.mem_map, List.mem_range]
  constructor
  · rintro ⟨k, hk, rfl⟩
    exact ⟨k, by omega, rfl⟩
  · rintro ⟨k, hk, rfl⟩
    exact ⟨k, by omega, rfl⟩

theorem new_hits_getD (size : Int) (h : Bool) (x y : Int) (i : Nat) :
    (Ship.new size h x y).hits.getD i false = false := by
  unfold Ship.new
  simp only [List.getD_eq_getElem?_getD, List.getElem?_map]
  cases (List.range size.toNat)[i]? <;> rfl

theorem new_not_destroyed (size : Int) (h : Bool) (x y : Int) (hs : 1 ≤ size) :
    (Ship.new size h x y).isDestroyed = false := by
  unfold Ship.new Ship.isDestroyed
  obtain ⟨n, hn⟩ : ∃ n, size.toNat = n + 1 := ⟨size.toNat - 1, by omega⟩
  rw [hn, List.range_succ_eq_map]
  rfl

theorem isDestroyed_iff (s : Ship) :
    s.isDestroyed = true ↔ ∀ j, j < s.hits.length → s.hits.getD j false = true := by
  unfold Ship.isDestroyed
  rw [List.all_eq_true]
  constructor
  · intro h j hj
    rw [List.getD_eq_getElem _ _ hj]
    exact h _ (List.getElem_mem _)
  · intro h b hb
    obtain ⟨j, hj, rfl⟩ := List.getElem_of_mem hb
    have := h j hj
    rw [List.getD_eq_getElem _ _ hj] at this
    exact this

theorem segmentState_ne_empty (s : Ship) (i : Nat) : segmentState s i ≠ CellState.Empty := by
  unfold segmentState
  split
  · split <;> simp
  · simp

theorem segmentState_ne_miss (s : Ship) (i : Nat) : segmentState s i ≠ CellState.Miss := by
  unfold segmentState
  split
  · split <;> simp
  · simp

theorem shipOk_new (size : Int) (h : Bool) (x y : Int) (hin : inGrid x y = true)
    (hs : 1 ≤ size) (hb : if h then x + size ≤ 10 else y + size ≤ 10) :
    ShipOk (Ship.new size h x y) := by
  rw [inGrid_iff] at hin
  refine ⟨?_, ?_, ?_, ?_⟩
  · simp [Ship.new]
  · intro hnil
    have hm : (if h then (x + ((0 : Nat) : Int), y) else (x, y + ((0 : Nat) : Int)))
        ∈ (Ship.new size h x y).positions :=
      (mem_new_positions size h x y _).mpr ⟨0, by omega, rfl⟩
    rw [hnil] at hm
    exact List.not_mem_nil _ hm
  · unfold Ship.new
    simp only
    refine List.Nodup.map ?_ (List.nodup_range _)
    intro a b hab
    cases h
    · simp only [Bool.false_eq_true, if_false, Prod.mk.injEq, true_and] at hab
      omega
    · simp only [if_true, Prod.mk.injEq, and_true] at hab
      omega
  · intro p hp
    obtain ⟨k, hk, rfl⟩ := (mem_new_positions size h x y p).mp hp
    rw [inGrid_iff]
    cases h
    · simp only [Bool.false_eq_true, if_false] at hb ⊢
      omega
    · simp only [if_true] at hb ⊢
      omega

/-! ### `canPlaceShip` -/

theorem canPlaceShip_bound (b : BattleGrid) (x y size : Int) (h : Bool)
    (hc : b.canPlaceShip x y size h = true) :
    if h then x + size ≤ 10 else y + size ≤ 10 := by
  unfold BattleGrid.canPlaceShip GRID_SIZE at hc
  cases h
  · simp only [Bool.false_eq_true, if_false] at hc ⊢
    by_contra hlt
    rw [if_pos (by omega)] at hc
    exact Bool.false_ne_true hc
  · simp only [if_true] at hc ⊢
    by_contra hlt
    rw [if_pos (by omega)] at hc
    exact Bool.false_ne_true hc

theorem canPlaceShip_clear (b : BattleGrid) (x y size : Int) (h : Bool)
    (hc : b.canPlaceShip x y size h = true) (p : Int × Int)
    (hp : p ∈ (Ship.new size h x y).positions) (i j : Int) (hin : inGrid i j = true)
    (hd : chebyshev p (i, j) ≤ 1) : getCell b.grid i j = CellState.Empty := by
  obtain ⟨k, hk, rfl⟩ := (mem_new_positions size h x y p).mp hp
  rw [chebyshev_le_one] at hd
  unfold BattleGrid.canPlaceShip at hc
  cases h
  · simp only [Bool.false_eq_true, if_false] at hc hd
    split at hc
    · exact absurd hc Bool.false_ne_true
    · rw [List.all_eq_true] at hc
      have h1 := hc i ((mem_intRange _ _ _).mpr ⟨by omega, by omega⟩)
      rw [List.all_eq_true] at h1
      have h2 := h1 j ((mem_intRange _ _ _).mpr ⟨by omega, by omega⟩)
      rw [if_pos hin] at h2
      exact of_decide_eq_true h2
  · simp only [if_true] at hc hd
    split at hc
    · exact absurd hc Bool.false_ne_true
    · rw [List.all_eq_true] at hc
      have h1 := hc i ((mem_intRange _ _ _).mpr ⟨by omega, by omega⟩)
      rw [List.all_eq_true] at h1
      have h2 := h1 j ((mem_intRange _ _ _).mpr ⟨by omega, by omega⟩)
      rw [if_pos hin] at h2
      exact of_decide_eq_true h2

/-! ### The loops of `attack` -/

theorem findSegment_none (ps : List (Int × Int)) (x y : Int) :
    findSegment ps x y = none ↔ (x, y) ∉ ps := by
  induction ps with
  | nil => simp [findSegment]
  | cons p ps ih =>
    unfold findSegment
    by_cases hp : p.1 = x ∧ p.2 = y
    · have : (x, y) = p := by rw [← hp.1, ← hp.2]
      simp [hp, this]
    · have : ¬ (x, y) = p := by
        intro h
        apply hp
        rw [← h]
        exact ⟨rfl, rfl⟩
      rw [if_neg hp]
      simp only [Option.map_eq_none', List.mem_cons, not_or]
      rw [ih]
      tauto

theorem findSegment_some (ps : List (Int × Int)) (x y : Int) (i : Nat)
    (h : findSegment ps x y = some i) : i < ps.length ∧ ps.getD i (0, 0) = (x, y) := by
  induction ps generalizing i with
  | nil => simp [findSegment] at h
  | cons p ps ih =>
    unfold findSegment at h
    by_cases hp : p.1 = x ∧ p.2 = y
    · rw [if_pos hp] at h
      cases h
      refine ⟨by simp, ?_⟩
      simp only [List.getD_cons_zero]
      rw [← hp.1, ← hp.2]
    · rw [if_neg hp] at h
      rw [Option.map_eq_some'] at h
      obtain ⟨k, hk, rfl⟩ := h
      obtain ⟨h1, h2⟩ := ih k hk
      exact ⟨by simp; omega, by simpa using h2⟩

theorem hitShips_none (ships : List Ship) (x y : Int) :
    hitShips ships x y = none ↔ ∀ t ∈ ships, (x, y) ∉ t.positions := by
  induction ships with
  | nil => simp [hitShips]
  | cons s rest ih =>
    unfold hitShips
    cases hf : findSegment s.positions x y with
    | none =>
      simp only [Option.map_eq_none', List.mem_cons, forall_eq_or_imp]
      rw [ih]
      have := (findSegment_none s.positions x y).mp hf
      tauto
    | some i =>
      simp only [List.mem_cons, forall_eq_or_imp]
      constructor
      · intro hc
        cases hc
      · rintro ⟨hn, _⟩
        have : findSegment s.positions x y = none := (findSegment_none _ _ _).mpr hn
        rw [this] at hf
        cases hf

theorem hitShips_some (ships : List Ship) (x y : Int) (r : List Ship × Ship)
    (h : hitShips ships x y = some r) :
    ∃ pre s post i, ships = pre ++ s :: post ∧ (∀ t ∈ pre, (x, y) ∉ t.positions) ∧
      i < s.positions.length ∧ s.positions.getD i (0, 0) = (x, y) ∧
      r.2 = s.markHit i ∧ r.1 = pre ++ r.2 :: post := by
  induction ships generalizing r with
  | nil => simp [hitShips] at h
  | cons s rest ih =>
    unfold hitShips at h
    cases hf : findSegment s.positions x y with
    | none =>
      rw [hf] at h
      simp only [Option.map_eq_some'] at h
      obtain ⟨r0, hr0, rfl⟩ := h
      obtain ⟨pre, s0, post, i, h1, h2, h3, h4, h5, h6⟩ := ih r0 hr0
      refine ⟨s :: pre, s0, post, i, by rw [h1]; rfl, ?_, h3, h4, h5, ?_⟩
      · intro t ht
        rcases List.mem_cons.mp ht with e | e
        · rw [e]; exact (findSegment_none _ _ _).mp hf
        · exact h2 t e
      · simp only [h6, List.cons_append]
    | some i =>
      rw [hf] at h
      simp only [Option.some.injEq] at h
      obtain ⟨h3, h4⟩ := findSegment_some _ _ _ _ hf
      refine ⟨[], s, rest, i, rfl, by simp, h3, h4, ?_, ?_⟩
      · rw [← h]
      · rw [← h]; rfl

/-! ## The invariant holds on every reachable board -/

theorem chebyshev_self (p : Int × Int) : chebyshev p p = 0 := by
  unfold chebyshev
  simp

theorem pair_eta (p : Int × Int) : (p.1, p.2) = p := rfl

theorem not_mem_of_separated (s t : Ship) (h : Separated s t) (p : Int × Int)
    (hp : p ∈ s.positions) : p ∉ t.positions := by
  intro hq
  have := h p hp p hq
  rw [chebyshev_self] at this
  omega

theorem separated_symm (s t : Ship) (h : Separated s t) : Separated t s := by
  intro p hp q hq
  have := h q hq p hp
  unfold chebyshev at this ⊢
  omega

theorem boardInv_new : BoardInv BattleGrid.new := by
  refine ⟨GridWF_new, ?_, ?_, ?_, ?_, ?_⟩
  · intro s hs
    simp [BattleGrid.new] at hs
  · simp [BattleGrid.new]
  · intro s hs
    simp [BattleGrid.new] at hs
  · intro x y h
    exact absurd (getCell_new x y) h
  · intro s hs
    simp [BattleGrid.new] at hs

theorem mem_positions_getD (s : Ship) (i : Nat) (h : i < s.positions.length) :
    s.positions.getD i (0, 0) ∈ s.positions := by
  rw [List.getD_eq_getElem _ _ h]
  exact List.getElem_mem _

theorem exists_index_of_mem (ps : List (Int × Int)) (p : Int × Int) (h : p ∈ ps) :
    ∃ i, i < ps.length ∧ ps.getD i (0, 0) = p := by
  obtain ⟨i, hi, rfl⟩ := List.getElem_of_mem h
  exact ⟨i, hi, List.getD_eq_getElem _ _ hi⟩

/-- A segment cell of a recorded ship is never `Empty`. -/
theorem segment_ne_empty (b : BattleGrid) (hinv : BoardInv b) (s : Ship) (hs : s ∈ b.ships)
    (p : Int × Int) (hp : p ∈ s.positions) : getCell b.grid p.1 p.2 ≠ CellState.Empty := by
  obtain ⟨i, hi, rfl⟩ := exists_index_of_mem _ _ hp
  rw [hinv.sync s hs i hi]
  exact segmentState_ne_empty s i

theorem segment_ne_miss (b : BattleGrid) (hinv : BoardInv b) (s : Ship) (hs : s ∈ b.ships)
    (p : Int × Int) (hp : p ∈ s.positions) : getCell b.grid p.1 p.2 ≠ CellState.Miss := by
  obtain ⟨i, hi, rfl⟩ := exists_index_of_mem _ _ hp
  rw [hinv.sync s hs i hi]
  exact segmentState_ne_miss s i

theorem boardInv_placeShip (b : BattleGrid) (hinv : BoardInv b) (x y size : Int) (h : Bool)
    (hin : inGrid x y = true) (hsz : 1 ≤ size) : BoardInv (b.placeShip x y size h).2 := by
  unfold BattleGrid.placeShip
  by_cases hc : b.canPlaceShip x y size h = true
  · simp only [hc, Bool.not_true, Bool.false_eq_true, if_false]
    have hok : ShipOk (Ship.new size h x y) :=
      shipOk_new size h x y hin hsz (canPlaceShip_bound b x y size h hc)
    have hclear := canPlaceShip_clear b x y size h hc
    have hcell := getCell_markShipCells (Ship.new size h x y).positions b.grid hinv.wf hok.inside
    -- an old segment is not a new segment
    have hdisj : ∀ s ∈ b.ships, ∀ p ∈ s.positions, p ∉ (Ship.new size h x y).positions := by
      intro s hs p hp hnew
      have h1 := hclear p hnew p.1 p.2 ((hinv.shipOk s hs).inside p hp)
        (by rw [pair_eta, chebyshev_self]; omega)
      exact segment_ne_empty b hinv s hs p hp h1
    refine ⟨GridWF_markShipCells _ _ hinv.wf, ?_, ?_, ?_, ?_, ?_⟩
    · intro s hs
      rcases List.mem_append.mp hs with h1 | h1
      · exact hinv.shipOk s h1
      · rw [List.mem_singleton.mp h1]
        exact hok
    · rw [List.pairwise_append]
      refine ⟨hinv.sep, List.pairwise_singleton _ _, ?_⟩
      intro s hs t ht
      rw [List.mem_singleton.mp ht]
      intro p hp q hq
      by_contra hlt
      have hle : chebyshev q (p.1, p.2) ≤ 1 := by
        unfold chebyshev at hlt ⊢
        simp only at hlt ⊢
        omega
      exact segment_ne_empty b hinv s hs p hp
        (hclear q hq p.1 p.2 ((hinv.shipOk s hs).inside p hp) hle)
    · intro s hs i hi
      simp only
      rw [hcell]
      rcases List.mem_append.mp hs with h1 | h1
      · rw [if_neg]
        · exact hinv.sync s h1 i hi
        · rw [pair_eta]
          exact hdisj s h1 _ (mem_positions_getD s i hi)
      · rw [List.mem_singleton.mp h1] at hi ⊢
        rw [if_pos (by rw [pair_eta]; exact mem_positions_getD _ i hi)]
        unfold segmentState
        rw [new_hits_getD]
        rfl
    · intro x' y' h1 h2
      simp only at h1 h2 ⊢
      rw [hcell] at h1 h2
      by_cases hm : (x', y') ∈ (Ship.new size h x y).positions
      · exact ⟨_, List.mem_append.mpr (Or.inr (List.mem_singleton.mpr rfl)), hm⟩
      · rw [if_neg hm] at h1 h2
        obtain ⟨s, hs, hp⟩ := hinv.owned x' y' h1 h2
        exact ⟨s, List.mem_append.mpr (Or.inl hs), hp⟩
    · intro s hs hd p hp x' y' hxy hdist
      simp only
      rw [hcell]
      split
      · simp
      · rcases List.mem_append.mp hs with h1 | h1
        · exact hinv.halo s h1 hd p hp x' y' hxy hdist
        · rw [List.mem_singleton.mp h1, new_not_destroyed size h x y hsz] at hd
          cases hd
  · simp only [hc, Bool.not_false, if_true]
    exact hinv

theorem markHit_positions (s : Ship) (i : Nat) : (s.markHit i).positions = s.positions := rfl

theorem markHit_hits_getD (s : Ship) (i j : Nat) (hi : i < s.hits.length) :
    (s.markHit i).hits.getD j false = if j = i then true else s.hits.getD j false := by
  unfold Ship.markHit
  simp only [List.getD_eq_getElem?_getD, List.getElem?_set]
  by_cases h : i = j
  · subst h
    simp [hi]
  · have h2 : ¬ j = i := fun e => h e.symm
    simp [h, h2]

theorem markHit_hits_length (s : Ship) (i : Nat) : (s.markHit i).hits.length = s.hits.length := by
  simp [Ship.markHit]

theorem shipOk_markHit (s : Ship) (i : Nat) (h : ShipOk s) : ShipOk (s.markHit i) :=
  ⟨by rw [markHit_hits_length, markHit_positions]; exact h.len, h.nonempty, h.nodup, h.inside⟩

/-- On a board that satisfies the invariant, a `Ship` cell belongs to exactly one
recorded ship, its segment there is unhit, and `attack` takes its first branch with
that ship. -/
theorem attack_ship_eq (b : BattleGrid) (hinv : BoardInv b) (x y : Int)
    (hc : getCell b.grid x y = CellState.Ship) :
    ∃ pre s post i, b.ships = pre ++ s :: post ∧ i < s.positions.length ∧
      s.positions.getD i (0, 0) = (x, y) ∧ s.hits.getD i false = false ∧
      (∀ t ∈ pre, (x, y) ∉ t.positions) ∧ (∀ t ∈ post, (x, y) ∉ t.positions) ∧
      b.attack x y =
        if (s.markHit i).isDestroyed = true then
          (CellState.Destroyed,
            { grid := markAroundDestroyedShip (setCell b.grid x y CellState.Hit) (s.markHit i)
              ships := pre ++ s.markHit i :: post })
        else
          (CellState.Hit,
            { grid := setCell b.grid x y CellState.Hit, ships := pre ++ s.markHit i :: post }) := by
  obtain ⟨s0, hs0, hp0⟩ := hinv.owned x y (by rw [hc]; simp) (by rw [hc]; simp)
  cases hh : hitShips b.ships x y with
  | none =>
    exact absurd hp0 ((hitShips_none _ _ _).mp hh s0 hs0)
  | some r =>
    obtain ⟨pre, s, post, i, h1, h2, h3, h4, h5, h6⟩ := hitShips_some _ _ _ _ hh
    have hs : s ∈ b.ships := by rw [h1]; simp
    have hsync := hinv.sync s hs i h3
    rw [h4] at hsync
    simp only at hsync
    rw [hc] at hsync
    have hunhit : s.hits.getD i false = false := by
      unfold segmentState at hsync
      by_contra hne
      have : s.hits.getD i false = true := by
        cases hv : s.hits.getD i false
        · exact absurd hv hne
        · rfl
      rw [this] at hsync
      simp only [if_true] at hsync
      split at hsync <;> cases hsync
    have hsep := hinv.sep
    rw [h1, List.pairwise_append] at hsep
    have hpost : ∀ t ∈ post, (x, y) ∉ t.positions := by
      intro t ht
      have hst : Separated s t := (List.pairwise_cons.mp hsep.2.1).1 t ht
      exact not_mem_of_separated s t hst _ (h4 ▸ mem_positions_getD s i h3)
    refine ⟨pre, s, post, i, h1, h3, h4, hunhit, h2, hpost, ?_⟩
    unfold BattleGrid.attack
    rw [if_pos hc, hh]
    obtain ⟨r1, r2⟩ := r
    simp only at h5 h6
    subst h5
    subst h6
    simp only

/-- Replacing a ship by its `markHit` keeps who owns which cell. -/
theorem owner_markHit (pre post : List Ship) (s : Ship) (i : Nat) (p : Int × Int) :
    (∃ t ∈ pre ++ s :: post, p ∈ t.positions) →
      ∃ t ∈ pre ++ s.markHit i :: post, p ∈ t.positions := by
  rintro ⟨t, ht, hp⟩
  rcases List.mem_append.mp ht with h | h
  · exact ⟨t, List.mem_append.mpr (Or.inl h), hp⟩
  · rcases List.mem_cons.mp h with h | h
    · exact ⟨s.markHit i, by simp, by rw [markHit_positions, ← h]; exact hp⟩
    · exact ⟨t, by simp [h], hp⟩

theorem sep_markHit (pre post : List Ship) (s : Ship) (i : Nat)
    (h : (pre ++ s :: post).Pairwise Separated) :
    (pre ++ s.markHit i :: post).Pairwise Separated := by
  have e : ∀ l : List Ship, l.Pairwise Separated ↔
      (l.map Ship.positions).Pairwise
        (fun ps qs => ∀ p ∈ ps, ∀ q ∈ qs, 2 ≤ chebyshev p q) := by
    intro l
    rw [List.pairwise_map]
    rfl
  rw [e] at h ⊢
  simpa [markHit_positions] using h

/-- The members of the ship list after a hit: the other ships, unchanged, and the
hit ship. -/
theorem mem_hit_list (pre post : List Ship) (s : Ship) (i : Nat) (t : Ship)
    (ht : t ∈ pre ++ s.markHit i :: post) :
    t = s.markHit i ∨ (t ∈ pre ++ s :: post ∧ (t ∈ pre ∨ t ∈ post)) := by
  rcases List.mem_append.mp ht with h | h
  · exact Or.inr ⟨List.mem_append.mpr (Or.inl h), Or.inl h⟩
  · rcases List.mem_cons.mp h with h | h
    · exact Or.inl h
    · exact Or.inr ⟨by simp [h], Or.inr h⟩

theorem boardInv_attack (b : BattleGrid) (hinv : BoardInv b) (x y : Int)
    (hin : inGrid x y = true) : BoardInv (b.attack x y).2 := by
  by_cases hc : getCell b.grid x y = CellState.Ship
  · obtain ⟨pre, s, post, i, h1, h3, h4, hunhit, hpre, hpost, heq⟩ := attack_ship_eq b hinv x y hc
    have hs : s ∈ b.ships := by rw [h1]; simp
    have hsok := hinv.shipOk s hs
    have hilen : i < s.hits.length := by rw [hsok.len]; exact h3
    have hxy_mem : (x, y) ∈ s.positions := h4 ▸ mem_positions_getD s i h3
    have hother : ∀ t, (t ∈ pre ∨ t ∈ post) → (x, y) ∉ t.positions := by
      intro t ht
      rcases ht with h | h
      · exact hpre t h
      · exact hpost t h
    have hsold : s.isDestroyed = false := by
      cases hd : s.isDestroyed
      · rfl
      · have := (isDestroyed_iff s).mp hd i hilen
        rw [hunhit] at this
        cases this
    have hw1 : GridWF (setCell b.grid x y CellState.Hit) := GridWF_setCell _ _ _ _ hinv.wf
    have hg1 := fun x' y' => getCell_setCell b.grid x y x' y' CellState.Hit hinv.wf hin
    -- segments of the other ships keep their cell in the first write
    have hseg1 : ∀ t, t ∈ pre ++ s :: post → (t ∈ pre ∨ t ∈ post) → ∀ j, j < t.positions.length →
        getCell (setCell b.grid x y CellState.Hit) (t.positions.getD j (0, 0)).1
          (t.positions.getD j (0, 0)).2 = segmentState t j := by
      intro t ht hto j hj
      rw [hg1, if_neg]
      · exact hinv.sync t (h1 ▸ ht) j hj
      · intro hxy
        apply hother t hto
        rw [← hxy.1, ← hxy.2, pair_eta]
        exact mem_positions_getD t j hj
    by_cases hd : (s.markHit i).isDestroyed = true
    · rw [if_pos hd] at heq
      rw [heq]
      have hspec := markAround_spec (s.markHit i).positions _ hw1 hsok.inside
      unfold markAroundDestroyedShip
      refine ⟨(hspec 0 0).1, ?_, ?_, ?_, ?_, ?_⟩
      · intro t ht
        rcases mem_hit_list pre post s i t ht with h | h
        · rw [h]; exact shipOk_markHit s i hsok
        · exact hinv.shipOk t (h1 ▸ h.1)
      · exact sep_markHit pre post s i (h1 ▸ hinv.sep)
      · intro t ht j hj
        simp only
        rw [(hspec _ _).2]
        rcases mem_hit_list pre post s i t ht with h | h
        · subst h
          rw [if_pos (by rw [pair_eta]; exact mem_positions_getD _ j hj)]
          unfold segmentState
          rw [(isDestroyed_iff _).mp hd j (by
            rw [markHit_hits_length, hsok.len]; exact hj), hd]
          rfl
        · have hsep : Separated t s := by
            have hs0 := hinv.sep
            rw [h1, List.pairwise_append] at hs0
            rcases h.2 with h2 | h2
            · exact hs0.2.2 t h2 s (by simp)
            · exact separated_symm _ _ ((List.pairwise_cons.mp hs0.2.1).1 t h2)
          have hnot := not_mem_of_separated t s hsep _ (mem_positions_getD t j hj)
          rw [markHit_positions, if_neg (by rw [pair_eta]; exact hnot)]
          have hval := hseg1 t h.1 h.2 j hj
          rw [if_neg]
          · exact hval
          · intro hcon
            rw [hval] at hcon
            exact segmentState_ne_empty t j hcon.2.2
      · intro x' y' hne hnm
        simp only at hne hnm ⊢
        rw [(hspec _ _).2] at hne hnm
        by_cases hm : (x', y') ∈ (s.markHit i).positions
        · exact ⟨s.markHit i, by simp, hm⟩
        · rw [if_neg hm] at hne hnm
          split at hnm
          · exact absurd rfl hnm
          · rename_i hcond
            rw [if_neg hcond] at hne
            rw [hg1] at hne hnm
            by_cases hxy : x' = x ∧ y' = y
            · exact absurd (by rw [hxy.1, hxy.2]; exact hxy_mem) hm
            · rw [if_neg hxy] at hne hnm
              exact owner_markHit pre post s i _ (h1 ▸ hinv.owned x' y' hne hnm)
      · intro t ht htd p hp x' y' hxy hdist
        simp only
        rw [(hspec _ _).2]
        split
        · simp
        · split
          · simp
          · rename_i hn1 hn2
            rcases mem_hit_list pre post s i t ht with h | h
            · subst h
              intro hcon
              exact hn2 ⟨hxy, ⟨p, hp, hdist⟩, hcon⟩
            · rw [hg1]
              split
              · simp
              · exact hinv.halo t (h1 ▸ h.1) htd p hp x' y' hxy hdist
    · rw [if_neg hd] at heq
      rw [heq]
      refine ⟨hw1, ?_, ?_, ?_, ?_, ?_⟩
      · intro t ht
        rcases mem_hit_list pre post s i t ht with h | h
        · rw [h]; exact shipOk_markHit s i hsok
        · exact hinv.shipOk t (h1 ▸ h.1)
      · exact sep_markHit pre post s i (h1 ▸ hinv.sep)
      · intro t ht j hj
        simp only
        rcases mem_hit_list pre post s i t ht with h | h
        · subst h
          rw [markHit_positions] at hj ⊢
          rw [hg1]
          unfold segmentState
          rw [markHit_hits_getD s i j hilen]
          have hdf : (s.markHit i).isDestroyed = false := by
            cases hv : (s.markHit i).isDestroyed
            · rfl
            · exact absurd hv hd
          rw [hdf]
          by_cases hji : j = i
          · subst hji
            rw [h4]
            simp
          · rw [if_neg hji]
            have hne : ¬ ((s.positions.getD j (0, 0)).1 = x ∧ (s.positions.getD j (0, 0)).2 = y) := by
              intro hxy
              have e : s.positions.getD j (0, 0) = s.positions.getD i (0, 0) := by
                rw [h4, ← hxy.1, ← hxy.2]
              rw [List.getD_eq_getElem _ _ hj, List.getD_eq_getElem _ _ h3] at e
              exact hji ((List.Nodup.getElem_inj_iff hsok.nodup).mp e)
            rw [if_neg hne]
            have := hinv.sync s hs j hj
            unfold segmentState at this
            rw [hsold] at this
            simpa using this
        · exact hseg1 t h.1 h.2 j hj
      · intro x' y' hne hnm
        simp only at hne hnm ⊢
        rw [hg1] at hne hnm
        by_cases hxy : x' = x ∧ y' = y
        · exact ⟨s.markHit i, by simp, by rw [hxy.1, hxy.2]; exact hxy_mem⟩
        · rw [if_neg hxy] at hne hnm
          exact owner_markHit pre post s i _ (h1 ▸ hinv.owned x' y' hne hnm)
      · intro t ht htd p hp x' y' hxy hdist
        simp only
        rcases mem_hit_list pre post s i t ht with h | h
        · subst h
          exact absurd htd hd
        · rw [hg1]
          split
          · simp
          · exact hinv.halo t (h1 ▸ h.1) htd p hp x' y' hxy hdist
  · by_cases he : getCell b.grid x y = CellState.Empty
    · have heq : b.attack x y = (CellState.Miss,
          { grid := setCell b.grid x y CellState.Miss, ships := b.ships }) := by
        unfold BattleGrid.attack
        rw [if_neg hc, if_pos he]
      rw [heq]
      have hg1 := fun x' y' => getCell_setCell b.grid x y x' y' CellState.Miss hinv.wf hin
      refine ⟨GridWF_setCell _ _ _ _ hinv.wf, hinv.shipOk, hinv.sep, ?_, ?_, ?_⟩
      · intro t ht j hj
        simp only
        rw [hg1, if_neg]
        · exact hinv.sync t ht j hj
        · intro hxy
          have := hinv.sync t ht j hj
          rw [hxy.1, hxy.2, he] at this
          exact segmentState_ne_empty t j this.symm
      · intro x' y' hne hnm
        simp only at hne hnm ⊢
        rw [hg1] at hne hnm
        split at hnm
        · exact absurd rfl hnm
        · rename_i hcond
          rw [if_neg hcond] at hne
          exact hinv.owned x' y' hne hnm
      · intro t ht htd p hp x' y' hxy hdist
        simp only
        rw [hg1]
        split
        · simp
        · exact hinv.halo t ht htd p hp x' y' hxy hdist
    · have heq : b.attack x y = (getCell b.grid x y, b) := by
        unfold BattleGrid.attack
        rw [if_neg hc, if_neg he]
      rw [heq]
      exact hinv

theorem boardInv_of_reachable (b : BattleGrid) (h : Reachable b) : BoardInv b := by
  induction h with
  | new => exact boardInv_new
  | placeShip b x y size horizontal _ hin hsz ih => exact boardInv_placeShip b ih x y size horizontal hin hsz
  | attack b x y _ hin ih => exact boardInv_attack b ih x y hin

/-! ## The claims -/

/-- C1 (placement adjacency). On every reachable board, any two ships recorded at
different places of the ship list keep Chebyshev distance at least two between any
two of their segments: ships never overlap or touch, not even diagonally. -/
theorem placement_adjacency (b : BattleGrid) (hb : Reachable b) (i j : Nat) (s t : Ship)
    (hs : b.ships[i]? = some s) (ht : b.ships[j]? = some t) (hij : i ≠ j)
    (p q : Int × Int) (hp : p ∈ s.positions) (hq : q ∈ t.positions) :
    2 ≤ chebyshev p q := by
  have hsep := (boardInv_of_reachable b hb).sep
  rw [List.pairwise_iff_getElem] at hsep
  obtain ⟨hi, rfl⟩ := List.getElem?_eq_some.mp hs
  obtain ⟨hj, rfl⟩ := List.getElem?_eq_some.mp ht
  rcases Nat.lt_or_gt_of_ne hij with h | h
  · exact hsep i j hi hj h p hp q hq
  · exact separated_symm _ _ (hsep j i hj hi h) p hp q hq

/-- A reachable board with two ships, used to instantiate the theorems. -/
theorem reachable_two_ships :
    Reachable ((BattleGrid.new.placeShip 0 0 2 true).2.placeShip 3 3 1 false).2 :=
  Reachable.placeShip _ 3 3 1 false
    (Reachable.placeShip _ 0 0 2 true Reachable.new (by decide) (by decide))
    (by decide) (by decide)

set_option maxRecDepth 100000 in
/-- C1 at a concrete board: a size-2 ship at (0,0) and a size-1 ship at (3,3). -/
theorem placement_adjacency_witness :
    2 ≤ chebyshev ((1 : Int), (0 : Int)) ((3 : Int), (3 : Int)) :=
  placement_adjacency ((BattleGrid.new.placeShip 0 0 2 true).2.placeShip 3 3 1 false).2
    reachable_two_ships 0 1 (Ship.new 2 true 0 0) (Ship.new 1 false 3 3)
    (by decide) (by decide) (by decide) (1, 0) (3, 3) (by decide) (by decide)

theorem wrapInt32_eq (n : Int) (h1 : -2147483648 ≤ n) (h2 : n ≤ 2147483647) :
    wrapInt32 n = n := by
  unfold wrapInt32
  omega

set_option maxRecDepth 100000 in
/-- C3 fails outside the domain that `canPlaceShip` guards. On the empty board
`canPlaceShip(-1, 0, 1, horizontal)` returns `true` although its only segment,
`(-1, 0)`, is outside the grid (no test of `x >= 0`); `canPlaceShip(0, 10, 1,
horizontal)` returns `true` with the segment `(0, 10)` (the horizontal branch never
tests `y`); and with the in-grid origin (5,5) and the size 2147483647 the addition
`x + size` overflows `int`, the wrapped sum is negative, the test
`x + size > GRID_SIZE` fails and the loops do not run, so the 32-bit evaluation
returns `true` with the segment `(15, 5)` outside the grid. -/
theorem canPlaceShip_out_of_grid :
    (BattleGrid.new.canPlaceShip (-1) 0 1 true = true ∧
      BattleGrid.new.canPlaceShip32 (-1) 0 1 true = true ∧
      ((-1 : Int), (0 : Int)) ∈ (Ship.new 1 true (-1) 0).positions ∧ inGrid (-1) 0 = false) ∧
    (BattleGrid.new.canPlaceShip 0 10 1 true = true ∧
      BattleGrid.new.canPlaceShip32 0 10 1 true = true ∧
      ((0 : Int), (10 : Int)) ∈ (Ship.new 1 true 0 10).positions ∧ inGrid 0 10 = false) ∧
    (inGrid 5 5 = true ∧ wrapInt32 (5 + 2147483647) = -2147483644 ∧
      BattleGrid.new.canPlaceShip32 5 5 2147483647 true = true ∧
      ((15 : Int), (5 : Int)) ∈ (Ship.new 2147483647 true 5 5).positions ∧
      inGrid 15 5 = false) :=
  ⟨by decide, by decide,
    ⟨by decide, by decide, by decide,
      (mem_new_positions 2147483647 true 5 5 (15, 5)).mpr ⟨10, by decide, rfl⟩, by decide⟩⟩

/-- C3, amended (accepted placements stay in the grid on the guarded domain). For every
board, every origin `(x, y)` inside the grid, every size from 1 up to
`INT_MAX - GRID_SIZE` (so that `x + size` and `y + size` do not overflow `int`) and
either orientation: the 32-bit evaluation of `canPlaceShip` is its evaluation over
the integers, and if it returns `true` then every segment of the ship that
`placeShip` goes on to write lies inside the grid. -/
theorem canPlaceShip_in_grid (b : BattleGrid) (x y size : Int) (horizontal : Bool)
    (hin : inGrid x y = true) (hsize : 1 ≤ size) (hmax : size ≤ INT_MAX - GRID_SIZE) :
    b.canPlaceShip32 x y size horizontal = b.canPlaceShip x y size horizontal ∧
    (b.canPlaceShip32 x y size horizontal = true →
      ∀ p ∈ (Ship.new size horizontal x y).positions, inGrid p.1 p.2 = true) ∧
    (b.canPlaceShip x y size horizontal = true →
      ∀ p ∈ (Ship.new size horizontal x y).positions, inGrid p.1 p.2 = true) := by
  have hgrid : b.canPlaceShip x y size horizontal = true →
      ∀ p ∈ (Ship.new size horizontal x y).positions, inGrid p.1 p.2 = true := by
    intro hc p hp
    have hb := canPlaceShip_bound b x y size horizontal hc
    obtain ⟨k, hk, rfl⟩ := (mem_new_positions size horizontal x y p).mp hp
    rw [inGrid_iff] at hin ⊢
    cases horizontal
    · simp only [Bool.false_eq_true, if_false] at hb ⊢
      omega
    · simp only [if_true] at hb ⊢
      omega
  have heq : b.canPlaceShip32 x y size horizontal = b.canPlaceShip x y size horizontal := by
    rw [inGrid_iff] at hin
    unfold INT_MAX GRID_SIZE at hmax
    unfold BattleGrid.canPlaceShip32 BattleGrid.canPlaceShip
    rw [wrapInt32_eq (x + size) (by omega) (by omega),
      wrapInt32_eq (y + size) (by omega) (by omega),
      wrapInt32_eq (x - 1) (by omega) (by omega), wrapInt32_eq (x + 1) (by omega) (by omega),
      wrapInt32_eq (y - 1) (by omega) (by omega), wrapInt32_eq (y + 1) (by omega) (by omega)]
  exact ⟨heq, fun h => hgrid (heq ▸ h), hgrid⟩

set_option maxRecDepth 100000 in
/-- C3 amended, at a concrete call: a vertical size-4 ship at (9,6) on the empty board
is accepted, by the 32-bit evaluation too, and its last segment (9,9) is in the
grid. -/
theorem canPlaceShip_in_grid_witness :
    BattleGrid.new.canPlaceShip32 9 6 4 false = true ∧ inGrid 9 9 = true :=
  have h := canPlaceShip_in_grid BattleGrid.new 9 6 4 false (by decide) (by decide) (by decide)
  ⟨by decide, h.2.2 (by decide) (9, 9) (by decide)⟩

theorem attack_empty_eq (b : BattleGrid) (x y : Int)
    (he : getCell b.grid x y = CellState.Empty) :
    b.attack x y = (CellState.Miss,
      { grid := setCell b.grid x y CellState.Miss, ships := b.ships }) := by
  unfold BattleGrid.attack
  rw [if_neg (by rw [he]; simp), if_pos he]

theorem attack_resolved_eq (b : BattleGrid) (x y : Int)
    (h : getCell b.grid x y = CellState.Hit ∨ getCell b.grid x y = CellState.Miss ∨
      getCell b.grid x y = CellState.Destroyed) :
    b.attack x y = (getCell b.grid x y, b) := by
  unfold BattleGrid.attack
  rw [if_neg (by rcases h with h | h | h <;> rw [h] <;> simp),
    if_neg (by rcases h with h | h | h <;> rw [h] <;> simp)]

theorem cellState_cases (c : CellState) : c = CellState.Ship ∨ c = CellState.Empty ∨
    (c = CellState.Hit ∨ c = CellState.Miss ∨ c = CellState.Destroyed) := by
  cases c <;> simp

/-- C4 (outcome of attacking an unresolved cell). On every reachable board and for
every in-grid `(x, y)`: if the cell is `Empty`, `attack` returns `Miss`, the ship
list (so every `hits` vector) is unchanged and the only cell that changes is
`(x, y)`, which becomes `Miss`. If the cell is `Ship`, it is segment `i` of exactly
one recorded ship `s`; after the call the ship list is the old one with
`s.hits[i] = true`; `attack` returns `Destroyed` exactly when every other segment
of `s` was already hit, and then every segment cell of `s` is `Destroyed`;
otherwise it returns `Hit` and the cell `(x, y)` is `Hit`. -/
theorem attack_unresolved (b : BattleGrid) (hb : Reachable b) (x y : Int)
    (hin : inGrid x y = true) :
    (getCell b.grid x y = CellState.Empty →
      (b.attack x y).1 = CellState.Miss ∧ (b.attack x y).2.ships = b.ships ∧
      getCell (b.attack x y).2.grid x y = CellState.Miss ∧
      ∀ x1 y1, ¬ (x1 = x ∧ y1 = y) →
        getCell (b.attack x y).2.grid x1 y1 = getCell b.grid x1 y1) ∧
    (getCell b.grid x y = CellState.Ship →
      ∃ pre s post i, b.ships = pre ++ s :: post ∧ i < s.positions.length ∧
        s.positions.getD i (0, 0) = (x, y) ∧
        (∀ t ∈ pre ++ post, (x, y) ∉ t.positions) ∧
        (b.attack x y).2.ships = pre ++ s.markHit i :: post ∧
        (s.markHit i).hits.getD i false = true ∧
        ((b.attack x y).1 = CellState.Destroyed ↔
          ∀ j, j < s.positions.length → j ≠ i → s.hits.getD j false = true) ∧
        ((b.attack x y).1 = CellState.Destroyed →
          ∀ p ∈ s.positions, getCell (b.attack x y).2.grid p.1 p.2 = CellState.Destroyed) ∧
        ((b.attack x y).1 ≠ CellState.Destroyed →
          (b.attack x y).1 = CellState.Hit ∧
          getCell (b.attack x y).2.grid x y = CellState.Hit)) := by
  have hinv := boardInv_of_reachable b hb
  constructor
  · intro he
    rw [attack_empty_eq b x y he]
    refine ⟨rfl, rfl, getCell_setCell_same _ _ _ _ hinv.wf hin, ?_⟩
    intro x1 y1 hne
    exact getCell_setCell_ne _ _ _ _ _ _ hne
  · intro hc
    obtain ⟨pre, s, post, i, h1, h3, h4, hunhit, hpre, hpost, heq⟩ := attack_ship_eq b hinv x y hc
    have hs : s ∈ b.ships := by rw [h1]; simp
    have hsok := hinv.shipOk s hs
    have hilen : i < s.hits.length := by rw [hsok.len]; exact h3
    have hset : (s.markHit i).hits.getD i false = true := by
      rw [markHit_hits_getD s i i hilen, if_pos rfl]
    have hdes : (s.markHit i).isDestroyed = true ↔
        ∀ j, j < s.positions.length → j ≠ i → s.hits.getD j false = true := by
      rw [isDestroyed_iff, markHit_hits_length, hsok.len]
      constructor
      · intro h j hj hji
        have := h j hj
        rw [markHit_hits_getD s i j hilen, if_neg hji] at this
        exact this
      · intro h j hj
        rw [markHit_hits_getD s i j hilen]
        split
        · rfl
        · rename_i hji
          exact h j hj hji
    refine ⟨pre, s, post, i, h1, h3, h4, ?_, ?_, hset, ?_, ?_, ?_⟩
    · intro t ht
      rcases List.mem_append.mp ht with h | h
      · exact hpre t h
      · exact hpost t h
    · rw [heq]; split <;> rfl
    · rw [heq, ← hdes]
      split
      · rename_i hd; simp [hd]
      · rename_i hd; simp [hd]
    · intro hres p hp
      by_cases hd : (s.markHit i).isDestroyed = true
      · rw [heq, if_pos hd]
        simp only
        unfold markAroundDestroyedShip
        rw [(markAround_spec (s.markHit i).positions _ (GridWF_setCell _ _ _ _ hinv.wf)
          hsok.inside p.1 p.2).2, if_pos (by rw [pair_eta]; exact hp)]
      · rw [heq, if_neg hd] at hres
        cases hres
    · intro hres
      by_cases hd : (s.markHit i).isDestroyed = true
      · rw [heq, if_pos hd] at hres
        exact absurd rfl hres
      · rw [heq, if_neg hd]
        exact ⟨rfl, getCell_setCell_same _ _ _ _ hinv.wf hin⟩

set_option maxRecDepth 100000 in
/-- C4 at a concrete board: with a size-2 ship at (0,0) and a size-1 ship at (3,3),
attacking the empty cell (5,5) returns `Miss`. -/
theorem attack_unresolved_witness :
    (((BattleGrid.new.placeShip 0 0 2 true).2.placeShip 3 3 1 false).2.attack 5 5).1
      = CellState.Miss :=
  ((attack_unresolved ((BattleGrid.new.placeShip 0 0 2 true).2.placeShip 3 3 1 false).2
    reachable_two_ships 5 5 (by decide)).1 (by decide)).1

/-- The cell attacked is resolved after an in-grid attack on a board that satisfies
the invariant. -/
theorem attacked_cell_resolved (b : BattleGrid) (hinv : BoardInv b) (x y : Int)
    (hin : inGrid x y = true) :
    getCell (b.attack x y).2.grid x y = CellState.Hit ∨
    getCell (b.attack x y).2.grid x y = CellState.Miss ∨
    getCell (b.attack x y).2.grid x y = CellState.Destroyed := by
  rcases cellState_cases (getCell b.grid x y) with hc | hc | hc
  · obtain ⟨pre, s, post, i, h1, h3, h4, hunhit, hpre, hpost, heq⟩ := attack_ship_eq b hinv x y hc
    have hs : s ∈ b.ships := by rw [h1]; simp
    rw [heq]
    split
    · right; right
      simp only
      unfold markAroundDestroyedShip
      rw [(markAround_spec (s.markHit i).positions _ (GridWF_setCell _ _ _ _ hinv.wf)
        (hinv.shipOk s hs).inside x y).2,
        if_pos (by rw [markHit_positions, ← h4]; exact mem_positions_getD s i h3)]
    · left
      exact getCell_setCell_same _ _ _ _ hinv.wf hin
  · rw [attack_empty_eq b x y hc]
    right; left
    exact getCell_setCell_same _ _ _ _ hinv.wf hin
  · rw [attack_resolved_eq b x y hc]
    exact hc

/-- C5 (repeat attacks are inert). On every board, `attack` on a cell that is `Hit`,
`Miss` or `Destroyed` leaves the cell matrix and the ship list (so every `hits`
vector) unchanged; hence on every reachable board, attacking an in-grid coordinate
twice leaves exactly the board that attacking it once leaves. -/
theorem attack_repeat_inert (b : BattleGrid) (x y : Int) :
    ((getCell b.grid x y = CellState.Hit ∨ getCell b.grid x y = CellState.Miss ∨
        getCell b.grid x y = CellState.Destroyed) → (b.attack x y).2 = b) ∧
    (Reachable b → inGrid x y = true →
      ((b.attack x y).2.attack x y).2 = (b.attack x y).2) := by
  constructor
  · intro h
    rw [attack_resolved_eq b x y h]
  · intro hb hin
    have h := attacked_cell_resolved b (boardInv_of_reachable b hb) x y hin
    rw [attack_resolved_eq _ x y h]

set_option maxRecDepth 100000 in
/-- C5 at a concrete board: with a size-2 ship at (0,0) and a size-1 ship at (3,3),
a second attack on (0,0) changes nothing. -/
theorem attack_repeat_inert_witness :
    (((((BattleGrid.new.placeShip 0 0 2 true).2.placeShip 3 3 1 false).2.attack 0 0).2.attack
      0 0).2 = (((BattleGrid.new.placeShip 0 0 2 true).2.placeShip 3 3 1 false).2.attack 0 0).2) :=
  (attack_repeat_inert ((BattleGrid.new.placeShip 0 0 2 true).2.placeShip 3 3 1 false).2 0 0).2
    reachable_two_ships (by decide)

set_option maxRecDepth 100000 in
/-- C6 fails: there is no `AlreadyResolved` outcome. With a size-2 ship at (0,0), the
first attack on (0,0) returns `Hit` and leaves the cell `Hit`; the second attack on
the same, now resolved, cell returns `Hit` again, and a second attack on the missed
cell (5,5) returns `Miss` again. -/
theorem attack_resolved_returns_hit :
    getCell ((BattleGrid.new.placeShip 0 0 2 true).2.attack 0 0).2.grid 0 0 = CellState.Hit ∧
    (((BattleGrid.new.placeShip 0 0 2 true).2.attack 0 0).2.attack 0 0).1 = CellState.Hit ∧
    getCell ((BattleGrid.new.placeShip 0 0 2 true).2.attack 5 5).2.grid 5 5 = CellState.Miss ∧
    (((BattleGrid.new.placeShip 0 0 2 true).2.attack 5 5).2.attack 5 5).1 = CellState.Miss := by
  decide

/-- C6, amended (what a repeat attack returns). On every board, `attack` on a cell
that is `Hit`, `Miss` or `Destroyed` returns that cell's present state, which is
one of `Hit`, `Miss` and `Destroyed`, and it changes nothing: the board after the
call (cell matrix and ship list with every `hits` vector) is the board before it.
The type `CellState` that `attack` returns has no further value for this case. -/
theorem attack_resolved_returns_state (b : BattleGrid) (x y : Int)
    (h : getCell b.grid x y = CellState.Hit ∨ getCell b.grid x y = CellState.Miss ∨
      getCell b.grid x y = CellState.Destroyed) :
    (b.attack x y).1 = getCell b.grid x y ∧
    ((b.attack x y).1 = CellState.Hit ∨ (b.attack x y).1 = CellState.Miss ∨
      (b.attack x y).1 = CellState.Destroyed) ∧
    (b.attack x y).2 = b ∧
    (b.attack x y).2.grid = b.grid ∧ (b.attack x y).2.ships = b.ships := by
  rw [attack_resolved_eq b x y h]
  exact ⟨rfl, h, rfl, rfl, rfl⟩

set_option maxRecDepth 100000 in
/-- C6 amended, at a concrete board: with a size-2 ship at (0,0) hit once at (0,0), the
repeat attack on the `Hit` cell (0,0) returns `Hit`, the state of that cell, and the
board after it is the board before it, with the ship and its one hit still
recorded. -/
theorem attack_resolved_returns_state_witness :
    (((BattleGrid.new.placeShip 0 0 2 true).2.attack 0 0).2.attack 0 0).1 = CellState.Hit ∧
    (((BattleGrid.new.placeShip 0 0 2 true).2.attack 0 0).2.attack 0 0).2
      = ((BattleGrid.new.placeShip 0 0 2 true).2.attack 0 0).2 ∧
    (((BattleGrid.new.placeShip 0 0 2 true).2.attack 0 0).2.attack 0 0).2.ships
      = [(Ship.new 2 true 0 0).markHit 0] :=
  have h := attack_resolved_returns_state ((BattleGrid.new.placeShip 0 0 2 true).2.attack 0 0).2
    0 0 (Or.inl (by decide))
  ⟨h.1.trans (by decide), h.2.2.1, h.2.2.2.2.trans (by decide)⟩

theorem separated_symmetric : Symmetric Separated := fun s t h => separated_symm s t h

/-- On a board that satisfies the invariant, a cell within distance one of a segment
of ship `s` that is neither `Empty` nor `Miss` is a segment of `s` itself. -/
theorem near_owned_by_same (b : BattleGrid) (hinv : BoardInv b) (s : Ship) (hs : s ∈ b.ships)
    (p : Int × Int) (hp : p ∈ s.positions) (x y : Int) (hd : chebyshev p (x, y) ≤ 1)
    (h1 : getCell b.grid x y ≠ CellState.Empty) (h2 : getCell b.grid x y ≠ CellState.Miss) :
    (x, y) ∈ s.positions := by
  obtain ⟨t, ht, hq⟩ := hinv.owned x y h1 h2
  by_cases hst : s = t
  · rw [hst]; exact hq
  · have := hinv.sep.forall separated_symmetric hs ht hst p hp (x, y) hq
    omega

/-- What the invariant says around a `Destroyed` cell: its ship is destroyed, all
segment cells of that ship are `Destroyed` and its in-grid neighbours are resolved. -/
theorem destroyed_cell_ship (b : BattleGrid) (hinv : BoardInv b) (x y : Int)
    (hc : getCell b.grid x y = CellState.Destroyed) :
    ∃ s ∈ b.ships, (x, y) ∈ s.positions ∧ s.isDestroyed = true ∧
      (∀ p ∈ s.positions, getCell b.grid p.1 p.2 = CellState.Destroyed) ∧
      (∀ p ∈ s.positions, ∀ x1 y1, inGrid x1 y1 = true → chebyshev p (x1, y1) ≤ 1 →
        getCell b.grid x1 y1 = CellState.Destroyed ∨ getCell b.grid x1 y1 = CellState.Hit ∨
        getCell b.grid x1 y1 = CellState.Miss) := by
  obtain ⟨s, hs, hp⟩ := hinv.owned x y (by rw [hc]; simp) (by rw [hc]; simp)
  obtain ⟨i, hi, hpi⟩ := exists_index_of_mem _ _ hp
  have hsync := hinv.sync s hs i hi
  rw [hpi] at hsync
  simp only at hsync
  rw [hc] at hsync
  have hd : s.isDestroyed = true := by
    unfold segmentState at hsync
    split at hsync
    · split at hsync
      · assumption
      · cases hsync
    · cases hsync
  have hall : ∀ p ∈ s.positions, getCell b.grid p.1 p.2 = CellState.Destroyed := by
    intro p hp
    obtain ⟨j, hj, rfl⟩ := exists_index_of_mem _ _ hp
    rw [hinv.sync s hs j hj]
    unfold segmentState
    rw [(isDestroyed_iff s).mp hd j (by rw [(hinv.shipOk s hs).len]; exact hj), hd]
    rfl
  refine ⟨s, hs, hp, hd, hall, ?_⟩
  intro p hp x1 y1 hin hdist
  have hne := hinv.halo s hs hd p hp x1 y1 hin hdist
  by_cases hm : getCell b.grid x1 y1 = CellState.Miss
  · exact Or.inr (Or.inr hm)
  · have := near_owned_by_same b hinv s hs p hp x1 y1 hdist hne hm
    exact Or.inl (hall _ this)

/-- C7 (destruction halo). On every reachable board, right after an in-grid attack
that returns `Destroyed`, the ship with a segment at the attacked cell is destroyed,
every segment cell of it is `Destroyed`, every in-grid cell within Chebyshev
distance one of a segment is `Destroyed`, `Hit` or `Miss` (never `Empty` or `Ship`),
such a cell that was `Empty` before the attack is now `Miss`, and every cell farther
than distance one from all segments has the state it had before. -/
theorem destruction_halo (b : BattleGrid) (hb : Reachable b) (x y : Int)
    (hin : inGrid x y = true) (hres : (b.attack x y).1 = CellState.Destroyed) :
    ∃ s ∈ (b.attack x y).2.ships, (x, y) ∈ s.positions ∧ s.isDestroyed = true ∧
      (∀ p ∈ s.positions, getCell (b.attack x y).2.grid p.1 p.2 = CellState.Destroyed) ∧
      (∀ p ∈ s.positions, ∀ x1 y1, inGrid x1 y1 = true → chebyshev p (x1, y1) ≤ 1 →
        getCell (b.attack x y).2.grid x1 y1 = CellState.Destroyed ∨
        getCell (b.attack x y).2.grid x1 y1 = CellState.Hit ∨
        getCell (b.attack x y).2.grid x1 y1 = CellState.Miss) ∧
      (∀ p ∈ s.positions, ∀ x1 y1, inGrid x1 y1 = true → chebyshev p (x1, y1) ≤ 1 →
        getCell b.grid x1 y1 = CellState.Empty →
        getCell (b.attack x y).2.grid x1 y1 = CellState.Miss) ∧
      (∀ x1 y1, (∀ p ∈ s.positions, 1 < chebyshev p (x1, y1)) →
        getCell (b.attack x y).2.grid x1 y1 = getCell b.grid x1 y1) := by
  have hinv := boardInv_of_reachable b hb
  have hinv2 := boardInv_attack b hinv x y hin
  rcases cellState_cases (getCell b.grid x y) with hc | hc | hc
  · obtain ⟨pre, s, post, i, h1, h3, h4, hunhit, hpre, hpost, heq⟩ := attack_ship_eq b hinv x y hc
    have hs : s ∈ b.ships := by rw [h1]; simp
    have hsok := hinv.shipOk s hs
    have hxy_mem : (x, y) ∈ s.positions := h4 ▸ mem_positions_getD s i h3
    by_cases hd : (s.markHit i).isDestroyed = true
    · have hspec := markAround_spec s.positions _
        (GridWF_setCell b.grid x y CellState.Hit hinv.wf) hsok.inside
      have hg1 := fun x' y' => getCell_setCell b.grid x y x' y' CellState.Hit hinv.wf hin
      have hgrid : (b.attack x y).2.grid
          = s.positions.foldl markAroundPosition (setCell b.grid x y CellState.Hit) := by
        rw [heq, if_pos hd]; rfl
      have hcell : getCell (b.attack x y).2.grid x y = CellState.Destroyed := by
        rw [hgrid, (hspec x y).2, if_pos hxy_mem]
      obtain ⟨s2, hs2, hp2, hd2, hall2, hhalo2⟩ := destroyed_cell_ship _ hinv2 x y hcell
      have hs2pos : s2.positions = s.positions := by
        have hmem : s2 ∈ pre ++ s.markHit i :: post := by
          have : (b.attack x y).2.ships = pre ++ s.markHit i :: post := by
            rw [heq, if_pos hd]
          rw [← this]; exact hs2
        rcases mem_hit_list pre post s i s2 hmem with h | h
        · rw [h]; rfl
        · rcases h.2 with h5 | h5
          · exact absurd hp2 (hpre s2 h5)
          · exact absurd hp2 (hpost s2 h5)
      refine ⟨s2, hs2, hp2, hd2, hall2, hhalo2, ?_, ?_⟩
      · intro p hp x1 y1 hin1 hdist he
        rw [hs2pos] at hp
        have hnm : (x1, y1) ∉ s.positions := fun hm =>
          segment_ne_empty b hinv s hs _ hm he
        have hne : ¬ (x1 = x ∧ y1 = y) := fun e => hnm (by rw [e.1, e.2]; exact hxy_mem)
        rw [hgrid, (hspec x1 y1).2, if_neg hnm, if_pos]
        refine ⟨hin1, ⟨p, hp, hdist⟩, ?_⟩
        rw [hg1, if_neg hne]
        exact he
      · intro x1 y1 hfar
        rw [hs2pos] at hfar
        have hnm : (x1, y1) ∉ s.positions := by
          intro hm
          have := hfar _ hm
          rw [chebyshev_self] at this
          omega
        have hne : ¬ (x1 = x ∧ y1 = y) := fun e => hnm (by rw [e.1, e.2]; exact hxy_mem)
        rw [hgrid, (hspec x1 y1).2, if_neg hnm, if_neg, hg1, if_neg hne]
        rintro ⟨_, ⟨p, hp, hdist⟩, _⟩
        have := hfar p hp
        omega
    · rw [heq, if_neg hd] at hres
      cases hres
  · rw [attack_empty_eq b x y hc] at hres
    cases hres
  · have heq := attack_resolved_eq b x y hc
    rw [heq] at hres
    simp only at hres
    rw [heq]
    obtain ⟨s, hs, hp, hd, hall, hhalo⟩ := destroyed_cell_ship b hinv x y hres
    refine ⟨s, hs, hp, hd, hall, hhalo, ?_, ?_⟩
    · intro p hp x1 y1 hin1 hdist he
      exact absurd he (hinv.halo s hs hd p hp x1 y1 hin1 hdist)
    · intro x1 y1 _
      rfl

/-- The board of scenario A before the last attack: a horizontal size-3 ship at (2,2)
on the empty board, attacked at (2,2) and (3,2). -/
theorem reachable_scenario_a :
    Reachable (((BattleGrid.new.placeShip 2 2 3 true).2.attack 2 2).2.attack 3 2).2 :=
  Reachable.attack _ 3 2
    (Reachable.attack _ 2 2
      (Reachable.placeShip _ 2 2 3 true Reachable.new (by decide) (by decide)) (by decide))
    (by decide)

set_option maxRecDepth 100000 in
/-- C7 at scenario A: a horizontal size-3 ship at (2,2) on the empty board; the attacks
on (2,2), (3,2), (4,2) return `Hit`, `Hit`, `Destroyed`, and the twelve cells around
the ship are `Miss` afterwards. -/
theorem destruction_halo_witness :
    ((BattleGrid.new.placeShip 2 2 3 true).2.attack 2 2).1 = CellState.Hit ∧
    (((BattleGrid.new.placeShip 2 2 3 true).2.attack 2 2).2.attack 3 2).1 = CellState.Hit ∧
    ((((BattleGrid.new.placeShip 2 2 3 true).2.attack 2 2).2.attack 3 2).2.attack 4 2).1
      = CellState.Destroyed ∧
    (∀ q ∈ [((1 : Int), (1 : Int)), (1, 2), (1, 3), (5, 1), (5, 2), (5, 3), (2, 1), (3, 1),
        (4, 1), (2, 3), (3, 3), (4, 3)],
      getCell ((((BattleGrid.new.placeShip 2 2 3 true).2.attack 2 2).2.attack 3 2).2.attack
        4 2).2.grid q.1 q.2 = CellState.Miss) ∧
    ∃ s ∈ ((((BattleGrid.new.placeShip 2 2 3 true).2.attack 2 2).2.attack 3 2).2.attack
        4 2).2.ships, ((4 : Int), (2 : Int)) ∈ s.positions ∧ s.isDestroyed = true :=
  ⟨by decide, by decide, by decide, by decide,
    (destruction_halo _ reachable_scenario_a 4 2 (by decide) (by decide)).imp
      (fun _ h => ⟨h.1, h.2.1, h.2.2.1⟩)⟩

/-- C8 (board/ship synchronisation). On every reachable board: an in-grid cell is
`Ship` iff it is segment `i` of some recorded ship with `hits[i]` false; a segment
with `hits[i]` true has cell state `Hit` or `Destroyed`; `isDestroyed()` holds for a
recorded ship iff each of its segment cells is `Hit` or `Destroyed`, and then none
of its segment cells is `Ship`. -/
theorem board_ship_sync (b : BattleGrid) (hb : Reachable b) :
    (∀ x y, inGrid x y = true →
      (getCell b.grid x y = CellState.Ship ↔
        ∃ s ∈ b.ships, ∃ i, i < s.positions.length ∧ s.positions.getD i (0, 0) = (x, y) ∧
          s.hits.getD i false = false)) ∧
    (∀ s ∈ b.ships, ∀ i, i < s.positions.length → s.hits.getD i false = true →
      getCell b.grid (s.positions.getD i (0, 0)).1 (s.positions.getD i (0, 0)).2 = CellState.Hit ∨
      getCell b.grid (s.positions.getD i (0, 0)).1 (s.positions.getD i (0, 0)).2
        = CellState.Destroyed) ∧
    (∀ s ∈ b.ships, (s.isDestroyed = true ↔
      ∀ p ∈ s.positions, getCell b.grid p.1 p.2 = CellState.Hit ∨
        getCell b.grid p.1 p.2 = CellState.Destroyed)) ∧
    (∀ s ∈ b.ships, s.isDestroyed = true →
      ∀ p ∈ s.positions, getCell b.grid p.1 p.2 ≠ CellState.Ship) := by
  have hinv := boardInv_of_reachable b hb
  have hiff : ∀ s ∈ b.ships, (s.isDestroyed = true ↔
      ∀ p ∈ s.positions, getCell b.grid p.1 p.2 = CellState.Hit ∨
        getCell b.grid p.1 p.2 = CellState.Destroyed) := by
    intro s hs
    constructor
    · intro hd p hp
      obtain ⟨j, hj, rfl⟩ := exists_index_of_mem _ _ hp
      rw [hinv.sync s hs j hj]
      unfold segmentState
      rw [(isDestroyed_iff s).mp hd j (by rw [(hinv.shipOk s hs).len]; exact hj), hd]
      simp
    · intro h
      rw [isDestroyed_iff]
      intro j hj
      rw [(hinv.shipOk s hs).len] at hj
      have h1 := h _ (mem_positions_getD s j hj)
      rw [hinv.sync s hs j hj] at h1
      unfold segmentState at h1
      cases hv : s.hits.getD j false
      · rw [hv] at h1
        simp at h1
      · rfl
  refine ⟨?_, ?_, hiff, ?_⟩
  · intro x y _
    constructor
    · intro hc
      obtain ⟨pre, s, post, i, h1, h3, h4, hunhit, _⟩ := attack_ship_eq b hinv x y hc
      exact ⟨s, by rw [h1]; simp, i, h3, h4, hunhit⟩
    · rintro ⟨s, hs, i, hi, hp, hh⟩
      have := hinv.sync s hs i hi
      rw [hp] at this
      simp only at this
      rw [this]
      unfold segmentState
      rw [hh]
      rfl
  · intro s hs i hi hh
    rw [hinv.sync s hs i hi]
    unfold segmentState
    rw [hh]
    simp only [if_true]
    split
    · exact Or.inr rfl
    · exact Or.inl rfl
  · intro s hs hd p hp
    rcases (hiff s hs).mp hd p hp with h | h <;> rw [h] <;> simp

set_option maxRecDepth 100000 in
/-- C8 at scenario A's board after two hits: the cell (4,2) is `Ship` and it is the
unhit third segment of the recorded ship. -/
theorem board_ship_sync_witness :
    ∃ s ∈ (((BattleGrid.new.placeShip 2 2 3 true).2.attack 2 2).2.attack 3 2).2.ships,
      ∃ i, i < s.positions.length ∧ s.positions.getD i (0, 0) = (4, 2) ∧
        s.hits.getD i false = false :=
  ((board_ship_sync _ reachable_scenario_a).1 4 2 (by decide)).mp (by decide)

/-! ## The computer's move -/

theorem updateDirectionInfo_keeps (g : Game) (x y : Int) :
    (g.updateDirectionInfo x y).playerGrid = g.playerGrid ∧
    (g.updateDirectionInfo x y).possibleTargets = g.possibleTargets ∧
    (g.updateDirectionInfo x y).lastHitPos = g.lastHitPos ∧
    (g.updateDirectionInfo x y).difficulty = g.difficulty := by
  unfold Game.updateDirectionInfo
  simp only
  split
  · exact ⟨rfl, rfl, rfl, rfl⟩
  · split
    · exact ⟨rfl, rfl, rfl, rfl⟩
    · exact ⟨rfl, rfl, rfl, rfl⟩

theorem draw_lt (rng : Nat → Nat) (pos n : Nat) (h : 0 < n) : draw rng pos n < n :=
  Nat.mod_lt _ h

theorem getD_mem_of_ne_nil (l : List (Int × Int)) (k : Nat) (h : k < l.length) :
    l.getD k (0, 0) ∈ l := by
  rw [List.getD_eq_getElem _ _ h]
  exact List.getElem_mem _

theorem randomAttack_ok (g : Game) (rng : Nat → Nat) (pos : Nat)
    (hc : ∀ p ∈ g.possibleTargets, inGrid p.1 p.2 = true) :
    RoundOk g (g.randomAttack rng pos) := by
  unfold Game.randomAttack
  simp only
  have hx : draw rng pos GRID_SIZE.toNat < 10 := draw_lt rng pos GRID_SIZE.toNat (by decide)
  have hy : draw rng (pos + 1) GRID_SIZE.toNat < 10 :=
    draw_lt rng (pos + 1) GRID_SIZE.toNat (by decide)
  split
  · rename_i hu
    refine ⟨rfl, rfl, hc, fun _ => ⟨rfl, rfl, ?_, hu⟩⟩
    rw [inGrid_iff]
    simp only [Game.startAnimation]
    omega
  · exact ⟨rfl, rfl, hc, fun h => by cases h⟩

theorem mediumRound_ok (g : Game) (rng : Nat → Nat) (pos : Nat)
    (hc : ∀ p ∈ g.possibleTargets, inGrid p.1 p.2 = true) :
    RoundOk g (g.mediumRound rng pos) := by
  unfold Game.mediumRound
  split
  · cases hf : g.possibleTargets.find?
      (fun target => isUnresolved (getCell g.playerGrid.grid target.1 target.2)) with
    | none =>
      simp only
      refine ⟨rfl, rfl, ?_, fun h => by cases h⟩
      intro p hp
      exact hc p (List.mem_filter.mp hp).1
    | some target =>
      simp only
      refine ⟨rfl, rfl, ?_, fun _ => ⟨rfl, rfl, ?_, ?_⟩⟩
      · intro p hp
        exact hc p (List.mem_filter.mp hp).1
      · exact hc target (List.mem_of_find?_eq_some hf)
      · have hfound := List.find?_some
          (p := fun t : Int × Int => isUnresolved (getCell g.playerGrid.grid t.1 t.2)) hf
        exact hfound
  · exact randomAttack_ok g rng pos hc

theorem hardRound_ok (g : Game) (rng : Nat → Nat) (pos : Nat)
    (hc : ∀ p ∈ g.possibleTargets, inGrid p.1 p.2 = true) :
    RoundOk g (g.hardRound rng pos) := by
  unfold Game.hardRound
  split
  · rename_i hcond
    obtain ⟨k1, k2, k3, k4⟩ := updateDirectionInfo_keeps g g.lastHitPos.1 g.lastHitPos.2
    generalize g.updateDirectionInfo g.lastHitPos.1 g.lastHitPos.2 = g1 at k1 k2 k3 k4 ⊢
    have hc1 : ∀ p ∈ g1.possibleTargets, inGrid p.1 p.2 = true := by rw [k2]; exact hc
    have hne : g1.possibleTargets ≠ [] := by
      rw [k2]
      intro hnil
      rw [hnil] at hcond
      simp at hcond
    simp only
    generalize hfl : g1.possibleTargets.filter
      (fun p => (g1.isHorizontalPossible && decide (p.2 = g1.lastHitPos.2))
        || (!g1.isHorizontalPossible && decide (p.1 = g1.lastHitPos.1))) = fl
    by_cases hfe : fl.isEmpty = true
    · -- no candidate on the hypothesised axis: a draw from the whole queue
      simp only [hfe, Bool.not_true, Bool.false_eq_true, if_false]
      have hlen : 0 < g1.possibleTargets.length := List.length_pos.mpr hne
      have htm : g1.possibleTargets.getD (draw rng pos g1.possibleTargets.length) (0, 0)
          ∈ g1.possibleTargets := getD_mem_of_ne_nil _ _ (draw_lt rng pos _ hlen)
      split
      · rename_i hu
        refine ⟨k1, k4, ?_, fun _ => ⟨rfl, rfl, hc1 _ htm, ?_⟩⟩
        · intro p hp
          exact hc1 p (List.mem_of_mem_eraseIdx hp)
        · rw [← k1]; exact hu
      · refine ⟨k1, k4, ?_, fun h => by cases h⟩
        intro p hp
        exact hc1 p (List.mem_of_mem_eraseIdx hp)
    · have hfe2 : fl.isEmpty = false := by
        cases hv : fl.isEmpty
        · rfl
        · exact absurd hv hfe
      simp only [hfe2, Bool.not_false, if_true]
      have hlen : 0 < fl.length := by
        cases fl with
        | nil => simp at hfe2
        | cons a l => simp
      have htm : fl.getD (draw rng pos fl.length) (0, 0) ∈ g1.possibleTargets := by
        have := getD_mem_of_ne_nil fl _ (draw_lt rng pos _ hlen)
        rw [← hfl] at this
        rw [← hfl]
        exact (List.mem_filter.mp this).1
      split
      · rename_i hu
        refine ⟨k1, k4, ?_, fun _ => ⟨rfl, rfl, hc1 _ htm, ?_⟩⟩
        · intro p hp
          exact hc1 p (List.mem_filter.mp hp).1
        · rw [← k1]; exact hu
      · refine ⟨k1, k4, ?_, fun h => by cases h⟩
        intro p hp
        exact hc1 p (List.mem_filter.mp hp).1
  · exact randomAttack_ok g rng pos hc

theorem computerRound_ok (g : Game) (rng : Nat → Nat) (pos : Nat)
    (hc : ∀ p ∈ g.possibleTargets, inGrid p.1 p.2 = true) :
    RoundOk g (g.computerRound rng pos) := by
  unfold Game.computerRound
  split
  · exact randomAttack_ok g rng pos hc
  · exact mediumRound_ok g rng pos hc
  · exact hardRound_ok g rng pos hc

theorem computerLoop_safe (fuel : Nat) (g : Game) (rng : Nat → Nat) (pos : Nat)
    (hc : ∀ p ∈ g.possibleTargets, inGrid p.1 p.2 = true) (r : Game × Nat)
    (h : Game.computerLoop fuel g rng pos = some r) :
    r.1.playerGrid = g.playerGrid ∧ r.1.state = GameState.Animation ∧
    r.1.isPlayerAnimation = false ∧
    inGrid r.1.animationTarget.1 r.1.animationTarget.2 = true ∧
    isUnresolved (getCell g.playerGrid.grid r.1.animationTarget.1 r.1.animationTarget.2)
      = true := by
  induction fuel generalizing g pos with
  | zero => simp [Game.computerLoop] at h
  | succ n ih =>
    unfold Game.computerLoop at h
    obtain ⟨h1, _, h2, h3⟩ := computerRound_ok g rng pos hc
    simp only at h
    split at h
    · rename_i hatt
      cases h
      obtain ⟨a, b, c, d⟩ := h3 hatt
      exact ⟨h1, a, b, c, d⟩
    · have := ih _ _ h2 h
      rw [h1] at this
      exact this

/-- C9 (AI safety). For each difficulty, every game state whose candidate queue holds
in-grid coordinates only, every player board and every stream of random draws:
when `computerTurn` (called once the 800 ms have passed) returns, it has started an
attack (`state = Animation`, computer's animation) on a coordinate that is in the
grid and whose player-grid cell is `Empty` or `Ship`, so never `Hit`, `Miss` or
`Destroyed`; the player grid itself is left as it was. -/
theorem computerTurn_safe (fuel : Nat) (g : Game) (elapsedMs : Nat) (rng : Nat → Nat)
    (pos : Nat) (r : Game × Nat)
    (hc : ∀ p ∈ g.possibleTargets, inGrid p.1 p.2 = true) (hel : 800 ≤ elapsedMs)
    (h : Game.computerTurn fuel g elapsedMs rng pos = some r) :
    r.1.state = GameState.Animation ∧ r.1.isPlayerAnimation = false ∧
    r.1.playerGrid = g.playerGrid ∧
    inGrid r.1.animationTarget.1 r.1.animationTarget.2 = true ∧
    (getCell g.playerGrid.grid r.1.animationTarget.1 r.1.animationTarget.2 = CellState.Empty ∨
      getCell g.playerGrid.grid r.1.animationTarget.1 r.1.animationTarget.2 = CellState.Ship) ∧
    getCell g.playerGrid.grid r.1.animationTarget.1 r.1.animationTarget.2 ≠ CellState.Hit ∧
    getCell g.playerGrid.grid r.1.animationTarget.1 r.1.animationTarget.2 ≠ CellState.Miss ∧
    getCell g.playerGrid.grid r.1.animationTarget.1 r.1.animationTarget.2
      ≠ CellState.Destroyed := by
  unfold Game.computerTurn at h
  rw [if_neg (by omega)] at h
  obtain ⟨h1, h2, h3, h4, h5⟩ := computerLoop_safe fuel g rng pos hc r h
  have h6 : getCell g.playerGrid.grid r.1.animationTarget.1 r.1.animationTarget.2
        = CellState.Empty ∨
      getCell g.playerGrid.grid r.1.animationTarget.1 r.1.animationTarget.2
        = CellState.Ship := by
    unfold isUnresolved at h5
    simpa using h5
  refine ⟨h2, h3, h1, h4, h6, ?_, ?_, ?_⟩ <;> rcases h6 with e | e <;> rw [e] <;> simp

set_option maxRecDepth 100000 in
/-- C9 at a concrete state: on Hard, after the hit on (5,5) of the sample game, with
all draws equal to 0, `computerTurn` attacks (6,5), an in-grid `Ship` cell. -/
theorem computerTurn_safe_witness :
    (Game.computerTurn 1 ((sampleGame Difficulty.Hard).updateAnimation true) 800
      (fun _ => 0) 0).map (fun r => r.1.animationTarget) = some (6, 5) ∧
    inGrid 6 5 = true ∧
    (getCell ((sampleGame Difficulty.Hard).updateAnimation true).playerGrid.grid 6 5
        = CellState.Empty ∨
      getCell ((sampleGame Difficulty.Hard).updateAnimation true).playerGrid.grid 6 5
        = CellState.Ship) :=
  have h := computerTurn_safe 1 ((sampleGame Difficulty.Hard).updateAnimation true) 800
    (fun _ => 0) 0
    (({ (sampleGame Difficulty.Hard).updateAnimation true with
        possibleTargets := [(4, 5), (5, 6), (5, 4)] } : Game).startAnimation 6 5 false, 1)
    (by decide) (by decide) (by decide)
  ⟨by decide, h.2.2.2.1, h.2.2.2.2.1⟩

/-! ## The hunt frontier -/

/-- The loop of `addPossibleTargets` over any list of directions: the player grid is
kept and the in-grid unresolved neighbours are appended in order. -/
theorem addTargets_fold (ds : List (Int × Int)) (g : Game) (x y : Int) :
    (ds.foldl
      (fun acc dir =>
        let nx := x + dir.1
        let ny := y + dir.2
        if inGrid nx ny then
          if isUnresolved (getCell acc.playerGrid.grid nx ny) then
            { acc with possibleTargets := acc.possibleTargets ++ [(nx, ny)] }
          else acc
        else acc)
      g).playerGrid = g.playerGrid ∧
    (ds.foldl
      (fun acc dir =>
        let nx := x + dir.1
        let ny := y + dir.2
        if inGrid nx ny then
          if isUnresolved (getCell acc.playerGrid.grid nx ny) then
            { acc with possibleTargets := acc.possibleTargets ++ [(nx, ny)] }
          else acc
        else acc)
      g).possibleTargets = g.possibleTargets ++
        (ds.map (fun d => (x + d.1, y + d.2))).filter
          (fun p => inGrid p.1 p.2 && isUnresolved (getCell g.playerGrid.grid p.1 p.2)) := by
  induction ds generalizing g with
  | nil => simp
  | cons d ds ih =>
    rw [List.foldl_cons]
    simp only
    by_cases h1 : inGrid (x + d.1) (y + d.2) = true
    · by_cases h2 : isUnresolved (getCell g.playerGrid.grid (x + d.1) (y + d.2)) = true
      · rw [if_pos h1, if_pos h2]
        obtain ⟨e1, e2⟩ := ih { g with possibleTargets := g.possibleTargets ++ [(x + d.1, y + d.2)] }
        refine ⟨e1, ?_⟩
        rw [e2]
        simp [List.filter_cons, h1, h2]
      · rw [if_pos h1, if_neg h2]
        obtain ⟨e1, e2⟩ := ih g
        refine ⟨e1, ?_⟩
        rw [e2]
        simp [List.filter_cons, h1, h2]
    · rw [if_neg h1]
      obtain ⟨e1, e2⟩ := ih g
      refine ⟨e1, ?_⟩
      rw [e2]
      simp [List.filter_cons, h1]

theorem addPossibleTargets_spec (g : Game) (x y : Int) :
    (g.addPossibleTargets x y).playerGrid = g.playerGrid ∧
    (g.addPossibleTargets x y).possibleTargets = g.possibleTargets ++
      [(x + 1, y), (x - 1, y), (x, y + 1), (x, y - 1)].filter
        (fun p => inGrid p.1 p.2 && isUnresolved (getCell g.playerGrid.grid p.1 p.2)) := by
  have h := addTargets_fold directions g x y
  have hd : directions.map (fun d => (x + d.1, y + d.2))
      = [(x + 1, y), (x - 1, y), (x, y + 1), (x, y - 1)] := by
    simp only [directions, List.map_cons, List.map_nil, add_zero]
    rfl
  rw [hd] at h
  exact h

/-- C10 (hunt frontier after a hit). On Medium and Hard, when the computer's attack
at `(x, y) = animationTarget` resolves to `Hit`, `updateAnimation` appends to the
candidate queue, in this order, those of `(x+1,y)`, `(x-1,y)`, `(x,y+1)`, `(x,y-1)`
that are in the grid and whose player-grid cell (after the attack) is `Empty` or
`Ship`, and nothing else; the candidates that were in the queue stay. So every
in-grid unresolved neighbour is in the queue afterwards, and no coordinate added
is out of the grid or resolved. -/
theorem hunt_frontier (g : Game) (hcomp : g.isPlayerAnimation = false)
    (hd : g.difficulty = Difficulty.Medium ∨ g.difficulty = Difficulty.Hard)
    (hres : (g.playerGrid.attack g.animationTarget.1 g.animationTarget.2).1 = CellState.Hit) :
    (g.updateAnimation true).playerGrid
      = (g.playerGrid.attack g.animationTarget.1 g.animationTarget.2).2 ∧
    (g.updateAnimation true).possibleTargets = g.possibleTargets ++
      [(g.animationTarget.1 + 1, g.animationTarget.2),
        (g.animationTarget.1 - 1, g.animationTarget.2),
        (g.animationTarget.1, g.animationTarget.2 + 1),
        (g.animationTarget.1, g.animationTarget.2 - 1)].filter
        (fun p => inGrid p.1 p.2 &&
          isUnresolved (getCell (g.updateAnimation true).playerGrid.grid p.1 p.2)) ∧
    (∀ p ∈ [(g.animationTarget.1 + 1, g.animationTarget.2),
        (g.animationTarget.1 - 1, g.animationTarget.2),
        (g.animationTarget.1, g.animationTarget.2 + 1),
        (g.animationTarget.1, g.animationTarget.2 - 1)],
      inGrid p.1 p.2 = true →
      (getCell (g.updateAnimation true).playerGrid.grid p.1 p.2 = CellState.Empty ∨
        getCell (g.updateAnimation true).playerGrid.grid p.1 p.2 = CellState.Ship) →
      p ∈ (g.updateAnimation true).possibleTargets) ∧
    (∃ added, (g.updateAnimation true).possibleTargets = g.possibleTargets ++ added ∧
      ∀ p ∈ added, inGrid p.1 p.2 = true ∧
        (getCell (g.updateAnimation true).playerGrid.grid p.1 p.2 = CellState.Empty ∨
          getCell (g.updateAnimation true).playerGrid.grid p.1 p.2 = CellState.Ship)) := by
  have hunres : ∀ c : CellState, isUnresolved c = true ↔
      (c = CellState.Empty ∨ c = CellState.Ship) := by
    intro c
    unfold isUnresolved
    simp
  have hgrid : (g.updateAnimation true).playerGrid
      = (g.playerGrid.attack g.animationTarget.1 g.animationTarget.2).2 := by
    unfold Game.updateAnimation Game.updateShipsCount Game.resolveComputerAttack
    simp only [hcomp, hres, if_true, Bool.false_eq_true, if_false, true_or, reduceCtorEq]
    rcases hd with hd | hd
    · simp only [hd]
      split <;> exact (addPossibleTargets_spec _ _ _).1
    · simp only [hd]
      split <;>
        exact (addPossibleTargets_spec _ _ _).1.trans (updateDirectionInfo_keeps _ _ _).1
  have hq : (g.updateAnimation true).possibleTargets = g.possibleTargets ++
      [(g.animationTarget.1 + 1, g.animationTarget.2),
        (g.animationTarget.1 - 1, g.animationTarget.2),
        (g.animationTarget.1, g.animationTarget.2 + 1),
        (g.animationTarget.1, g.animationTarget.2 - 1)].filter
        (fun p => inGrid p.1 p.2 &&
          isUnresolved (getCell (g.updateAnimation true).playerGrid.grid p.1 p.2)) := by
    rw [hgrid]
    unfold Game.updateAnimation Game.updateShipsCount Game.resolveComputerAttack
    simp only [hcomp, hres, if_true, Bool.false_eq_true, if_false, true_or, reduceCtorEq]
    rcases hd with hd | hd
    · simp only [hd]
      split <;> exact (addPossibleTargets_spec _ _ _).2
    · simp only [hd]
      split <;>
      · rw [(addPossibleTargets_spec _ _ _).2, (updateDirectionInfo_keeps _ _ _).1,
          (updateDirectionInfo_keeps _ _ _).2.1]
  refine ⟨hgrid, hq, ?_, ?_⟩
  · intro p hp hin hcell
    rw [hq]
    apply List.mem_append_right
    rw [List.mem_filter]
    refine ⟨hp, ?_⟩
    rw [Bool.and_eq_true]
    exact ⟨hin, (hunres _).mpr hcell⟩
  · refine ⟨_, hq, ?_⟩
    intro p hp
    have := (List.mem_filter.mp hp).2
    rw [Bool.and_eq_true] at this
    exact ⟨this.1, (hunres _).mp this.2⟩

set_option maxRecDepth 100000 in
/-- C10 at the sample game: the computer's attack on (5,5) is a `Hit` and the four
neighbours are unresolved; afterwards the queue is (6,5), (4,5), (5,6), (5,4), on
Medium and on Hard. -/
theorem hunt_frontier_witness :
    ((sampleGame Difficulty.Medium).updateAnimation true).possibleTargets
      = [(6, 5), (4, 5), (5, 6), (5, 4)] ∧
    ((sampleGame Difficulty.Hard).updateAnimation true).possibleTargets
      = [(6, 5), (4, 5), (5, 6), (5, 4)] ∧
    ((4 : Int), (5 : Int)) ∈ ((sampleGame Difficulty.Medium).updateAnimation true).possibleTargets :=
  ⟨by decide, by decide,
    (hunt_frontier (sampleGame Difficulty.Medium) rfl (Or.inl rfl) (by decide)).2.2.1 (4, 5)
      (by decide) (by decide) (Or.inl (by decide))⟩

/-! ## The Hard round and the orientation of the hunt -/

theorem updateDirectionInfo_hasLastHit (g : Game) (x y : Int) :
    (g.updateDirectionInfo x y).hasLastHit = g.hasLastHit := by
  unfold Game.updateDirectionInfo
  simp only
  split
  · rfl
  · split <;> rfl

/-- A Hit cell left or right of the in-grid coordinate `(x, y)` and none above or
below: `updateDirectionInfo` settles the orientation as horizontal. -/
theorem updateDirectionInfo_horizontal (g : Game) (x y : Int) (hin : inGrid x y = true)
    (hrow : hitAt g.playerGrid (x - 1) y ∨ hitAt g.playerGrid (x + 1) y)
    (hup : ¬ hitAt g.playerGrid x (y - 1)) (hdown : ¬ hitAt g.playerGrid x (y + 1)) :
    (g.updateDirectionInfo x y).isHorizontalPossible = true := by
  unfold hitAt at hrow hup hdown
  rw [inGrid_iff] at hin
  simp only [inGrid_iff] at hrow hup hdown
  have h1 : ((decide (x > 0) && decide (getCell g.playerGrid.grid (x - 1) y = CellState.Hit)) ||
      (decide (x < GRID_SIZE - 1) && decide (getCell g.playerGrid.grid (x + 1) y = CellState.Hit)))
      = true := by
    simp only [Bool.or_eq_true, Bool.and_eq_true, decide_eq_true_eq, GRID_SIZE]
    rcases hrow with ⟨hb, hc⟩ | ⟨hb, hc⟩
    · exact Or.inl ⟨by omega, hc⟩
    · exact Or.inr ⟨by omega, hc⟩
  have h2 : (decide (y > 0) && decide (getCell g.playerGrid.grid x (y - 1) = CellState.Hit))
      = false := by
    rw [Bool.and_eq_false_iff]
    by_cases hy : y > 0
    · right
      simp only [decide_eq_false_iff_not]
      intro hc
      exact hup ⟨⟨by omega, by omega, by omega, by omega⟩, hc⟩
    · left
      simp [hy]
  have h3 : (decide (y < GRID_SIZE - 1) &&
      decide (getCell g.playerGrid.grid x (y + 1) = CellState.Hit)) = false := by
    rw [Bool.and_eq_false_iff]
    by_cases hy : y < GRID_SIZE - 1
    · right
      simp only [decide_eq_false_iff_not]
      intro hc
      unfold GRID_SIZE at hy
      exact hdown ⟨⟨by omega, by omega, by omega, by omega⟩, hc⟩
    · left
      simp [hy]
  unfold Game.updateDirectionInfo
  simp only [h1, h2, h3, Bool.not_false, Bool.and_self, if_true]

/-- A Hit cell above or below the in-grid coordinate `(x, y)` and none left or right:
`updateDirectionInfo` settles the orientation as vertical. -/
theorem updateDirectionInfo_vertical (g : Game) (x y : Int) (hin : inGrid x y = true)
    (hcol : hitAt g.playerGrid x (y - 1) ∨ hitAt g.playerGrid x (y + 1))
    (hleft : ¬ hitAt g.playerGrid (x - 1) y) (hright : ¬ hitAt g.playerGrid (x + 1) y) :
    (g.updateDirectionInfo x y).isHorizontalPossible = false := by
  unfold hitAt at hcol hleft hright
  rw [inGrid_iff] at hin
  simp only [inGrid_iff] at hcol hleft hright
  have h1 : ((decide (y > 0) && decide (getCell g.playerGrid.grid x (y - 1) = CellState.Hit)) ||
      (decide (y < GRID_SIZE - 1) && decide (getCell g.playerGrid.grid x (y + 1) = CellState.Hit)))
      = true := by
    simp only [Bool.or_eq_true, Bool.and_eq_true, decide_eq_true_eq, GRID_SIZE]
    rcases hcol with ⟨hb, hc⟩ | ⟨hb, hc⟩
    · exact Or.inl ⟨by omega, hc⟩
    · exact Or.inr ⟨by omega, hc⟩
  have h2 : (decide (x > 0) && decide (getCell g.playerGrid.grid (x - 1) y = CellState.Hit))
      = false := by
    rw [Bool.and_eq_false_iff]
    by_cases hx : x > 0
    · right
      simp only [decide_eq_false_iff_not]
      intro hc
      exact hleft ⟨⟨by omega, by omega, by omega, by omega⟩, hc⟩
    · left
      simp [hx]
  have h3 : (decide (x < GRID_SIZE - 1) &&
      decide (getCell g.playerGrid.grid (x + 1) y = CellState.Hit)) = false := by
    rw [Bool.and_eq_false_iff]
    by_cases hx : x < GRID_SIZE - 1
    · right
      simp only [decide_eq_false_iff_not]
      intro hc
      unfold GRID_SIZE at hx
      exact hright ⟨⟨by omega, by omega, by omega, by omega⟩, hc⟩
    · left
      simp [hx]
  unfold Game.updateDirectionInfo
  simp only [h1, h2, h3, Bool.or_self, Bool.false_and, Bool.false_eq_true, if_false,
    Bool.not_false, Bool.and_self, if_true]

/-- Running `updateDirectionInfo` again at the same coordinate, on the same player
grid, gives `isHorizontalPossible` the value it gave before. -/
theorem updateDirectionInfo_again (g g2 : Game) (x y : Int)
    (hgrid : g2.playerGrid = g.playerGrid)
    (hflag : g2.isHorizontalPossible = (g.updateDirectionInfo x y).isHorizontalPossible) :
    (g2.updateDirectionInfo x y).isHorizontalPossible
      = (g.updateDirectionInfo x y).isHorizontalPossible := by
  unfold Game.updateDirectionInfo at hflag ⊢
  simp only [hgrid] at hflag ⊢
  split_ifs at hflag ⊢ <;> first | rfl | exact hflag

theorem onLine_filter (horizontal : Bool) (l : List (Int × Int)) (q p : Int × Int) :
    p ∈ l.filter (fun p => (horizontal && decide (p.2 = q.2))
        || (!horizontal && decide (p.1 = q.1))) ↔ p ∈ l ∧ onLine horizontal p q := by
  rw [List.mem_filter]
  unfold onLine
  cases horizontal <;> simp

/-- One Hard round while the hunt is settled on a line: the round either attacks a
queued candidate on that line, or it drops a resolved candidate from the queue and
the hunt stays settled. -/
theorem hardRound_line (horizontal : Bool) (g : Game) (hl : LineHunt horizontal g)
    (rng : Nat → Nat) (pos : Nat) :
    ((g.hardRound rng pos).2.2 = true →
      (g.hardRound rng pos).1.state = GameState.Animation ∧
      onLine horizontal (g.hardRound rng pos).1.animationTarget g.lastHitPos ∧
      (g.hardRound rng pos).1.animationTarget ∈ g.possibleTargets) ∧
    ((g.hardRound rng pos).2.2 = false →
      LineHunt horizontal (g.hardRound rng pos).1 ∧
      (g.hardRound rng pos).1.lastHitPos = g.lastHitPos ∧
      (g.hardRound rng pos).1.playerGrid = g.playerGrid ∧
      (∀ p ∈ (g.hardRound rng pos).1.possibleTargets, p ∈ g.possibleTargets) ∧
      (g.hardRound rng pos).1.possibleTargets.length < g.possibleTargets.length) := by
  obtain ⟨p0, hp0, hline0, hun0⟩ := hl.candidate
  have hcond : (g.hasLastHit && !g.possibleTargets.isEmpty) = true := by
    rw [hl.last]
    cases hq : g.possibleTargets with
    | nil => rw [hq] at hp0; cases hp0
    | cons a l => rfl
  unfold Game.hardRound
  rw [if_pos hcond]
  obtain ⟨k1, k2, k3, k4⟩ := updateDirectionInfo_keeps g g.lastHitPos.1 g.lastHitPos.2
  have k5 := updateDirectionInfo_hasLastHit g g.lastHitPos.1 g.lastHitPos.2
  have k6 := hl.settled
  generalize g.updateDirectionInfo g.lastHitPos.1 g.lastHitPos.2 = g1 at k1 k2 k3 k4 k5 k6 ⊢
  simp only
  generalize hfl : g1.possibleTargets.filter
    (fun p => (g1.isHorizontalPossible && decide (p.2 = g1.lastHitPos.2))
      || (!g1.isHorizontalPossible && decide (p.1 = g1.lastHitPos.1))) = fl
  have hmem : ∀ p, p ∈ fl ↔ p ∈ g.possibleTargets ∧ onLine horizontal p g.lastHitPos := by
    intro p
    rw [← hfl, k6, k3, k2]
    exact onLine_filter horizontal _ _ p
  have hp0fl : p0 ∈ fl := (hmem p0).mpr ⟨hp0, hline0⟩
  have hfe : fl.isEmpty = false := by
    cases fl with
    | nil => cases hp0fl
    | cons a l => rfl
  have hlen : 0 < fl.length := List.length_pos_of_mem hp0fl
  simp only [hfe, Bool.not_false, if_true]
  have htm := (hmem _).mp (getD_mem_of_ne_nil fl _ (draw_lt rng pos _ hlen))
  generalize fl.getD (draw rng pos fl.length) (0, 0) = target at htm ⊢
  by_cases hu : isUnresolved (getCell g1.playerGrid.grid target.1 target.2) = true
  · rw [if_pos hu]
    exact ⟨fun _ => ⟨rfl, htm.2, htm.1⟩, fun h => by cases h⟩
  · rw [if_neg hu]
    refine ⟨fun h => (by cases h),
      fun _ => ⟨⟨k4.trans hl.hard, k5.trans hl.last, ?_, ?_⟩, k3, k1, ?_, ?_⟩⟩
    · show (Game.updateDirectionInfo _ g1.lastHitPos.1 g1.lastHitPos.2).isHorizontalPossible
        = horizontal
      rw [k3, ← hl.settled]
      exact updateDirectionInfo_again g _ _ _ k1 (k6.trans hl.settled.symm)
    · refine ⟨p0, ?_, ?_, ?_⟩
      · simp only [k2]
        rw [List.mem_filter]
        refine ⟨hp0, ?_⟩
        simp only [decide_eq_true_eq]
        intro he
        apply hu
        rw [← he, k1]
        exact hun0
      · show onLine horizontal p0 g1.lastHitPos
        rw [k3]; exact hline0
      · show isUnresolved (getCell g1.playerGrid.grid p0.1 p0.2) = true
        rw [k1]; exact hun0
    · intro p hp
      simp only [k2] at hp
      exact (List.mem_filter.mp hp).1
    · simp only [k2]
      rw [List.length_filter_lt_length_iff_exists]
      exact ⟨target, htm.1, by simp⟩

/-- The loop of `computerTurn` on Hard while the hunt is settled on a line: whatever
the draws, a result attacks a queued candidate on the line, and the loop returns
within as many rounds as the queue is long. -/
theorem computerLoop_line (horizontal : Bool) (fuel : Nat) (g : Game)
    (hl : LineHunt horizontal g) (rng : Nat → Nat) (pos : Nat) :
    (∀ r, Game.computerLoop fuel g rng pos = some r →
      r.1.state = GameState.Animation ∧ onLine horizontal r.1.animationTarget g.lastHitPos ∧
      r.1.animationTarget ∈ g.possibleTargets) ∧
    (g.possibleTargets.length ≤ fuel → ∃ r, Game.computerLoop fuel g rng pos = some r) := by
  induction fuel generalizing g pos with
  | zero =>
    refine ⟨fun r h => (by simp [Game.computerLoop] at h), fun hle => ?_⟩
    obtain ⟨p0, hp0, _⟩ := hl.candidate
    have := List.length_pos_of_mem hp0
    omega
  | succ n ih =>
    have hround : g.computerRound rng pos = g.hardRound rng pos := by
      unfold Game.computerRound
      rw [hl.hard]
    obtain ⟨h1, h2⟩ := hardRound_line horizontal g hl rng pos
    unfold Game.computerLoop
    simp only [hround]
    cases hatt : (g.hardRound rng pos).2.2
    · obtain ⟨hl2, e1, e2, hsub, hlt⟩ := h2 hatt
      obtain ⟨ih1, ih2⟩ := ih (g.hardRound rng pos).1 hl2 (g.hardRound rng pos).2.1
      simp only [Bool.false_eq_true, if_false]
      refine ⟨fun r h => ?_, fun hle => ih2 (by omega)⟩
      have := ih1 r h
      rw [e1] at this
      exact ⟨this.1, this.2.1, hsub _ this.2.2⟩
    · obtain ⟨a, b, c⟩ := h1 hatt
      simp only [if_true]
      refine ⟨fun r h => ?_, fun _ => ⟨_, rfl⟩⟩
      cases h
      exact ⟨a, b, c⟩

/-- C11 (directional restriction on Hard). Let the last hit `lastHitPos` be in the
grid. If a cell immediately left or right of it is `Hit`, no cell immediately above
or below it is `Hit`, and the queue holds a candidate in its row whose cell is
`Empty` or `Ship`, then for every stream of draws the target that `computerTurn`
selects lies in that row, and `computerTurn` does select one within as many rounds
as the queue is long. Symmetrically, with a `Hit` neighbour only above or below and
an unresolved candidate in the column, the selected target lies in the column of
`lastHitPos`. -/
theorem directional_restriction (fuel : Nat) (g : Game) (elapsedMs : Nat) (rng : Nat → Nat)
    (pos : Nat) (hhard : g.difficulty = Difficulty.Hard) (hlast : g.hasLastHit = true)
    (hin : inGrid g.lastHitPos.1 g.lastHitPos.2 = true) (hel : 800 ≤ elapsedMs) :
    (((hitAt g.playerGrid (g.lastHitPos.1 - 1) g.lastHitPos.2 ∨
        hitAt g.playerGrid (g.lastHitPos.1 + 1) g.lastHitPos.2) ∧
      ¬ hitAt g.playerGrid g.lastHitPos.1 (g.lastHitPos.2 - 1) ∧
      ¬ hitAt g.playerGrid g.lastHitPos.1 (g.lastHitPos.2 + 1)) →
      (∃ p ∈ g.possibleTargets, p.2 = g.lastHitPos.2 ∧
        (getCell g.playerGrid.grid p.1 p.2 = CellState.Empty ∨
          getCell g.playerGrid.grid p.1 p.2 = CellState.Ship)) →
      (∀ r, Game.computerTurn fuel g elapsedMs rng pos = some r →
        r.1.state = GameState.Animation ∧ r.1.animationTarget.2 = g.lastHitPos.2) ∧
      (g.possibleTargets.length ≤ fuel →
        ∃ r, Game.computerTurn fuel g elapsedMs rng pos = some r)) ∧
    (((hitAt g.playerGrid g.lastHitPos.1 (g.lastHitPos.2 - 1) ∨
        hitAt g.playerGrid g.lastHitPos.1 (g.lastHitPos.2 + 1)) ∧
      ¬ hitAt g.playerGrid (g.lastHitPos.1 - 1) g.lastHitPos.2 ∧
      ¬ hitAt g.playerGrid (g.lastHitPos.1 + 1) g.lastHitPos.2) →
      (∃ p ∈ g.possibleTargets, p.1 = g.lastHitPos.1 ∧
        (getCell g.playerGrid.grid p.1 p.2 = CellState.Empty ∨
          getCell g.playerGrid.grid p.1 p.2 = CellState.Ship)) →
      (∀ r, Game.computerTurn fuel g elapsedMs rng pos = some r →
        r.1.state = GameState.Animation ∧ r.1.animationTarget.1 = g.lastHitPos.1) ∧
      (g.possibleTargets.length ≤ fuel →
        ∃ r, Game.computerTurn fuel g elapsedMs rng pos = some r)) := by
  have hunres : ∀ c : CellState, (c = CellState.Empty ∨ c = CellState.Ship) →
      isUnresolved c = true := by
    intro c hc
    unfold isUnresolved
    simpa using hc
  have hturn : Game.computerTurn fuel g elapsedMs rng pos = Game.computerLoop fuel g rng pos := by
    unfold Game.computerTurn
    rw [if_neg (by omega)]
  rw [hturn]
  constructor
  · rintro ⟨hrow, hup, hdown⟩ ⟨p, hp, hpl, hpc⟩
    have hl : LineHunt true g :=
      ⟨hhard, hlast, updateDirectionInfo_horizontal g _ _ hin hrow hup hdown,
        ⟨p, hp, hpl, hunres _ hpc⟩⟩
    obtain ⟨h1, h2⟩ := computerLoop_line true fuel g hl rng pos
    exact ⟨fun r h => ⟨(h1 r h).1, (h1 r h).2.1⟩, h2⟩
  · rintro ⟨hcol, hleft, hright⟩ ⟨p, hp, hpl, hpc⟩
    have hl : LineHunt false g :=
      ⟨hhard, hlast, updateDirectionInfo_vertical g _ _ hin hcol hleft hright,
        ⟨p, hp, hpl, hunres _ hpc⟩⟩
    obtain ⟨h1, h2⟩ := computerLoop_line false fuel g hl rng pos
    exact ⟨fun r h => ⟨(h1 r h).1, (h1 r h).2.1⟩, h2⟩

set_option maxRecDepth 100000 in
/-- C11 at the sample game after the hits on (5,5) and (6,5): the last hit is (6,5),
its left neighbour is `Hit`, and the next target lies in row 5 — it is (7,5) when
all draws are 1 and (4,5) when all draws are 0. -/
theorem directional_restriction_witness :
    sampleTwoHits.lastHitPos = (6, 5) ∧
    (∃ r, Game.computerTurn 6 sampleTwoHits 800 (fun _ => 1) 0 = some r ∧
      r.1.animationTarget.2 = 5) ∧
    (Game.computerTurn 6 sampleTwoHits 800 (fun _ => 1) 0).map (fun r => r.1.animationTarget)
      = some (7, 5) ∧
    (Game.computerTurn 6 sampleTwoHits 800 (fun _ => 0) 0).map (fun r => r.1.animationTarget)
      = some (4, 5) :=
  have h := (directional_restriction 6 sampleTwoHits 800 (fun _ => 1) 0 (by decide) (by decide)
    (by decide) (by decide)).1
    ⟨Or.inl ⟨by decide, by decide⟩, fun h => absurd h.2 (by decide),
      fun h => absurd h.2 (by decide)⟩
    ⟨(7, 5), by decide, by decide, Or.inr (by decide)⟩
  ⟨by decide, (h.2 (by decide)).imp (fun r hr => ⟨hr, (h.1 r hr).2⟩), by decide, by decide⟩

set_option maxRecDepth 100000 in
/-- C12 fails on the code. On Hard, after the single hit on (5,5) of the sample game
the orientation is undetermined (`isHorizontalPossible` and `isVerticalPossible`
both true, no `Hit` neighbour) and the queue is (6,5), (4,5), (5,6), (5,4), all
unresolved; yet for every stream of draws `computerTurn` selects (6,5) or (4,5),
never (5,6) or (5,4): the filter reads `isHorizontalPossible` alone, so an
undetermined orientation is treated as horizontal. -/
theorem hard_unknown_keeps_row (rng : Nat → Nat) (pos : Nat) :
    ((sampleGame Difficulty.Hard).updateAnimation true).isHorizontalPossible = true ∧
    ((sampleGame Difficulty.Hard).updateAnimation true).isVerticalPossible = true ∧
    ((sampleGame Difficulty.Hard).updateAnimation true).possibleTargets
      = [(6, 5), (4, 5), (5, 6), (5, 4)] ∧
    (∀ p ∈ ((sampleGame Difficulty.Hard).updateAnimation true).possibleTargets,
      getCell ((sampleGame Difficulty.Hard).updateAnimation true).playerGrid.grid p.1 p.2
          = CellState.Empty ∨
        getCell ((sampleGame Difficulty.Hard).updateAnimation true).playerGrid.grid p.1 p.2
          = CellState.Ship) ∧
    ∃ r, Game.computerTurn 4 ((sampleGame Difficulty.Hard).updateAnimation true) 800 rng pos
        = some r ∧
      (r.1.animationTarget = (6, 5) ∨ r.1.animationTarget = (4, 5)) ∧
      r.1.animationTarget ≠ (5, 6) ∧ r.1.animationTarget ≠ (5, 4) := by
  have hq : ((sampleGame Difficulty.Hard).updateAnimation true).possibleTargets
      = [(6, 5), (4, 5), (5, 6), (5, 4)] := by decide
  have hL : ((sampleGame Difficulty.Hard).updateAnimation true).lastHitPos = (5, 5) := by decide
  have hl : LineHunt true ((sampleGame Difficulty.Hard).updateAnimation true) :=
    ⟨by decide, by decide, by decide, ⟨(6, 5), by decide, by unfold onLine; decide, by decide⟩⟩
  obtain ⟨h1, h2⟩ := computerLoop_line true 4 _ hl rng pos
  obtain ⟨r, hr⟩ := h2 (by decide)
  obtain ⟨_, hline, hmem⟩ := h1 r hr
  have hturn : Game.computerTurn 4 ((sampleGame Difficulty.Hard).updateAnimation true) 800 rng pos
      = some r := by
    unfold Game.computerTurn
    rw [if_neg (by decide)]
    exact hr
  rw [hq] at hmem
  rw [hL] at hline
  unfold onLine at hline
  simp only [if_true] at hline
  have hcases : r.1.animationTarget = (6, 5) ∨ r.1.animationTarget = (4, 5) := by
    simp only [List.mem_cons, List.mem_singleton, List.not_mem_nil, or_false] at hmem
    rcases hmem with h | h | h | h
    · exact Or.inl h
    · exact Or.inr h
    · rw [h] at hline; exact absurd hline (by decide)
    · rw [h] at hline; exact absurd hline (by decide)
  refine ⟨by decide, by decide, hq, by decide, r, hturn, hcases, ?_, ?_⟩
  · rcases hcases with h | h <;> rw [h] <;> decide
  · rcases hcases with h | h <;> rw [h] <;> decide

set_option maxRecDepth 100000 in
/-- C18 fails on the code in the unfiltered case. At the end of the sample Hard run the
last hit is (2,1), no candidate is left in its row and the queue is (2,2), (2,0).
With the next two draws 0 and 1, `computerTurn` takes the target from index 0,
which is (2,2), and erases index 1, which is (2,0): afterwards the target (2,2) is
still in the queue and the other candidate (2,0) is gone. -/
theorem hard_unfiltered_erases_other :
    sampleColumnHunt.difficulty = Difficulty.Hard ∧
    sampleColumnHunt.state = GameState.ComputerTurn ∧
    sampleColumnHunt.lastHitPos = (2, 1) ∧
    sampleColumnHunt.possibleTargets = [(2, 2), (2, 0)] ∧
    (Game.run 1 sampleHardRng sampleHardInputs (Game.new, 0)).map (fun r => r.2) = some 34 ∧
    (Game.computerTurn 1 sampleColumnHunt 800 sampleHardRng 34).map
      (fun r => (r.1.animationTarget, r.1.possibleTargets)) = some ((2, 2), [(2, 2)]) := by
  decide

/-! ## The AI memory along a run of the game -/

theorem clearPossibleTargets_spec (g : Game) :
    g.clearPossibleTargets.possibleTargets = [] ∧ g.clearPossibleTargets.hasLastHit = false ∧
    g.clearPossibleTargets.isHorizontalPossible = true ∧
    g.clearPossibleTargets.isVerticalPossible = true :=
  ⟨rfl, rfl, rfl, rfl⟩

/-- What `start` leaves behind when it returns: the AI memory is reset, the placement
phase begins with the whole fleet pending, the player's board is the cleared one
and the difficulty is kept. -/
theorem start_spec (fuel : Nat) (g : Game) (rng : Nat → Nat) (pos : Nat) (r : Game × Nat)
    (h : Game.start fuel g rng pos = some r) :
    r.1.possibleTargets = [] ∧ r.1.hasLastHit = false ∧ r.1.isHorizontalPossible = true ∧
    r.1.isVerticalPossible = true ∧ r.1.state = GameState.ShipPlacement ∧
    r.1.currentShipSize = 4 ∧ r.1.currentShipHorizontal = true ∧ r.1.shipSizes = fleetSizes ∧
    r.1.playerGrid = g.playerGrid.clear ∧ r.1.difficulty = g.difficulty := by
  unfold Game.start Game.placeComputerShips at h
  simp only [Option.map_map, Option.map_eq_some'] at h
  obtain ⟨b, _, rfl⟩ := h
  exact ⟨rfl, rfl, rfl, rfl, rfl, rfl, rfl, rfl, rfl, rfl⟩

theorem addTargets_fold_hasLastHit (ds : List (Int × Int)) (g : Game) (x y : Int) :
    (ds.foldl
      (fun acc dir =>
        let nx := x + dir.1
        let ny := y + dir.2
        if inGrid nx ny then
          if isUnresolved (getCell acc.playerGrid.grid nx ny) then
            { acc with possibleTargets := acc.possibleTargets ++ [(nx, ny)] }
          else acc
        else acc)
      g).hasLastHit = g.hasLastHit := by
  induction ds generalizing g with
  | nil => rfl
  | cons d ds ih =>
    rw [List.foldl_cons]
    simp only
    split
    · split
      · rw [ih]
      · rw [ih]
    · rw [ih]

theorem addPossibleTargets_hasLastHit (g : Game) (x y : Int) :
    (g.addPossibleTargets x y).hasLastHit = g.hasLastHit :=
  addTargets_fold_hasLastHit directions g x y

theorem queueInv_resolveComputerAttack (g : Game) (h : QueueInv g) :
    QueueInv g.resolveComputerAttack := by
  unfold QueueInv at h ⊢
  unfold Game.resolveComputerAttack
  simp only
  generalize (g.playerGrid.attack g.animationTarget.1 g.animationTarget.2) = r
  rcases cellState_cases r.1 with hr | hr | hr | hr | hr
  · -- the attack returned `Ship`
    simp only [hr, reduceCtorEq, or_self, if_false]
    split_ifs <;> exact h
  · simp only [hr, reduceCtorEq, or_self, if_false]
    split_ifs <;> exact h
  · -- `Hit`: the last hit is recorded
    simp only [hr, reduceCtorEq, true_or, if_true, if_false]
    have hh : (match g.difficulty with
        | Difficulty.Hard =>
          (Game.updateDirectionInfo
            { g with playerGrid := r.2, lastHitPos := g.animationTarget, hasLastHit := true }
            g.animationTarget.1 g.animationTarget.2).addPossibleTargets
            g.animationTarget.1 g.animationTarget.2
        | Difficulty.Medium =>
          Game.addPossibleTargets
            { g with playerGrid := r.2, lastHitPos := g.animationTarget, hasLastHit := true }
            g.animationTarget.1 g.animationTarget.2
        | Difficulty.Easy =>
          { g with playerGrid := r.2, lastHitPos := g.animationTarget, hasLastHit := true }).hasLastHit
        = true := by
      cases g.difficulty
      · rfl
      · simp only [addPossibleTargets_hasLastHit]
      · simp only [addPossibleTargets_hasLastHit, updateDirectionInfo_hasLastHit]
    split_ifs <;> exact fun _ => hh
  · simp only [hr, reduceCtorEq, or_self, if_false]
    split_ifs <;> exact h
  · -- `Destroyed`: the memory is cleared
    simp only [hr, reduceCtorEq, or_true, if_true]
    split_ifs <;> exact fun hne => absurd rfl hne

theorem queueInv_updateAnimation (g : Game) (finished : Bool) (h : QueueInv g) :
    QueueInv (g.updateAnimation finished) := by
  unfold Game.updateAnimation
  cases finished
  · exact h
  · simp only [if_true]
    cases hp : g.isPlayerAnimation
    · simp only [Bool.false_eq_true, if_false]
      exact queueInv_resolveComputerAttack g h
    · simp only [if_true]
      unfold QueueInv at h ⊢
      unfold Game.updateShipsCount Game.resolvePlayerAttack
      simp only
      split_ifs <;> exact h

/-- A round of the loop of `computerTurn` keeps `hasLastHit` and only takes candidates
out of the queue. -/
theorem computerRound_memory (g : Game) (rng : Nat → Nat) (pos : Nat) :
    (g.computerRound rng pos).1.hasLastHit = g.hasLastHit ∧
    ∀ p ∈ (g.computerRound rng pos).1.possibleTargets, p ∈ g.possibleTargets := by
  have hrand : (g.randomAttack rng pos).1.hasLastHit = g.hasLastHit ∧
      ∀ p ∈ (g.randomAttack rng pos).1.possibleTargets, p ∈ g.possibleTargets := by
    unfold Game.randomAttack
    simp only
    split
    · exact ⟨rfl, fun p hp => hp⟩
    · exact ⟨rfl, fun p hp => hp⟩
  unfold Game.computerRound
  split
  · exact hrand
  · unfold Game.mediumRound
    split
    · cases g.possibleTargets.find?
        (fun target => isUnresolved (getCell g.playerGrid.grid target.1 target.2)) with
      | none => exact ⟨rfl, fun p hp => (List.mem_filter.mp hp).1⟩
      | some t => exact ⟨rfl, fun p hp => (List.mem_filter.mp hp).1⟩
    · exact hrand
  · unfold Game.hardRound
    split
    · obtain ⟨_, k2, _, _⟩ := updateDirectionInfo_keeps g g.lastHitPos.1 g.lastHitPos.2
      have k5 := updateDirectionInfo_hasLastHit g g.lastHitPos.1 g.lastHitPos.2
      generalize g.updateDirectionInfo g.lastHitPos.1 g.lastHitPos.2 = g1 at k2 k5 ⊢
      simp only
      split
      · split
        · exact ⟨k5, fun p hp => k2 ▸ (List.mem_filter.mp hp).1⟩
        · exact ⟨k5, fun p hp => k2 ▸ (List.mem_filter.mp hp).1⟩
      · split
        · exact ⟨k5, fun p hp => k2 ▸ List.mem_of_mem_eraseIdx hp⟩
        · exact ⟨k5, fun p hp => k2 ▸ List.mem_of_mem_eraseIdx hp⟩
    · exact hrand

theorem queueInv_computerLoop (fuel : Nat) (g : Game) (rng : Nat → Nat) (pos : Nat)
    (r : Game × Nat) (h : QueueInv g) (hr : Game.computerLoop fuel g rng pos = some r) :
    QueueInv r.1 := by
  induction fuel generalizing g pos with
  | zero => simp [Game.computerLoop] at hr
  | succ n ih =>
    obtain ⟨h1, h2⟩ := computerRound_memory g rng pos
    have hq : QueueInv (g.computerRound rng pos).1 := by
      intro hne
      rw [h1]
      apply h
      intro hnil
      obtain ⟨p, hp⟩ := List.exists_mem_of_ne_nil _ hne
      have := h2 p hp
      rw [hnil] at this
      cases this
    unfold Game.computerLoop at hr
    simp only at hr
    split at hr
    · cases hr
      exact hq
    · exact ih _ _ hq hr

theorem queueInv_step (fuel : Nat) (g : Game) (input : Input) (rng : Nat → Nat) (pos : Nat)
    (r : Game × Nat) (h : QueueInv g) (hr : Game.step fuel g input rng pos = some r) :
    QueueInv r.1 := by
  have hstart : ∀ g0 : Game, Game.start fuel g0 rng pos = some r → QueueInv r.1 := by
    intro g0 h0 hne
    exact absurd (start_spec fuel g0 rng pos r h0).1 hne
  unfold Game.step at hr
  cases input with
  | event e =>
    simp only at hr
    unfold Game.handleEvent at hr
    cases e with
    | mouseLeft mx my =>
      simp only at hr
      split at hr
      · unfold Game.difficultyClick at hr
        split at hr
        · split at hr
          · exact hstart _ hr
          · split at hr
            · exact hstart _ hr
            · split at hr
              · exact hstart _ hr
              · cases hr; exact h
        · cases hr; exact h
      · split at hr
        · cases hr
          unfold Game.placementClick QueueInv
          simp only
          split_ifs <;> exact h
        · split at hr
          · cases hr
            unfold Game.attackClick QueueInv
            simp only
            split_ifs <;> exact h
          · cases hr; exact h
    | keyR =>
      simp only at hr
      split at hr
      · cases hr; exact h
      · split at hr
        · cases hr; exact h
        · cases hr; exact h
    | mouseOther => cases hr; exact h
    | keyOther => cases hr; exact h
    | other => cases hr; exact h
  | tick finished elapsedMs =>
    simp only at hr
    unfold Game.update at hr
    split at hr
    · cases hr
      exact queueInv_updateAnimation g finished h
    · split at hr
      · unfold Game.computerTurn at hr
        split at hr
        · cases hr; exact h
        · exact queueInv_computerLoop fuel g rng pos r h hr
      · cases hr; exact h

/-- In every state that a run of the game reaches, a queue that is not empty comes
with `hasLastHit`. -/
theorem queueInv_of_reachable (g : Game) (h : GameReachable g) : QueueInv g := by
  obtain ⟨rng, pos, hrun⟩ := h
  induction hrun with
  | new => intro hne; exact absurd rfl hne
  | step g pos fuel input r _ hstep ih => exact queueInv_step fuel g input rng pos r ih hstep

/-- A state that `Game.run` returns from the constructor's state is reachable. -/
theorem reachable_of_run (fuel : Nat) (rng : Nat → Nat) (inputs : List Input) (r : Game × Nat)
    (h : Game.run fuel rng inputs (Game.new, 0) = some r) : GameReachable r.1 := by
  have key : ∀ (inputs : List Input) (s r : Game × Nat), RunsTo rng s.1 s.2 →
      Game.run fuel rng inputs s = some r → RunsTo rng r.1 r.2 := by
    intro inputs
    induction inputs with
    | nil =>
      intro s r hs hr
      simp only [Game.run, Option.some.injEq] at hr
      rw [← hr]; exact hs
    | cons input rest ih =>
      intro s r hs hr
      unfold Game.run at hr
      cases hstep : Game.step fuel s.1 input rng s.2 with
      | none => rw [hstep] at hr; cases hr
      | some s1 =>
        rw [hstep] at hr
        exact ih s1 r (RunsTo.step s.1 s.2 fuel input s1 hs hstep) hr
  exact ⟨rng, r.2, key inputs (Game.new, 0) r RunsTo.new h⟩

/-! ## The Medium round -/

theorem kept_eq_isUnresolved (c : CellState) :
    (!(decide (c ≠ CellState.Empty) && decide (c ≠ CellState.Ship))) = isUnresolved c := by
  cases c <;> rfl

theorem find_first_unresolved (grid : List (List CellState)) (pre post : List (Int × Int))
    (t : Int × Int) (hpre : ∀ p ∈ pre, isUnresolved (getCell grid p.1 p.2) = false)
    (ht : isUnresolved (getCell grid t.1 t.2) = true) :
    (pre ++ t :: post).find? (fun p => isUnresolved (getCell grid p.1 p.2)) = some t := by
  induction pre with
  | nil => simp [List.find?_cons, ht]
  | cons a pre ih =>
    have ha := hpre a (List.mem_cons_self _ _)
    simp only [List.cons_append, List.find?_cons, ha]
    exact ih (fun p hp => hpre p (List.mem_cons_of_mem _ hp))

/-- The Medium round with a recorded last hit and a queue whose first unresolved
candidate is `t`: the round attacks `t`, draws nothing and prunes the resolved
candidates. -/
theorem mediumRound_first (g : Game) (rng : Nat → Nat) (pos : Nat) (pre post : List (Int × Int))
    (t : Int × Int) (hlast : g.hasLastHit = true) (hq : g.possibleTargets = pre ++ t :: post)
    (hpre : ∀ p ∈ pre, isUnresolved (getCell g.playerGrid.grid p.1 p.2) = false)
    (ht : isUnresolved (getCell g.playerGrid.grid t.1 t.2) = true) :
    g.mediumRound rng pos =
      ({ g.startAnimation t.1 t.2 false with
          possibleTargets := g.possibleTargets.filter
            (fun p => isUnresolved (getCell g.playerGrid.grid p.1 p.2)) }, pos, true) := by
  have hfind := find_first_unresolved g.playerGrid.grid pre post t hpre ht
  rw [← hq] at hfind
  have hcond : (g.hasLastHit && !g.possibleTargets.isEmpty) = true := by
    rw [hlast, hq]
    cases pre <;> rfl
  unfold Game.mediumRound
  rw [if_pos hcond, hfind]
  simp only [Option.isSome_some, kept_eq_isUnresolved]
  rfl

/-- The Medium loop on an empty queue: every round is a random attack, so a result
attacks a drawn coordinate and the queue is still empty. -/
theorem mediumLoop_random (fuel : Nat) (g : Game) (rng : Nat → Nat) (pos : Nat) (r : Game × Nat)
    (hmed : g.difficulty = Difficulty.Medium) (hq : g.possibleTargets = [])
    (hr : Game.computerLoop fuel g rng pos = some r) :
    r.1.possibleTargets = [] ∧
    ∃ k, r.1.animationTarget
      = (((draw rng k GRID_SIZE.toNat : Nat) : Int), ((draw rng (k + 1) GRID_SIZE.toNat : Nat) : Int)) := by
  induction fuel generalizing g pos with
  | zero => simp [Game.computerLoop] at hr
  | succ n ih =>
    have hround : g.computerRound rng pos = g.randomAttack rng pos := by
      unfold Game.computerRound
      rw [hmed]
      simp only
      unfold Game.mediumRound
      rw [hq]
      simp
    unfold Game.computerLoop at hr
    simp only [hround] at hr
    unfold Game.randomAttack at hr
    simp only at hr
    by_cases hu : isUnresolved (getCell g.playerGrid.grid
        ((draw rng pos GRID_SIZE.toNat : Nat) : Int)
        ((draw rng (pos + 1) GRID_SIZE.toNat : Nat) : Int)) = true
    · simp only [hu, if_true, Option.some.injEq] at hr
      rw [← hr]
      exact ⟨hq, pos, rfl⟩
    · simp only [hu, Bool.false_eq_true, if_false] at hr
      exact ih g (pos + 2) hmed hq hr

/-- C13 (Medium targeting order). In every state the game reaches, on Medium, once the
800 ms have passed: if the queue is `pre ++ t :: post` with every candidate of `pre`
resolved and `t` unresolved (cell `Empty` or `Ship`), then `computerTurn` attacks
`t`, whatever the random stream (no draw is consumed), and afterwards the queue is
the old queue filtered to its unresolved candidates, in their order. If the queue
is empty or holds resolved candidates only, every target `computerTurn` selects is
a pair of draws from the random stream, and the queue is empty afterwards. -/
theorem medium_targeting (g : Game) (hreach : GameReachable g)
    (hmed : g.difficulty = Difficulty.Medium) (elapsedMs : Nat) (hel : 800 ≤ elapsedMs)
    (rng : Nat → Nat) (pos : Nat) :
    (∀ pre t post, g.possibleTargets = pre ++ t :: post →
      (∀ p ∈ pre, isUnresolved (getCell g.playerGrid.grid p.1 p.2) = false) →
      isUnresolved (getCell g.playerGrid.grid t.1 t.2) = true →
      ∀ fuel, ∃ g1, Game.computerTurn (fuel + 1) g elapsedMs rng pos = some (g1, pos) ∧
        g1.state = GameState.Animation ∧ g1.isPlayerAnimation = false ∧
        g1.animationTarget = t ∧ g1.playerGrid = g.playerGrid ∧
        g1.possibleTargets = g.possibleTargets.filter
          (fun p => isUnresolved (getCell g.playerGrid.grid p.1 p.2))) ∧
    ((∀ p ∈ g.possibleTargets, isUnresolved (getCell g.playerGrid.grid p.1 p.2) = false) →
      ∀ fuel r, Game.computerTurn fuel g elapsedMs rng pos = some r →
        r.1.possibleTargets = [] ∧
        ∃ k, r.1.animationTarget = (((draw rng k GRID_SIZE.toNat : Nat) : Int),
          ((draw rng (k + 1) GRID_SIZE.toNat : Nat) : Int))) := by
  have hinv := queueInv_of_reachable g hreach
  have hturn : ∀ fuel, Game.computerTurn fuel g elapsedMs rng pos
      = Game.computerLoop fuel g rng pos := by
    intro fuel
    unfold Game.computerTurn
    rw [if_neg (by omega)]
  have hround : g.computerRound rng pos = g.mediumRound rng pos := by
    unfold Game.computerRound
    rw [hmed]
  constructor
  · intro pre t post hq hpre ht fuel
    have hlast : g.hasLastHit = true := hinv (by rw [hq]; simp)
    refine ⟨{ g.startAnimation t.1 t.2 false with
      possibleTargets := g.possibleTargets.filter
        (fun p => isUnresolved (getCell g.playerGrid.grid p.1 p.2)) }, ?_, rfl, rfl, rfl, rfl,
      rfl⟩
    rw [hturn]
    unfold Game.computerLoop
    simp only [hround, mediumRound_first g rng pos pre post t hlast hq hpre ht, if_true]
  · intro hall fuel r hr
    rw [hturn] at hr
    by_cases hq : g.possibleTargets = []
    · exact mediumLoop_random fuel g rng pos r hmed hq hr
    · have hlast : g.hasLastHit = true := hinv hq
      cases fuel with
      | zero => simp [Game.computerLoop] at hr
      | succ n =>
        have hfind : g.possibleTargets.find?
            (fun p => isUnresolved (getCell g.playerGrid.grid p.1 p.2)) = none := by
          rw [List.find?_eq_none]
          intro p hp
          rw [hall p hp]
          simp
        have hfilter : g.possibleTargets.filter
            (fun p => isUnresolved (getCell g.playerGrid.grid p.1 p.2)) = [] := by
          rw [List.filter_eq_nil_iff]
          intro p hp
          rw [hall p hp]
          simp
        have hcond : (g.hasLastHit && !g.possibleTargets.isEmpty) = true := by
          rw [hlast]
          cases hl : g.possibleTargets with
          | nil => exact absurd hl hq
          | cons a l => rfl
        have hmr : g.mediumRound rng pos = ({ g with possibleTargets := [] }, pos, false) := by
          unfold Game.mediumRound
          rw [if_pos hcond, hfind]
          simp only [Option.isSome_none, kept_eq_isUnresolved, hfilter]
        unfold Game.computerLoop at hr
        simp only [hround, hmr, Bool.false_eq_true, if_false] at hr
        exact mediumLoop_random n { g with possibleTargets := [] } rng pos r hmed rfl hr

set_option maxRecDepth 100000 in
/-- C13 at the end of the sample Medium run: the queue is (1,0), (0,1), both
unresolved, and `computerTurn` attacks (1,0) whatever the draws. -/
theorem medium_targeting_witness :
    sampleMediumGame.possibleTargets = [(1, 0), (0, 1)] ∧
    ∃ g1, Game.computerTurn 1 sampleMediumGame 800 (fun _ => 7) 0 = some (g1, 0) ∧
      g1.animationTarget = (1, 0) :=
  ⟨by decide,
    ((medium_targeting sampleMediumGame
      (reachable_of_run 1 sampleRng sampleInputs (sampleMediumGame, 32) (by decide))
      (by decide) 800 (by decide) (fun _ => 7) 0).1 [] (1, 0) [(0, 1)] (by decide)
      (by decide) (by decide) 0).imp (fun _ h => ⟨h.1, h.2.2.2.1⟩)⟩

/-! ## The turn controller -/

/-- C14 (AI memory reset). When the computer's attack resolves to `Destroyed`, on any
difficulty, `updateAnimation` leaves the candidate queue empty, `hasLastHit` false
and both orientation flags true, so no neighbour of the destroying hit stays
queued; and whenever `start` returns, the same holds of the state it returns. -/
theorem memory_reset (g : Game) :
    (g.isPlayerAnimation = false →
      (g.playerGrid.attack g.animationTarget.1 g.animationTarget.2).1 = CellState.Destroyed →
      (g.updateAnimation true).possibleTargets = [] ∧
      (g.updateAnimation true).hasLastHit = false ∧
      (g.updateAnimation true).isHorizontalPossible = true ∧
      (g.updateAnimation true).isVerticalPossible = true) ∧
    (∀ fuel rng pos r, Game.start fuel g rng pos = some r →
      r.1.possibleTargets = [] ∧ r.1.hasLastHit = false ∧
      r.1.isHorizontalPossible = true ∧ r.1.isVerticalPossible = true) := by
  constructor
  · intro hcomp hres
    unfold Game.updateAnimation Game.updateShipsCount Game.resolveComputerAttack
    simp only [hcomp, hres, if_true, Bool.false_eq_true, if_false, or_true]
    split_ifs <;> exact ⟨rfl, rfl, rfl, rfl⟩
  · intro fuel rng pos r h
    obtain ⟨h1, h2, h3, h4, _⟩ := start_spec fuel g rng pos r h
    exact ⟨h1, h2, h3, h4⟩

set_option maxRecDepth 100000 in
/-- C14 at concrete states: on the sample Hard game with two hits, the attack on (7,5)
destroys the size-3 ship and the memory is reset although the queue held five
candidates; and `start` from the constructor's state returns with the sample
stream of draws. -/
theorem memory_reset_witness :
    ({ sampleTwoHits with animationTarget := (7, 5), state := GameState.Animation } :
      Game).possibleTargets.length = 6 ∧
    (({ sampleTwoHits with animationTarget := (7, 5), state := GameState.Animation } :
      Game).updateAnimation true).possibleTargets = [] ∧
    (({ sampleTwoHits with animationTarget := (7, 5), state := GameState.Animation } :
      Game).updateAnimation true).hasLastHit = false ∧
    (Game.start 1 Game.new sampleRng 0).isSome = true :=
  have h := (memory_reset
    ({ sampleTwoHits with animationTarget := (7, 5), state := GameState.Animation } : Game)).1
    (by decide) (by decide)
  ⟨by decide, h.1, h.2.1, by decide⟩

theorem addTargets_fold_computerGrid (ds : List (Int × Int)) (g : Game) (x y : Int) :
    (ds.foldl
      (fun acc dir =>
        let nx := x + dir.1
        let ny := y + dir.2
        if inGrid nx ny then
          if isUnresolved (getCell acc.playerGrid.grid nx ny) then
            { acc with possibleTargets := acc.possibleTargets ++ [(nx, ny)] }
          else acc
        else acc)
      g).computerGrid = g.computerGrid := by
  induction ds generalizing g with
  | nil => rfl
  | cons d ds ih =>
    rw [List.foldl_cons]
    simp only
    split
    · split
      · rw [ih]
      · rw [ih]
    · rw [ih]

theorem addPossibleTargets_computerGrid (g : Game) (x y : Int) :
    (g.addPossibleTargets x y).computerGrid = g.computerGrid :=
  addTargets_fold_computerGrid directions g x y

theorem updateDirectionInfo_computerGrid (g : Game) (x y : Int) :
    (g.updateDirectionInfo x y).computerGrid = g.computerGrid := by
  unfold Game.updateDirectionInfo
  simp only
  split
  · rfl
  · split <;> rfl

theorem addPossibleTargets_playerGrid (g : Game) (x y : Int) :
    (g.addPossibleTargets x y).playerGrid = g.playerGrid :=
  (addPossibleTargets_spec g x y).1

theorem updateDirectionInfo_playerGrid (g : Game) (x y : Int) :
    (g.updateDirectionInfo x y).playerGrid = g.playerGrid :=
  (updateDirectionInfo_keeps g x y).1

/-- The update of the AI memory after a hit keeps both boards. -/
theorem hitMemory_boards (g : Game) (x y : Int) :
    (match g.difficulty with
      | Difficulty.Hard => (g.updateDirectionInfo x y).addPossibleTargets x y
      | Difficulty.Medium => g.addPossibleTargets x y
      | Difficulty.Easy => g).playerGrid = g.playerGrid ∧
    (match g.difficulty with
      | Difficulty.Hard => (g.updateDirectionInfo x y).addPossibleTargets x y
      | Difficulty.Medium => g.addPossibleTargets x y
      | Difficulty.Easy => g).computerGrid = g.computerGrid := by
  cases g.difficulty
  · exact ⟨rfl, rfl⟩
  · exact ⟨addPossibleTargets_playerGrid g x y, addPossibleTargets_computerGrid g x y⟩
  · exact ⟨(addPossibleTargets_playerGrid _ x y).trans (updateDirectionInfo_playerGrid g x y),
      (addPossibleTargets_computerGrid _ x y).trans (updateDirectionInfo_computerGrid g x y)⟩

/-- The last step of both branches of `updateAnimation`: the phase is chosen from the
fleet and the result of the attack, the boards are kept. -/
theorem choosePhase_spec (g3 : Game) (b : BattleGrid) (c : Prop) [Decidable c]
    (won other miss : GameState) (h1 : g3.playerGrid = b) :
    (if g3.playerGrid.allShipsDestroyed then { g3 with state := won }
      else if c then { g3 with state := miss }
      else { g3 with state := other }).playerGrid = b ∧
    (if g3.playerGrid.allShipsDestroyed then { g3 with state := won }
      else if c then { g3 with state := miss }
      else { g3 with state := other }).computerGrid = g3.computerGrid ∧
    (if g3.playerGrid.allShipsDestroyed then { g3 with state := won }
      else if c then { g3 with state := miss }
      else { g3 with state := other }).state =
      if b.allShipsDestroyed then won else if c then miss else other := by
  subst h1
  split_ifs <;> exact ⟨rfl, rfl, rfl⟩

/-- The end of the computer branch of `updateAnimation`, from the state `g2` that
holds the updated AI memory: the memory is cleared on `Destroyed` and the phase is
chosen; the boards are those of `g2`. -/
theorem resolveTail_spec (g2 : Game) (result : CellState) (b : BattleGrid)
    (hb : g2.playerGrid = b) :
    (if (if result = CellState.Destroyed then g2.clearPossibleTargets
          else g2).playerGrid.allShipsDestroyed then
        { (if result = CellState.Destroyed then g2.clearPossibleTargets else g2) with
          state := GameState.ComputerWins }
      else if result = CellState.Miss then
        { (if result = CellState.Destroyed then g2.clearPossibleTargets else g2) with
          state := GameState.PlayerTurn }
      else
        { (if result = CellState.Destroyed then g2.clearPossibleTargets else g2) with
          state := GameState.ComputerTurn }).playerGrid = b ∧
    (if (if result = CellState.Destroyed then g2.clearPossibleTargets
          else g2).playerGrid.allShipsDestroyed then
        { (if result = CellState.Destroyed then g2.clearPossibleTargets else g2) with
          state := GameState.ComputerWins }
      else if result = CellState.Miss then
        { (if result = CellState.Destroyed then g2.clearPossibleTargets else g2) with
          state := GameState.PlayerTurn }
      else
        { (if result = CellState.Destroyed then g2.clearPossibleTargets else g2) with
          state := GameState.ComputerTurn }).computerGrid = g2.computerGrid ∧
    (if (if result = CellState.Destroyed then g2.clearPossibleTargets
          else g2).playerGrid.allShipsDestroyed then
        { (if result = CellState.Destroyed then g2.clearPossibleTargets else g2) with
          state := GameState.ComputerWins }
      else if result = CellState.Miss then
        { (if result = CellState.Destroyed then g2.clearPossibleTargets else g2) with
          state := GameState.PlayerTurn }
      else
        { (if result = CellState.Destroyed then g2.clearPossibleTargets else g2) with
          state := GameState.ComputerTurn }).state =
      if b.allShipsDestroyed then GameState.ComputerWins
      else if result = CellState.Miss then GameState.PlayerTurn
      else GameState.ComputerTurn := by
  subst hb
  by_cases hD : result = CellState.Destroyed
  · simp only [hD, if_true, Game.clearPossibleTargets]
    split_ifs <;> exact ⟨rfl, rfl, rfl⟩
  · simp only [hD, if_false]
    split_ifs <;> exact ⟨rfl, rfl, rfl⟩

/-- The computer branch of `updateAnimation`: the boards and the phase it leaves. -/
theorem resolveComputerAttack_spec (g : Game) :
    g.resolveComputerAttack.playerGrid
      = (g.playerGrid.attack g.animationTarget.1 g.animationTarget.2).2 ∧
    g.resolveComputerAttack.computerGrid = g.computerGrid ∧
    g.resolveComputerAttack.state =
      if (g.playerGrid.attack g.animationTarget.1 g.animationTarget.2).2.allShipsDestroyed
      then GameState.ComputerWins
      else if (g.playerGrid.attack g.animationTarget.1 g.animationTarget.2).1 = CellState.Miss
      then GameState.PlayerTurn
      else GameState.ComputerTurn := by
  unfold Game.resolveComputerAttack
  simp only
  generalize (g.playerGrid.attack g.animationTarget.1 g.animationTarget.2) = r
  have hboards := hitMemory_boards
    { g with playerGrid := r.2, lastHitPos := g.animationTarget, hasLastHit := true }
    g.animationTarget.1 g.animationTarget.2
  have h := resolveTail_spec
    (if r.1 = CellState.Hit ∨ r.1 = CellState.Destroyed then
      match g.difficulty with
      | Difficulty.Hard =>
        (Game.updateDirectionInfo
          { g with playerGrid := r.2, lastHitPos := g.animationTarget, hasLastHit := true }
          g.animationTarget.1 g.animationTarget.2).addPossibleTargets
          g.animationTarget.1 g.animationTarget.2
      | Difficulty.Medium =>
        Game.addPossibleTargets
          { g with playerGrid := r.2, lastHitPos := g.animationTarget, hasLastHit := true }
          g.animationTarget.1 g.animationTarget.2
      | Difficulty.Easy =>
        { g with playerGrid := r.2, lastHitPos := g.animationTarget, hasLastHit := true }
    else { g with playerGrid := r.2 }) r.1 r.2
    (by split_ifs
        · exact hboards.1
        · rfl)
  refine ⟨h.1, h.2.1.trans ?_, h.2.2⟩
  split_ifs
  · exact hboards.2
  · rfl

/-- `allShipsDestroyed` says that every `hits` entry of every recorded ship is
`true`. -/
theorem allShipsDestroyed_iff (b : BattleGrid) :
    b.allShipsDestroyed = true ↔ fleetDestroyed b := by
  unfold BattleGrid.allShipsDestroyed fleetDestroyed Ship.isDestroyed
  simp only [List.all_eq_true]

/-- C15 (turn transitions when an attack is resolved). When the animation has
finished, `updateAnimation` applies the attack to the attacked board and sets the
phase. After the player's attack: `PlayerWins` if the computer's fleet is now fully
destroyed (every `hits` entry of every ship on the computer's board after the attack
is true); otherwise `ComputerTurn` if the attack returned `Miss`, and `PlayerTurn`
if it returned anything else. After the computer's attack: `ComputerWins` if the
player's fleet is now fully destroyed; otherwise `PlayerTurn` if the attack returned
`Miss`, and `ComputerTurn` if it returned anything else. In either case the phase is
not `Animation` afterwards. -/
theorem turn_transitions (g : Game) :
    (g.isPlayerAnimation = true →
      (g.updateAnimation true).computerGrid
        = (g.computerGrid.attack g.animationTarget.1 g.animationTarget.2).2 ∧
      (g.updateAnimation true).playerGrid = g.playerGrid ∧
      (fleetDestroyed (g.computerGrid.attack g.animationTarget.1 g.animationTarget.2).2 →
        (g.updateAnimation true).state = GameState.PlayerWins) ∧
      (¬ fleetDestroyed (g.computerGrid.attack g.animationTarget.1 g.animationTarget.2).2 →
        (g.computerGrid.attack g.animationTarget.1 g.animationTarget.2).1 = CellState.Miss →
        (g.updateAnimation true).state = GameState.ComputerTurn) ∧
      (¬ fleetDestroyed (g.computerGrid.attack g.animationTarget.1 g.animationTarget.2).2 →
        (g.computerGrid.attack g.animationTarget.1 g.animationTarget.2).1 ≠ CellState.Miss →
        (g.updateAnimation true).state = GameState.PlayerTurn)) ∧
    (g.isPlayerAnimation = false →
      (g.updateAnimation true).playerGrid
        = (g.playerGrid.attack g.animationTarget.1 g.animationTarget.2).2 ∧
      (g.updateAnimation true).computerGrid = g.computerGrid ∧
      (fleetDestroyed (g.playerGrid.attack g.animationTarget.1 g.animationTarget.2).2 →
        (g.updateAnimation true).state = GameState.ComputerWins) ∧
      (¬ fleetDestroyed (g.playerGrid.attack g.animationTarget.1 g.animationTarget.2).2 →
        (g.playerGrid.attack g.animationTarget.1 g.animationTarget.2).1 = CellState.Miss →
        (g.updateAnimation true).state = GameState.PlayerTurn) ∧
      (¬ fleetDestroyed (g.playerGrid.attack g.animationTarget.1 g.animationTarget.2).2 →
        (g.playerGrid.attack g.animationTarget.1 g.animationTarget.2).1 ≠ CellState.Miss →
        (g.updateAnimation true).state = GameState.ComputerTurn)) ∧
    (g.updateAnimation true).state ≠ GameState.Animation := by
  have hplayer : g.isPlayerAnimation = true →
      (g.updateAnimation true).computerGrid
        = (g.computerGrid.attack g.animationTarget.1 g.animationTarget.2).2 ∧
      (g.updateAnimation true).playerGrid = g.playerGrid ∧
      (g.updateAnimation true).state =
        if (g.computerGrid.attack g.animationTarget.1 g.animationTarget.2).2.allShipsDestroyed
        then GameState.PlayerWins
        else if (g.computerGrid.attack g.animationTarget.1 g.animationTarget.2).1 = CellState.Miss
        then GameState.ComputerTurn
        else GameState.PlayerTurn := by
    intro hp
    unfold Game.updateAnimation Game.updateShipsCount Game.resolvePlayerAttack
    simp only [hp, if_true]
    split_ifs <;> first | exact ⟨rfl, rfl, rfl⟩ | (exfalso; simp_all)
  have hcomputer : g.isPlayerAnimation = false →
      (g.updateAnimation true).playerGrid
        = (g.playerGrid.attack g.animationTarget.1 g.animationTarget.2).2 ∧
      (g.updateAnimation true).computerGrid = g.computerGrid ∧
      (g.updateAnimation true).state =
        if (g.playerGrid.attack g.animationTarget.1 g.animationTarget.2).2.allShipsDestroyed
        then GameState.ComputerWins
        else if (g.playerGrid.attack g.animationTarget.1 g.animationTarget.2).1 = CellState.Miss
        then GameState.PlayerTurn
        else GameState.ComputerTurn := by
    intro hp
    obtain ⟨h1, h2, h3⟩ := resolveComputerAttack_spec g
    unfold Game.updateAnimation Game.updateShipsCount
    simp only [hp, if_true, Bool.false_eq_true, if_false]
    refine ⟨h1, h2, ?_⟩
    rw [h3]
    split_ifs <;> first | rfl | contradiction
  refine ⟨?_, ?_, ?_⟩
  · intro hp
    obtain ⟨h1, h2, h3⟩ := hplayer hp
    refine ⟨h1, h2, ?_, ?_, ?_⟩
    · intro hd
      rw [h3, if_pos ((allShipsDestroyed_iff _).mpr hd)]
    · intro hd hm
      rw [h3, if_neg (fun h => hd ((allShipsDestroyed_iff _).mp h)), if_pos hm]
    · intro hd hm
      rw [h3, if_neg (fun h => hd ((allShipsDestroyed_iff _).mp h)), if_neg hm]
  · intro hp
    obtain ⟨h1, h2, h3⟩ := hcomputer hp
    refine ⟨h1, h2, ?_, ?_, ?_⟩
    · intro hd
      rw [h3, if_pos ((allShipsDestroyed_iff _).mpr hd)]
    · intro hd hm
      rw [h3, if_neg (fun h => hd ((allShipsDestroyed_iff _).mp h)), if_pos hm]
    · intro hd hm
      rw [h3, if_neg (fun h => hd ((allShipsDestroyed_iff _).mp h)), if_neg hm]
  · cases hp : g.isPlayerAnimation
    · rw [(hcomputer hp).2.2]
      split_ifs <;> simp
    · rw [(hplayer hp).2.2]
      split_ifs <;> simp

set_option maxRecDepth 100000 in
/-- C15 at concrete states, one for each outcome. The player destroys the only ship of
the computer's board: `PlayerWins`. In the sample run the player's attack on the
empty cell (9,9) is a `Miss`: `ComputerTurn`. The player hits a size-2 ship once:
`PlayerTurn`. In the sample game after two hits the computer's attack on (7,5)
destroys the player's only ship: `ComputerWins`. The computer's attack on (5,5) of
the sample game is a `Hit`: `ComputerTurn`; its attack on the empty cell (0,0) is a
`Miss`: `PlayerTurn`. -/
theorem turn_transitions_witness :
    (({ Game.new with
        computerGrid := (BattleGrid.new.placeShip 0 0 1 true).2
        state := GameState.Animation
        isPlayerAnimation := true } : Game).updateAnimation true).state
      = GameState.PlayerWins ∧
    (((Game.run 1 sampleRng (samplePlacement ++ [Input.event (Event.mouseLeft 865 415)])
      (Game.new, 0)).getD (Game.new, 0)).1.updateAnimation true).state
      = GameState.ComputerTurn ∧
    (({ Game.new with
        computerGrid := (BattleGrid.new.placeShip 0 0 2 true).2
        state := GameState.Animation
        isPlayerAnimation := true } : Game).updateAnimation true).state
      = GameState.PlayerTurn ∧
    (({ sampleTwoHits with animationTarget := (7, 5), state := GameState.Animation } :
      Game).updateAnimation true).state = GameState.ComputerWins ∧
    ((sampleGame Difficulty.Medium).updateAnimation true).state = GameState.ComputerTurn ∧
    (({ sampleGame Difficulty.Medium with animationTarget := (0, 0) } :
      Game).updateAnimation true).state = GameState.PlayerTurn :=
  ⟨((turn_transitions _).1 (by decide)).2.2.1 (by unfold fleetDestroyed; decide),
    ((turn_transitions _).1 (by decide)).2.2.2.1
      (by unfold fleetDestroyed; decide) (by decide),
    ((turn_transitions _).1 (by decide)).2.2.2.2
      (by unfold fleetDestroyed; decide) (by decide),
    ((turn_transitions _).2.1 (by decide)).2.2.1 (by unfold fleetDestroyed; decide),
    ((turn_transitions _).2.1 (by decide)).2.2.2.2
      (by unfold fleetDestroyed; decide) (by decide),
    ((turn_transitions _).2.1 (by decide)).2.2.2.1
      (by unfold fleetDestroyed; decide) (by decide)⟩

/-- C16 (win states are terminal). While the phase is `PlayerWins` or `ComputerWins`,
every event other than the key R leaves the whole game state (both boards, the AI
memory, the phase) as it is and draws nothing, and so does every `update` tick; the
key R changes the phase to `DifficultySelection` and nothing else. -/
theorem win_states_terminal (g : Game)
    (hwin : g.state = GameState.PlayerWins ∨ g.state = GameState.ComputerWins)
    (fuel : Nat) (rng : Nat → Nat) (pos : Nat) :
    (∀ event, event ≠ Event.keyR → g.handleEvent fuel event rng pos = some (g, pos)) ∧
    g.handleEvent fuel Event.keyR rng pos
      = some ({ g with state := GameState.DifficultySelection }, pos) ∧
    (∀ finished elapsedMs, g.update fuel finished elapsedMs rng pos = some (g, pos)) := by
  have h1 : g.state ≠ GameState.DifficultySelection := by
    rcases hwin with h | h <;> rw [h] <;> simp
  have h2 : g.state ≠ GameState.ShipPlacement := by
    rcases hwin with h | h <;> rw [h] <;> simp
  have h3 : g.state ≠ GameState.PlayerTurn := by
    rcases hwin with h | h <;> rw [h] <;> simp
  have h4 : g.state ≠ GameState.Animation := by
    rcases hwin with h | h <;> rw [h] <;> simp
  have h5 : g.state ≠ GameState.ComputerTurn := by
    rcases hwin with h | h <;> rw [h] <;> simp
  refine ⟨?_, ?_, ?_⟩
  · intro event hne
    unfold Game.handleEvent
    cases event with
    | mouseLeft mx my => simp only [if_neg h1, if_neg h2, if_neg h3]
    | keyR => exact absurd rfl hne
    | mouseOther => rfl
    | keyOther => rfl
    | other => rfl
  · unfold Game.handleEvent
    simp only [if_neg h2, if_pos hwin]
  · intro finished elapsedMs
    unfold Game.update
    rw [if_neg h4, if_neg h5]

set_option maxRecDepth 100000 in
/-- C16 at a concrete state: the sample game put into the phase `ComputerWins`; a click
on the computer's grid changes nothing. -/
theorem win_states_terminal_witness :
    Game.handleEvent 1 { sampleGame Difficulty.Easy with state := GameState.ComputerWins }
      (Event.mouseLeft 865 415) sampleRng 0
      = some ({ sampleGame Difficulty.Easy with state := GameState.ComputerWins }, 0) :=
  (win_states_terminal { sampleGame Difficulty.Easy with state := GameState.ComputerWins }
    (Or.inr rfl) 1 sampleRng 0).1 (Event.mouseLeft 865 415) (by decide)

/-! ## The placement phase -/

theorem placeShip_false (b : BattleGrid) (x y size : Int) (horizontal : Bool)
    (h : (b.placeShip x y size horizontal).1 = false) :
    (b.placeShip x y size horizontal).2 = b := by
  unfold BattleGrid.placeShip at h ⊢
  cases hc : b.canPlaceShip x y size horizontal
  · simp
  · simp [hc] at h

theorem placeShip_true (b : BattleGrid) (x y size : Int) (horizontal : Bool)
    (h : (b.placeShip x y size horizontal).1 = true) :
    (b.placeShip x y size horizontal).2.ships = b.ships ++ [Ship.new size horizontal x y] := by
  unfold BattleGrid.placeShip at h ⊢
  cases hc : b.canPlaceShip x y size horizontal
  · simp [hc] at h
  · simp

/-- The cell that a click inside the player's grid area falls in is in the grid. -/
theorem clickedCell_inGrid (mouseX mouseY : Int) (h : inPlayerArea mouseX mouseY) :
    inGrid ((mouseX - GRID_OFFSET_X).tdiv CELL_SIZE) ((mouseY - GRID_OFFSET_Y).tdiv CELL_SIZE)
      = true := by
  unfold inPlayerArea GRID_OFFSET_X GRID_OFFSET_Y MARGIN GRID_SIZE CELL_SIZE at h
  unfold GRID_OFFSET_X GRID_OFFSET_Y MARGIN CELL_SIZE
  rw [inGrid_iff, Int.tdiv_eq_ediv (by omega) (by omega),
    Int.tdiv_eq_ediv (by omega) (by omega)]
  omega

theorem fleet_facts (k : Nat) (hk : k < 10) :
    (fleetSizes.drop k).tail = fleetSizes.drop (k + 1) ∧
    ((fleetSizes.drop (k + 1)).isEmpty = true ↔ k + 1 = 10) ∧
    (fleetSizes.drop (k + 1)).getD 0 0 = fleetSizes.getD (k + 1) 0 ∧
    fleetSizes.take k ++ [fleetSizes.getD k 0] = fleetSizes.take (k + 1) ∧
    fleetSizes.take 10 = fleetSizes ∧ fleetSizes.length = 10 := by
  interval_cases k <;> decide

/-- The placement click inside the player's grid area, in the state after `k`
successful placements. -/
theorem placementClick_spec (k : Nat) (g : Game) (hk : k < 10) (hp : PlacementAt k g)
    (mouseX mouseY : Int) (harea : inPlayerArea mouseX mouseY) :
    ((g.playerGrid.placeShip ((mouseX - GRID_OFFSET_X).tdiv CELL_SIZE)
        ((mouseY - GRID_OFFSET_Y).tdiv CELL_SIZE) (fleetSizes.getD k 0)
        g.currentShipHorizontal).1 = false → g.placementClick mouseX mouseY = g) ∧
    ((g.playerGrid.placeShip ((mouseX - GRID_OFFSET_X).tdiv CELL_SIZE)
        ((mouseY - GRID_OFFSET_Y).tdiv CELL_SIZE) (fleetSizes.getD k 0)
        g.currentShipHorizontal).1 = true →
      (g.placementClick mouseX mouseY).playerGrid =
        (g.playerGrid.placeShip ((mouseX - GRID_OFFSET_X).tdiv CELL_SIZE)
          ((mouseY - GRID_OFFSET_Y).tdiv CELL_SIZE) (fleetSizes.getD k 0)
          g.currentShipHorizontal).2 ∧
      (g.placementClick mouseX mouseY).playerGrid.ships = g.playerGrid.ships ++
        [Ship.new (fleetSizes.getD k 0) g.currentShipHorizontal
          ((mouseX - GRID_OFFSET_X).tdiv CELL_SIZE) ((mouseY - GRID_OFFSET_Y).tdiv CELL_SIZE)] ∧
      (k + 1 < 10 → PlacementAt (k + 1) (g.placementClick mouseX mouseY)) ∧
      (k + 1 = 10 → (g.placementClick mouseX mouseY).state = GameState.PlayerTurn ∧
        (g.placementClick mouseX mouseY).playerGrid.ships.map Ship.size = fleetSizes ∧
        (g.placementClick mouseX mouseY).playerGrid.ships.length = 10)) := by
  obtain ⟨hstate, hsizes, hcur, hships⟩ := hp
  obtain ⟨f1, f2, f3, f4, f5, f6⟩ := fleet_facts k hk
  unfold inPlayerArea at harea
  rw [← hcur]
  have htail : g.shipSizes.tail = fleetSizes.drop (k + 1) := by rw [hsizes, f1]
  generalize hgx : (mouseX - GRID_OFFSET_X).tdiv CELL_SIZE = gx
  generalize hgy : (mouseY - GRID_OFFSET_Y).tdiv CELL_SIZE = gy
  constructor
  · intro hrej
    have hclick : g.placementClick mouseX mouseY =
        { g with playerGrid := (g.playerGrid.placeShip gx gy g.currentShipSize
            g.currentShipHorizontal).2 } := by
      unfold Game.placementClick
      rw [if_pos harea]
      simp only [hgx, hgy, hrej, Bool.false_eq_true, if_false]
    rw [hclick, placeShip_false _ _ _ _ _ hrej]
  · intro hacc
    have hnew := placeShip_true _ _ _ _ _ hacc
    have hmap : ((g.playerGrid.placeShip gx gy g.currentShipSize
        g.currentShipHorizontal).2.ships).map Ship.size = fleetSizes.take (k + 1) := by
      rw [hnew, List.map_append, hships, ← f4, hcur]
      rfl
    by_cases hlast : k + 1 = 10
    · have hempty : g.shipSizes.tail.isEmpty = true := by rw [htail]; exact f2.mpr hlast
      have hclick : g.placementClick mouseX mouseY =
          { g with
            playerGrid := (g.playerGrid.placeShip gx gy g.currentShipSize
              g.currentShipHorizontal).2
            shipSizes := g.shipSizes.tail
            state := GameState.PlayerTurn } := by
        unfold Game.placementClick
        rw [if_pos harea]
        simp only [hgx, hgy, hacc, hempty, if_true]
      rw [hclick]
      refine ⟨rfl, hnew, fun h => absurd hlast (by omega), fun _ => ⟨rfl, ?_, ?_⟩⟩
      · show ((g.playerGrid.placeShip gx gy g.currentShipSize
          g.currentShipHorizontal).2.ships).map Ship.size = fleetSizes
        rw [hmap, hlast, f5]
      · show ((g.playerGrid.placeShip gx gy g.currentShipSize
          g.currentShipHorizontal).2.ships).length = 10
        have := congrArg List.length hmap
        rw [List.length_map, hlast, f5, f6] at this
        exact this
    · have hempty : g.shipSizes.tail.isEmpty = false := by
        rw [htail]
        cases hv : (fleetSizes.drop (k + 1)).isEmpty
        · rfl
        · exact absurd (f2.mp hv) hlast
      have hclick : g.placementClick mouseX mouseY =
          { g with
            playerGrid := (g.playerGrid.placeShip gx gy g.currentShipSize
              g.currentShipHorizontal).2
            shipSizes := g.shipSizes.tail
            currentShipSize := g.shipSizes.tail.getD 0 0 } := by
        unfold Game.placementClick
        rw [if_pos harea]
        simp only [hgx, hgy, hacc, hempty, if_true, Bool.false_eq_true, if_false]
      rw [hclick]
      refine ⟨rfl, hnew, fun _ => ⟨hstate, htail, ?_, hmap⟩, fun h => absurd h hlast⟩
      show g.shipSizes.tail.getD 0 0 = fleetSizes.getD (k + 1) 0
      rw [htail, f3]

theorem clear_of_wf (b : BattleGrid) (hw : GridWF b.grid) : b.clear = BattleGrid.new := by
  obtain ⟨hl, hr⟩ := hw
  unfold BattleGrid.clear BattleGrid.new
  congr 1
  rw [List.eq_replicate_iff]
  refine ⟨by rw [List.length_map]; exact hl, ?_⟩
  intro row hrow
  obtain ⟨row0, hrow0, rfl⟩ := List.mem_map.mp hrow
  rw [List.eq_replicate_iff]
  refine ⟨by rw [List.length_map]; exact hr row0 hrow0, ?_⟩
  intro c hc
  obtain ⟨_, _, rfl⟩ := List.mem_map.mp hc
  rfl

set_option maxRecDepth 100000 in
/-- With the sample stream every ship of the computer's fleet is placed at the first
try on the empty board. -/
theorem sample_fleet_placed :
    (placeShipsOfSizes 1 fleetSizes BattleGrid.new sampleRng 0).isSome = true := by
  decide

/-- `start` returns for the sample stream of draws, from every game whose computer
board has the shape the constructor gives it. -/
theorem start_returns (g0 : Game) (hw : GridWF g0.computerGrid.grid) :
    ∃ r, Game.start 1 g0 sampleRng 0 = some r := by
  unfold Game.start Game.placeComputerShips
  simp only [clear_of_wf g0.computerGrid hw]
  cases hplace : placeShipsOfSizes 1 fleetSizes BattleGrid.new sampleRng 0 with
  | none =>
    have := sample_fleet_placed
    rw [hplace] at this
    cases this
  | some r => exact ⟨_, rfl⟩

/-- C17 (the placement phase consumes the fixed fleet in order). `start`, whenever it
returns, returns in the phase `ShipPlacement` with the whole fleet
4,3,3,2,2,2,1,1,1,1 pending and no ship on the player's board, and it does return
for the sample stream of draws. In the state after `k < 10` successful placements:
a click in the player's grid falls on an in-grid cell; if `placeShip` accepts the
next size of the fleet (entry `k`, counted from 0) there, a ship of that size is
recorded at that cell as the last ship of the player's board, and the state is the
one after `k + 1` placements if `k + 1 < 10`, while on the 10th
the phase becomes `PlayerTurn` and the board holds exactly 10 ships with the sizes
of the fleet in order; if `placeShip` rejects it, the whole state is as before.
Every other event (a click outside the grid, a key, anything else) leaves the
player's board, the pending size, the remaining sizes and the phase as they are,
and every `update` tick leaves the whole state as it is. No draw is consumed. -/
theorem placement_consumes_fleet (k : Nat) (g : Game) (hk : k < 10) (hp : PlacementAt k g)
    (fuel : Nat) (rng : Nat → Nat) (pos : Nat) :
    (∀ g0 r, Game.start fuel g0 rng pos = some r →
      PlacementAt 0 r.1 ∧ r.1.playerGrid.ships = []) ∧
    (∀ g0 : Game, GridWF g0.computerGrid.grid →
      ∃ r, Game.start 1 g0 sampleRng 0 = some r ∧ PlacementAt 0 r.1) ∧
    (∀ mouseX mouseY, inPlayerArea mouseX mouseY →
      inGrid ((mouseX - GRID_OFFSET_X).tdiv CELL_SIZE)
        ((mouseY - GRID_OFFSET_Y).tdiv CELL_SIZE) = true ∧
      ((g.playerGrid.placeShip ((mouseX - GRID_OFFSET_X).tdiv CELL_SIZE)
          ((mouseY - GRID_OFFSET_Y).tdiv CELL_SIZE) (fleetSizes.getD k 0)
          g.currentShipHorizontal).1 = true →
        ∃ g1, g.handleEvent fuel (Event.mouseLeft mouseX mouseY) rng pos = some (g1, pos) ∧
          g1.playerGrid = (g.playerGrid.placeShip ((mouseX - GRID_OFFSET_X).tdiv CELL_SIZE)
            ((mouseY - GRID_OFFSET_Y).tdiv CELL_SIZE) (fleetSizes.getD k 0)
            g.currentShipHorizontal).2 ∧
          g1.playerGrid.ships = g.playerGrid.ships ++
            [Ship.new (fleetSizes.getD k 0) g.currentShipHorizontal
              ((mouseX - GRID_OFFSET_X).tdiv CELL_SIZE)
              ((mouseY - GRID_OFFSET_Y).tdiv CELL_SIZE)] ∧
          (k + 1 < 10 → PlacementAt (k + 1) g1) ∧
          (k + 1 = 10 → g1.state = GameState.PlayerTurn ∧
            g1.playerGrid.ships.map Ship.size = fleetSizes ∧
            g1.playerGrid.ships.length = 10)) ∧
      ((g.playerGrid.placeShip ((mouseX - GRID_OFFSET_X).tdiv CELL_SIZE)
          ((mouseY - GRID_OFFSET_Y).tdiv CELL_SIZE) (fleetSizes.getD k 0)
          g.currentShipHorizontal).1 = false →
        g.handleEvent fuel (Event.mouseLeft mouseX mouseY) rng pos = some (g, pos))) ∧
    (∀ event, (∀ mouseX mouseY, event = Event.mouseLeft mouseX mouseY →
        ¬ inPlayerArea mouseX mouseY) →
      ∃ g1, g.handleEvent fuel event rng pos = some (g1, pos) ∧
        g1.playerGrid = g.playerGrid ∧ PlacementAt k g1) ∧
    (∀ finished elapsedMs, g.update fuel finished elapsedMs rng pos = some (g, pos)) := by
  have hns : g.state ≠ GameState.DifficultySelection := by rw [hp.1]; simp
  have hclick : ∀ mouseX mouseY, g.handleEvent fuel (Event.mouseLeft mouseX mouseY) rng pos
      = some (g.placementClick mouseX mouseY, pos) := by
    intro mouseX mouseY
    unfold Game.handleEvent
    simp only [if_neg hns, if_pos hp.1]
  have hstart : ∀ fuel0 g0 rng0 pos0 r, Game.start fuel0 g0 rng0 pos0 = some r →
      PlacementAt 0 r.1 ∧ r.1.playerGrid.ships = [] := by
    intro fuel0 g0 rng0 pos0 r h
    obtain ⟨_, _, _, _, h5, h6, _, h8, h9, _⟩ := start_spec fuel0 g0 rng0 pos0 r h
    have hs : r.1.playerGrid.ships = [] := by rw [h9]; rfl
    exact ⟨⟨h5, h8, h6, by rw [hs]; rfl⟩, hs⟩
  refine ⟨fun g0 r h => hstart fuel g0 rng pos r h, ?_, ?_, ?_, ?_⟩
  · intro g0 hw
    obtain ⟨r, hr⟩ := start_returns g0 hw
    exact ⟨r, hr, (hstart 1 g0 sampleRng 0 r hr).1⟩
  · intro mouseX mouseY harea
    obtain ⟨hrej, hacc⟩ := placementClick_spec k g hk hp mouseX mouseY harea
    refine ⟨clickedCell_inGrid mouseX mouseY harea, ?_, ?_⟩
    · intro hres
      exact ⟨g.placementClick mouseX mouseY, hclick mouseX mouseY, hacc hres⟩
    · intro hres
      rw [hclick, hrej hres]
  · intro event hout
    cases event with
    | mouseLeft mouseX mouseY =>
      refine ⟨g.placementClick mouseX mouseY, hclick mouseX mouseY, ?_⟩
      have harea : ¬ (mouseX ≥ GRID_OFFSET_X ∧ mouseX < GRID_OFFSET_X + GRID_SIZE * CELL_SIZE ∧
          mouseY ≥ GRID_OFFSET_Y ∧ mouseY < GRID_OFFSET_Y + GRID_SIZE * CELL_SIZE) :=
        hout mouseX mouseY rfl
      unfold Game.placementClick
      rw [if_neg harea]
      split
      · exact ⟨rfl, hp⟩
      · exact ⟨rfl, hp⟩
    | keyR =>
      refine ⟨{ g with currentShipHorizontal := !g.currentShipHorizontal }, ?_, rfl, hp⟩
      unfold Game.handleEvent
      simp only [if_pos hp.1]
    | mouseOther => exact ⟨g, rfl, rfl, hp⟩
    | keyOther => exact ⟨g, rfl, rfl, hp⟩
    | other => exact ⟨g, rfl, rfl, hp⟩
  · intro finished elapsedMs
    unfold Game.update
    rw [if_neg (by rw [hp.1]; simp), if_neg (by rw [hp.1]; simp)]

set_option maxRecDepth 100000 in
/-- C17 on the sample run: `start` (Medium button) returns in the placement phase; the
first click, applied to the state after `start`, is accepted and records a size-4
ship at (0,0), after which the pending size is 3; the ten clicks of the run are ten
accepted placements, after which the phase is `PlayerTurn` and the player's board
holds ships of sizes 4,3,3,2,2,2,1,1,1,1. -/
theorem placement_consumes_fleet_witness :
    (Game.run 1 sampleRng samplePlacement (Game.new, 0)).map
      (fun r => (r.1.state, r.1.playerGrid.ships.map Ship.size))
      = some (GameState.PlayerTurn, [4, 3, 3, 2, 2, 2, 1, 1, 1, 1]) ∧
    ∃ g1, Game.handleEvent 1 ((Game.start 1 Game.new sampleRng 0).getD (Game.new, 0)).1
        (Event.mouseLeft 55 55) sampleRng 30 = some (g1, 30) ∧
      g1.playerGrid.ships = [Ship.new 4 true 0 0] ∧ PlacementAt 1 g1 :=
  ⟨by decide,
    (((placement_consumes_fleet 0 ((Game.start 1 Game.new sampleRng 0).getD (Game.new, 0)).1
      (by decide) ⟨by decide, by decide, by decide, by decide⟩ 1 sampleRng 30).2.2.1 55 55
      (by unfold inPlayerArea; decide)).2.1 (by decide)).imp
      (fun _ h => ⟨h.1, h.2.2.1, h.2.2.2.1 (by decide)⟩)⟩

end SeaBattle
